import Mathlib

/-!
# argo-dataflow: the Step reconciler and the sidecar sink fan-out

A shallow embedding of `controllers/step_controller.go` (`StepReconciler.Reconcile`,
`eventReason`) and of `runner/sidecar/sinks.go` (`connectSinks`).

Conventions of the embedding

* Go `map[string]string` values are association lists read with `mapGet` (a missing key reads
  as the empty string, as in Go) and written with `mapSet`.
* Go `int` values are `Int`; the conversion `uint32(x)` is `x % 2^32`.
* Every call that leaves the process (scheduler client, event recorder, container killer,
  driver constructors, drivers) is recorded in a trace of actions, and its failure is decided
  by an explicit record of faults.
-/

namespace ArgoDataflow

/-! ## Strings and maps -/

/-- Go map read `m[k]`: the value stored under `k`, the empty string when `k` is absent. -/
def mapGet : List (String × String) → String → String
  | [], _ => ""
  | (k, v) :: rest, key => if k = key then v else mapGet rest key

/-- Go map write `m[k] = v`: overwrites the entry of `k` when present, adds one otherwise. -/
def mapSet : List (String × String) → String → String → List (String × String)
  | [], key, val => [(key, val)]
  | (k, v) :: rest, key, val =>
    if k = key then (k, val) :: rest else (k, v) :: mapSet rest key val

/-- Go `for k, v := range src { dst[k] = v }`. -/
def mapCopy (dst src : List (String × String)) : List (String × String) :=
  src.foldl (fun m kv => mapSet m kv.1 kv.2) dst

/-- Go `strconv.Itoa`: the decimal text of an integer, `-` in front of a negative one. -/
def Itoa : Int → String
  | Int.ofNat n => Nat.repr n
  | Int.negSucc n => "-" ++ Nat.repr (n + 1)

/-- The value of one ASCII decimal digit (the byte minus the byte of `0`). -/
def digitVal (c : Char) : Nat := c.toNat - 48

/-- Whether a character is one of `0` .. `9`. -/
def isDigit (c : Char) : Bool := decide (48 ≤ c.toNat) && decide (c.toNat ≤ 57)

/-- The number written by a list of decimal digits, most significant first, continuing from
the value `acc` read so far (`n = n*10 + int(ch)` in `strconv.Atoi`). -/
def digitsValue (acc : Nat) (cs : List Char) : Nat :=
  cs.foldl (fun n ch => n * 10 + digitVal ch) acc

/-- The largest `uint64`. -/
def maxUint64 : Nat := 2 ^ 64 - 1

/-- The largest Go `int` on a 64-bit platform. -/
def maxInt : Int := 2 ^ 63 - 1

/-- The smallest Go `int` on a 64-bit platform. -/
def minInt : Int := -(2 ^ 63)

/-- What Go `strconv.ParseUint(s, 10, 64)` returns: a value, or the value 0 with a syntax error,
or the value `maxUint64` with a range error. -/
inductive ParseUintResult where
  | value (n : Nat)
  | syntaxError
  | rangeError
  deriving DecidableEq, Repr

/-- The loop of Go `strconv.ParseUint` in base 10, over the characters still to read, with the
number `n` read so far: a character that is not a decimal digit ends the scan with a syntax
error; a digit that takes the number past `maxUint64` ends it with a range error, whatever
follows that digit. -/
def scanDigits (n : Nat) : List Char → ParseUintResult
  | [] => ParseUintResult.value n
  | c :: cs =>
    if isDigit c then
      if n * 10 + digitVal c > maxUint64 then ParseUintResult.rangeError
      else scanDigits (n * 10 + digitVal c) cs
    else ParseUintResult.syntaxError

/-- Go `strconv.ParseUint(s, 10, 64)`: the empty text is a syntax error. -/
def ParseUint (cs : List Char) : ParseUintResult :=
  if cs.isEmpty then ParseUintResult.syntaxError else scanDigits 0 cs

/-- Go `strconv.ParseInt(s, 10, 0)` with the error dropped, on the text after the sign has
been picked off (`neg` tells whether the sign was `-`): a syntax error gives 0; a range error
of `ParseUint`, or a magnitude outside the range of `int`, gives the nearest bound of
`int`. -/
def parseIntAfterSign (neg : Bool) (cs : List Char) : Int :=
  match ParseUint cs with
  | ParseUintResult.syntaxError => 0
  | ParseUintResult.rangeError => if neg then minInt else maxInt
  | ParseUintResult.value un =>
    if neg then (if (un : Int) > 2 ^ 63 then minInt else -(un : Int))
    else (if (un : Int) ≥ 2 ^ 63 then maxInt else (un : Int))

/-- Go `i, _ := strconv.Atoi(s)` with the error dropped, as line 143 calls it. The fast path
of `Atoi` (texts shorter than 19 bytes) and `ParseInt` agree on every text, so this is
`ParseInt(s, 10, 0)`: an optional sign, then `ParseUint`; a text that is not a numeral gives 0,
a numeral out of range gives the nearest bound of `int`. The text is read as characters; a
character outside ASCII is not a digit, as none of its bytes is. -/
def Atoi (s : String) : Int :=
  match s.data with
  | [] => 0
  | c :: cs =>
    if c = '+' then parseIntAfterSign false cs
    else if c = '-' then parseIntAfterSign true cs
    else parseIntAfterSign false (c :: cs)

/-! ## Keys and container names

`dfv1.KeyReplica`, `dfv1.KeyHash`, `dfv1.KeyDefaultContainer`, `dfv1.KeyKillCmd`,
`dfv1.KeyPipelineName`, `dfv1.KeyStepName`, `dfv1.CtrMain`, `dfv1.CtrSidecar` and
`dfv1.PathKill` are declared in `api/v1alpha1`, in files other than the ones embedded here. -/

/-- Modelled from the spec: the constant `dfv1.KeyReplica` is missing; the spec names the pod
annotation that carries the replica index `replica`. -/
def KeyReplica : String := "replica"

/-- Modelled from the spec: the constant `dfv1.KeyHash` is missing; the spec names the pod
annotation that carries the spec fingerprint `hash`. -/
def KeyHash : String := "hash"

/-- Modelled from the spec: the constant `dfv1.KeyDefaultContainer` is missing; the spec names
the annotation `default-container`. -/
def KeyDefaultContainer : String := "default-container"

/-- Modelled from the spec: the function `dfv1.KeyKillCmd` is missing; the spec names the
annotation `kill-cmd.<containerName>`. -/
def KeyKillCmd (ctr : String) : String := "kill-cmd." ++ ctr

/-- Modelled from the spec: the constant `dfv1.KeyPipelineName` is missing; the spec names the
label `pipelineName`. -/
def KeyPipelineName : String := "pipelineName"

/-- Modelled from the spec: the constant `dfv1.KeyStepName` is missing; the spec names the label
`stepName`. -/
def KeyStepName : String := "stepName"

/-- Modelled from the spec: the constant `dfv1.CtrMain` is missing; the spec names the user
container `main`. -/
def CtrMain : String := "main"

/-- Modelled from the spec: the constant `dfv1.CtrSidecar` is missing; the spec names the
auxiliary container `sidecar`. -/
def CtrSidecar : String := "sidecar"

/-! ## Data model of the reconciler -/

/-- The step phase (`dfv1.StepPhase`). -/
inductive StepPhase where
  | Unknown
  | Pending
  | Running
  | Succeeded
  | Failed
  deriving DecidableEq, Repr

/-- Modelled from the spec: the method `StepPhase.Completed` is missing; the spec calls the
phases Succeeded and Failed terminal. -/
def StepPhase.Completed : StepPhase → Bool
  | StepPhase.Succeeded => true
  | StepPhase.Failed => true
  | _ => false

/-- A (phase, message) pair (`dfv1.StepPhaseMessage`). -/
structure StepPhaseMessage where
  phase : StepPhase
  message : String
  deriving DecidableEq, Repr

/-- Modelled from the spec: the constructor `dfv1.NewStepPhaseMessage` is missing; the spec
describes a StepPhaseMessage as a (phase, message) pair. -/
def NewStepPhaseMessage (phase : StepPhase) (message : String) : StepPhaseMessage :=
  ⟨phase, message⟩

/-- Modelled from the spec: the getter `StepPhaseMessage.GetPhase` is missing. -/
def StepPhaseMessage.GetPhase (x : StepPhaseMessage) : StepPhase := x.phase

/-- Modelled from the spec: the getter `StepPhaseMessage.GetMessage` is missing. -/
def StepPhaseMessage.GetMessage (x : StepPhaseMessage) : String := x.message

/-- Modelled from the spec: the severity order `Failed > Unknown > Pending > Running >
Succeeded` that the spec gives for aggregation, as a rank. -/
def severity : StepPhase → Nat
  | StepPhase.Failed => 4
  | StepPhase.Unknown => 3
  | StepPhase.Pending => 2
  | StepPhase.Running => 1
  | StepPhase.Succeeded => 0

/-- Modelled from the spec: the variadic function `dfv1.MinStepPhaseMessage` is missing. The
spec: over a set of (phase, message) pairs it selects the highest-severity phase using the order
`Failed > Unknown > Pending > Running > Succeeded`; the message is the one attached to the
selected phase; ties keep the first seen. -/
def MinStepPhaseMessage : List StepPhaseMessage → StepPhaseMessage
  | [] => ⟨StepPhase.Unknown, ""⟩
  | x :: xs =>
    xs.foldl (fun best y => if severity best.phase < severity y.phase then y else best) x

/-- The state of a container (`corev1.ContainerState`): which of its three members is set. -/
inductive ContainerState where
  | waiting
  | running
  | terminated
  deriving DecidableEq, Repr

/-- One entry of `pod.Status.ContainerStatuses`. -/
structure ContainerStatus where
  name : String
  state : ContainerState
  deriving DecidableEq, Repr

/-- The observed status of a pod. -/
structure PodStatus where
  phase : String
  containerStatuses : List ContainerStatus
  deriving DecidableEq, Repr

/-- A replica pod (`corev1.Pod`), with the members the reconciler reads or writes. The pod spec
is kept as the opaque value that `GetPodSpec` returned. -/
structure Pod where
  ns : String
  name : String
  labels : List (String × String)
  annotations : List (String × String)
  ownerReferences : List String
  spec : String
  status : PodStatus
  deriving DecidableEq, Repr

/-- The metadata a step propagates to its pods (`step.Spec.Metadata`). -/
structure Metadata where
  annotations : List (String × String)
  labels : List (String × String)
  deriving DecidableEq, Repr

/-- The step spec, with the members the reconciler reads; `template` stands for everything
else in it (the hash and the pod spec are functions of the whole spec). -/
structure StepSpec where
  name : String
  metadata : Option Metadata
  template : String
  deriving DecidableEq, Repr

/-- The step status (`dfv1.StepStatus`); `replicas` is a `uint32`, the two counter maps are
owned by the sidecar and `none` stands for a nil map. -/
structure StepStatus where
  phase : StepPhase
  message : String
  replicas : Nat
  lastScaledAt : Option Nat
  sinkStatues : Option (List (String × Nat))
  sourceStatues : Option (List (String × Nat))
  deriving DecidableEq, Repr

/-- The step object (`dfv1.Step`); `status` is a pointer and may be nil. -/
structure Step where
  ns : String
  name : String
  labels : List (String × String)
  deletionTimestamp : Option Nat
  spec : StepSpec
  status : Option StepStatus
  deriving DecidableEq, Repr

/-- Modelled from the spec: the nil-safe getter `StepStatus.GetReplicas` is missing; it returns
the current replicas of the status as an `int`, and `0` for a nil status. -/
def GetReplicas : Option StepStatus → Int
  | none => 0
  | some s => (s.replicas : Int)

/-- The zero value `&dfv1.StepStatus{}`. -/
def emptyStatus : StepStatus := ⟨StepPhase.Unknown, "", 0, none, none, none⟩

/-- The functions of the repository that `Reconcile` calls and whose bodies lie in other
files of the repository, taken as parameters: `step.GetTargetReplicas()` (the spec derives the target
replica count from the step spec, so it is a function of the spec), `util.MustHash(step.Spec)`,
`step.Spec.GetPodSpec(pipelineName, namespace, replica)`, `inferPhase(pod)`,
`dfv1.RequeueAfter(currentReplicas, targetReplicas)` and the value of
`util.MustJSON([]string{dfv1.PathKill, "1"})`. With them goes the library function
`labels.Parse`: `ParseSelector text` is the selector it returns, as a predicate on the labels
of a pod, and `none` when the text does not parse. -/
structure Deps where
  ParseSelector : String → Option (List (String × String) → Bool)
  GetTargetReplicas : StepSpec → Int
  MustHash : StepSpec → String
  GetPodSpec : StepSpec → String → String → Int → String
  inferPhase : Pod → StepPhase × String
  RequeueAfter : Int → Int → Nat
  killCmd : String

/-! ## The scheduler, the recorder and the container killer -/

/-- The kinds of error a scheduler call returns. -/
inductive ClientError where
  | NotFound
  | AlreadyExists
  | Conflict
  | Other
  deriving DecidableEq, Repr

/-- The helper `client.IgnoreNotFound`. -/
def IgnoreNotFound : Option ClientError → Option ClientError
  | some ClientError.NotFound => none
  | e => e

/-- Modelled from the spec: the helper `dfv1.IgnoreAlreadyExists` is missing; an already-exists
error on create is swallowed. -/
def IgnoreAlreadyExists : Option ClientError → Option ClientError
  | some ClientError.AlreadyExists => none
  | e => e

/-- Modelled from the spec: the helper `dfv1.IgnoreConflict` is missing; a conflict error on the
status patch is swallowed. -/
def IgnoreConflict : Option ClientError → Option ClientError
  | some ClientError.Conflict => none
  | e => e

/-- What the outside does during one pass: which calls fail with an error that is not one of
the swallowed kinds, whether the status patch meets a conflict, and the clock. A Delete that
the scheduler refuses is a failing Delete: the RBAC marker of line 55 grants the reconciler
`get;watch;list;create` on pods and no `delete`. -/
structure Calls where
  getFails : Bool
  createFails : Pod → Bool
  listFails : Bool
  deleteFails : Pod → Bool
  killFails : Pod → String → Bool
  patchResult : Option ClientError
  now : Nat

/-- The pass in which no call fails, at time `t`. -/
def Calls.ok (t : Nat) : Calls :=
  ⟨false, fun _ => false, false, fun _ => false, fun _ _ => false, none, t⟩

/-- The objects the scheduler holds: the step under the reconciled key (if any) and the pods. -/
structure World where
  step : Option Step
  pods : List Pod
  deriving DecidableEq, Repr

/-- A call that leaves the reconciler, as recorded in the trace of a pass. -/
inductive Action where
  | create (p : Pod)
  | delete (p : Pod)
  | kill (p : Pod) (ctr : String)
  | event (type reason message : String)
  | patch (s : StepStatus)
  deriving DecidableEq, Repr

/-- The errors `Reconcile` returns: `client.Get` failed, `failed to create pod <name>`,
`failed to list pods`, `failed to delete excess pod <name>`,
`failed to kill container <pod>/<container>`, `failed to patch status`. -/
inductive ReconcileError where
  | get
  | createPod (podName : String)
  | listPods
  | deletePod (podName : String)
  | killContainer (podName ctr : String)
  | patchStatus
  deriving DecidableEq, Repr

/-- Whether two pods are the same object of the scheduler (same namespace and name). -/
def samePod (p q : Pod) : Bool := decide (p.ns = q.ns) && decide (p.name = q.name)

/-- The call `r.Client.Create(ctx, pod)`: fails when the outside makes it fail, reports
AlreadyExists when the object exists, stores the pod otherwise. -/
def clientCreate (c : Calls) (store : List Pod) (pod : Pod) : Option ClientError × List Pod :=
  if c.createFails pod then (some ClientError.Other, store)
  else if store.any (samePod pod) then (some ClientError.AlreadyExists, store)
  else (none, store ++ [pod])

/-- The call `r.Client.Delete(ctx, &pod)`: fails when the outside makes it fail, reports
NotFound when the object is gone, removes the pod otherwise. -/
def clientDelete (c : Calls) (store : List Pod) (pod : Pod) : Option ClientError × List Pod :=
  if c.deleteFails pod then (some ClientError.Other, store)
  else if store.any (samePod pod) then (none, store.filter (fun q => !samePod pod q))
  else (some ClientError.NotFound, store)

/-- The text of the label selector built at line 120:
`KeyPipelineName + "=" + pipelineName + "," + KeyStepName + "=" + step.Spec.Name`. -/
def selectorText (pipelineName stepName : String) : String :=
  KeyPipelineName ++ "=" ++ pipelineName ++ "," ++ KeyStepName ++ "=" ++ stepName

/-- Whether the list call returns a pod: the pod is in the namespace `ns` and the selector
matches its labels. The selector is what `labels.Parse` returned at line 120; its error is
dropped there, so when the text does not parse the selector is nil (`none`) and every pod of
the namespace is returned. -/
def selects (ns : String) (selector : Option (List (String × String) → Bool)) (pod : Pod) :
    Bool :=
  decide (pod.ns = ns) &&
    match selector with
    | none => true
    | some sel => sel pod.labels

/-- The call `r.Client.List(ctx, pods, &client.ListOptions{Namespace, LabelSelector})`: the
stored pods of the namespace that the selector matches. -/
def clientList (c : Calls) (store : List Pod) (ns : String)
    (selector : Option (List (String × String) → Bool)) : Except ClientError (List Pod) :=
  if c.listFails then Except.error ClientError.Other
  else Except.ok (store.filter (selects ns selector))

/-! ## `StepReconciler.Reconcile` -/

/-- The function `eventReason` (lines 184-190). -/
def eventReason (currentReplicas targetReplicas : Int) : String :=
  if targetReplicas > currentReplicas then "ScaleUp" else "ScaleDown"

/-- The pod object built for one replica (lines 79-112): name `<step.Name>-<replica>`, the
user labels and annotations overwritten by the reconciler's own, a controller reference to the
step, the pod spec of the replica, and an empty status. -/
def newPod (d : Deps) (step : Step) (pipelineName hash : String) (replica : Nat) : Pod :=
  let userAnnotations := match step.spec.metadata with
    | none => []
    | some x => mapCopy [] x.annotations
  let userLabels := match step.spec.metadata with
    | none => []
    | some x => mapCopy [] x.labels
  let labels1 := mapSet userLabels KeyStepName step.spec.name
  let labels2 := mapSet labels1 KeyPipelineName pipelineName
  let a1 := mapSet userAnnotations KeyReplica (Itoa (replica : Int))
  let a2 := mapSet a1 KeyHash hash
  let a3 := mapSet a2 KeyDefaultContainer CtrMain
  let a4 := mapSet a3 (KeyKillCmd CtrMain) d.killCmd
  let a5 := mapSet a4 (KeyKillCmd CtrSidecar) d.killCmd
  { ns := step.ns
    name := step.name ++ "-" ++ Itoa (replica : Int)
    labels := labels2
    annotations := a5
    ownerReferences := [step.name]
    spec := d.GetPodSpec step.spec pipelineName step.ns (replica : Int)
    status := ⟨"", []⟩ }

/-- What the creation loop leaves: the error it stopped with (if any), the calls it made and
the pods the scheduler holds afterwards. -/
structure CreateOut where
  err : Option ReconcileError
  actions : List Action
  store : List Pod

/-- The loop `for replica := 0; replica < targetReplicas; replica++` (lines 78-116), over the
replica indices still to visit. An AlreadyExists error is swallowed, any other error stops the
pass. -/
def createPods (d : Deps) (c : Calls) (step : Step) (pipelineName hash : String) :
    List Nat → List Pod → CreateOut
  | [], store => ⟨none, [], store⟩
  | replica :: rest, store =>
    let pod := newPod d step pipelineName hash replica
    let res := clientCreate c store pod
    match IgnoreAlreadyExists res.1 with
    | some _ => ⟨some (ReconcileError.createPod pod.name), [Action.create pod], res.2⟩
    | none =>
      let out := createPods d c step pipelineName hash rest res.2
      ⟨out.err, Action.create pod :: out.actions, out.store⟩

/-- Lines 77-117: the creation loop runs when the status is nil or its phase is not completed
(`once a step is completed, we do not schedule or create pods`). -/
def createStage (d : Deps) (c : Calls) (step : Step) (pipelineName hash : String)
    (targetReplicas : Int) (store : List Pod) : CreateOut :=
  if step.status.isNone || !(step.status.getD emptyStatus).phase.Completed then
    createPods d c step pipelineName hash (List.range targetReplicas.toNat) store
  else ⟨none, [], store⟩

/-- The condition of line 143 without the deletion budget: the replica annotation, read with
`strconv.Atoi`, is at least `targetReplicas`, or the hash annotation is not the current hash. -/
def needsDelete (targetReplicas : Int) (hash : String) (pod : Pod) : Bool :=
  decide (Atoi (mapGet pod.annotations KeyReplica) ≥ targetReplicas) ||
    decide (hash ≠ mapGet pod.annotations KeyHash)

/-- The flag `mainCtrTerminated` (lines 155-158): some container status is named main and is
in the Terminated state. -/
def mainCtrTerminated (pod : Pod) : Bool :=
  pod.status.containerStatuses.foldl
    (fun acc s => acc || (decide (s.name = CtrMain) && decide (s.state = ContainerState.terminated)))
    false

/-- The loop of lines 160-166 over the container statuses still to visit: `KillContainer` for
every status whose name is not main, stopping at the first failure. -/
def killSidecars (c : Calls) (pod : Pod) :
    List ContainerStatus → Option ReconcileError × List Action
  | [] => (none, [])
  | s :: rest =>
    if s.name ≠ CtrMain then
      if c.killFails pod s.name then
        (some (ReconcileError.killContainer pod.name s.name), [Action.kill pod s.name])
      else
        let out := killSidecars c pod rest
        (out.1, Action.kill pod s.name :: out.2)
    else killSidecars c pod rest

/-- What the per-pod loop leaves: the error it stopped with (if any), the calls it made, the
aggregated phase and message, and the pods the scheduler holds afterwards. -/
structure LoopOut where
  err : Option ReconcileError
  actions : List Action
  phase : StepPhase
  message : String
  store : List Pod

/-- The loop `for _, pod := range pods.Items` (lines 142-169), over the listed pods still to
visit, with the flag `deletedPods`, the phase and message of `newStatus` so far, and the pods
the scheduler holds. A NotFound error of the delete is swallowed. -/
def podLoop (d : Deps) (c : Calls) (targetReplicas : Int) (hash : String) :
    List Pod → Bool → StepPhase → String → List Pod → LoopOut
  | [], _, phase, message, store => ⟨none, [], phase, message, store⟩
  | pod :: rest, deletedPods, phase, message, store =>
    if needsDelete targetReplicas hash pod && !deletedPods then
      let res := clientDelete c store pod
      match IgnoreNotFound res.1 with
      | some _ => ⟨some (ReconcileError.deletePod pod.name), [Action.delete pod], phase, message,
          res.2⟩
      | none =>
        let out := podLoop d c targetReplicas hash rest true phase message res.2
        { out with actions := Action.delete pod :: out.actions }
    else
      let inferred := d.inferPhase pod
      let x := MinStepPhaseMessage
        [NewStepPhaseMessage phase message, NewStepPhaseMessage inferred.1 inferred.2]
      if mainCtrTerminated pod then
        match killSidecars c pod pod.status.containerStatuses with
        | (some e, acts) => ⟨some e, acts, x.GetPhase, x.GetMessage, store⟩
        | (none, acts) =>
          let out := podLoop d c targetReplicas hash rest deletedPods x.GetPhase x.GetMessage store
          { out with actions := acts ++ out.actions }
      else
        podLoop d c targetReplicas hash rest deletedPods x.GetPhase x.GetMessage store

/-- What one pass of `Reconcile` leaves: the returned error (if any), the returned requeue
delay, the calls made in order, the result of the list call when it was reached and succeeded,
the `oldStatus` and `newStatus` compared at line 171 when the pass got there, and the objects
the scheduler holds afterwards. -/
structure Outcome where
  err : Option ReconcileError
  requeueAfter : Option Nat
  actions : List Action
  listed : Option (List Pod)
  oldStatus : Option StepStatus
  newStatus : Option StepStatus
  world : World

/-- The status the scheduler stores once the merge patch of `newStatus` is applied: the fields
the reconciler owns are replaced, the counter maps (absent from the patch) are kept. -/
def applyPatch (stored : Option StepStatus) (newStatus : StepStatus) : StepStatus :=
  { newStatus with
    sinkStatues := (stored.getD emptyStatus).sinkStatues
    sourceStatues := (stored.getD emptyStatus).sourceStatues }

/-- Lines 125-131: the loaded status (the zero status when nil) with the two counter maps,
which the reconciler does not own, set to nil. -/
def oldStatusOf (step : Step) : StepStatus :=
  { step.status.getD emptyStatus with sinkStatues := none, sourceStatues := none }

/-- Lines 132-139, the status part: `newStatus` is a copy of `oldStatus` with phase Unknown;
when the current replicas differ from the target, `lastScaledAt` is now and `replicas` is
`uint32(targetReplicas)`. -/
def scaledStatus (c : Calls) (oldStatus : StepStatus) (currentReplicas targetReplicas : Int) :
    StepStatus :=
  if currentReplicas ≠ targetReplicas then
    { oldStatus with
      phase := StepPhase.Unknown
      lastScaledAt := some c.now
      replicas := (targetReplicas % 2 ^ 32).toNat }
  else { oldStatus with phase := StepPhase.Unknown }

/-- Lines 135-139, the event part: one event of type Normal when the current replicas differ
from the target. -/
def scaleEvents (currentReplicas targetReplicas : Int) : List Action :=
  if currentReplicas ≠ targetReplicas then
    [Action.event "Normal" (eventReason currentReplicas targetReplicas)
      ("Scaling from " ++ Itoa currentReplicas ++ " to " ++ Itoa targetReplicas)]
  else []

/-- Modelled from the spec: the helper `util.NotEqual` is missing; the patch is issued when
the new status differs from the loaded status. -/
def NotEqual (a b : StepStatus) : Bool := decide (a ≠ b)

/-- Lines 171-181: the status patch, issued when `newStatus` differs from `oldStatus`; a
conflict is swallowed (and the stored status is then left as it was), any other error is
returned. `acts` are the calls made so far, `store` the pods held, `pods` the list result. -/
def patchStage (d : Deps) (c : Calls) (step : Step) (currentReplicas targetReplicas : Int)
    (acts : List Action) (pods store : List Pod) (oldStatus newStatus : StepStatus) : Outcome :=
  if NotEqual oldStatus newStatus then
    match IgnoreConflict c.patchResult with
    | some _ =>
      ⟨some ReconcileError.patchStatus, none, acts ++ [Action.patch newStatus], some pods,
        some oldStatus, some newStatus, ⟨some step, store⟩⟩
    | none =>
      let step1 :=
        if c.patchResult = none then
          { step with status := some (applyPatch step.status newStatus) }
        else step
      ⟨none, some (d.RequeueAfter currentReplicas targetReplicas),
        acts ++ [Action.patch newStatus], some pods, some oldStatus, some newStatus,
        ⟨some step1, store⟩⟩
  else
    ⟨none, some (d.RequeueAfter currentReplicas targetReplicas), acts, some pods,
      some oldStatus, some newStatus, ⟨some step, store⟩⟩

/-- Lines 125-182: everything `Reconcile` does once the pods are listed. `created` are the
calls of the creation loop, `store` the pods held after it, `pods` the list result. -/
def reconcileListed (d : Deps) (c : Calls) (step : Step) (currentReplicas targetReplicas : Int)
    (hash : String) (created : List Action) (store : List Pod) (pods : List Pod) : Outcome :=
  let oldStatus := oldStatusOf step
  let newStatus1 := scaledStatus c oldStatus currentReplicas targetReplicas
  let events := scaleEvents currentReplicas targetReplicas
  let loop := podLoop d c targetReplicas hash pods false newStatus1.phase newStatus1.message store
  let newStatus := { newStatus1 with phase := loop.phase, message := loop.message }
  match loop.err with
  | some e =>
    ⟨some e, none, created ++ events ++ loop.actions, some pods, none, none,
      ⟨some step, loop.store⟩⟩
  | none =>
    patchStage d c step currentReplicas targetReplicas (created ++ events ++ loop.actions) pods
      loop.store oldStatus newStatus

/-- The method `StepReconciler.Reconcile` (lines 57-182): one pass over the step of the
reconciled key. -/
def Reconcile (d : Deps) (c : Calls) (w : World) : Outcome :=
  if c.getFails then ⟨some ReconcileError.get, none, [], none, none, none, w⟩
  else
    match w.step with
    | none => ⟨none, some 0, [], none, none, none, w⟩
    | some step =>
      if step.deletionTimestamp.isSome then ⟨none, some 0, [], none, none, none, w⟩
      else
        let pipelineName := mapGet step.labels KeyPipelineName
        let currentReplicas := GetReplicas step.status
        let targetReplicas := d.GetTargetReplicas step.spec
        let hash := d.MustHash step.spec
        let created := createStage d c step pipelineName hash targetReplicas w.pods
        match created.err with
        | some e => ⟨some e, none, created.actions, none, none, none, ⟨some step, created.store⟩⟩
        | none =>
          let selector := d.ParseSelector (selectorText pipelineName step.spec.name)
          match clientList c created.store step.ns selector with
          | Except.error _ =>
            ⟨some ReconcileError.listPods, none, created.actions, none, none, none,
              ⟨some step, created.store⟩⟩
          | Except.ok pods =>
            reconcileListed d c step currentReplicas targetReplicas hash created.actions
              created.store pods

/-! ### Reading a trace -/

/-- The pods of the `Delete` calls of a trace, in order. -/
def deletesOf : List Action → List Pod
  | [] => []
  | Action.delete p :: rest => p :: deletesOf rest
  | _ :: rest => deletesOf rest

/-- The pods of the `Create` calls of a trace, in order. -/
def createsOf : List Action → List Pod
  | [] => []
  | Action.create p :: rest => p :: createsOf rest
  | _ :: rest => createsOf rest

/-- The `KillContainer` calls of a trace, in order. -/
def killsOf : List Action → List (Pod × String)
  | [] => []
  | Action.kill p ctr :: rest => (p, ctr) :: killsOf rest
  | _ :: rest => killsOf rest

/-- The events of a trace, in order: type, reason, message. -/
def eventsOf : List Action → List (String × String × String)
  | [] => []
  | Action.event t r m :: rest => (t, r, m) :: eventsOf rest
  | _ :: rest => eventsOf rest

/-- The status patches of a trace, in order. -/
def patchesOf : List Action → List StepStatus
  | [] => []
  | Action.patch s :: rest => s :: patchesOf rest
  | _ :: rest => patchesOf rest

/-- The aggregation of lines 150-153 for one pod: the phase and message of `newStatus` so far
combined with the inferred phase and message of the pod. -/
def aggregate (d : Deps) (pm : StepPhaseMessage) (pod : Pod) : StepPhaseMessage :=
  MinStepPhaseMessage
    [NewStepPhaseMessage pm.phase pm.message,
      NewStepPhaseMessage (d.inferPhase pod).1 (d.inferPhase pod).2]

/-- The pods of a list result that a pass does not delete when every call succeeds: all but
the first one that meets the deletion condition. -/
def keptPods (targetReplicas : Int) (hash : String) (pods : List Pod) : List Pod :=
  pods.eraseP (needsDelete targetReplicas hash)

/-- The `KillContainer` calls expected for a pod that is not deleted: when some container
status is named main and Terminated, one call per container status not named main, in order;
none otherwise. -/
def expectedKills (pod : Pod) : List (Pod × String) :=
  if pod.status.containerStatuses.any
      (fun s => decide (s.name = CtrMain) && decide (s.state = ContainerState.terminated)) then
    (pod.status.containerStatuses.filter (fun s => decide (s.name ≠ CtrMain))).map
      (fun s => (pod, s.name))
  else []

/-! ## `connectSinks` -/

deriving instance DecidableEq for Except

/-- The driver variants of a sink. -/
inductive Variant where
  | stan
  | kafka
  | log
  | http
  | s3
  | db
  | volume
  deriving DecidableEq, Repr

/-- A sink record (`dfv1.Sink`): its name and one pointer per driver variant, `none` for nil.
The declaration in `api/v1alpha1/sink.go` lists `Name`, `STAN` and `Kafka`; `connectSinks`
also reads `Log`, `HTTP`, `S3`, `DB` and `Volume`, the other variants the spec lists. -/
structure Sink where
  Name : String
  STAN : Option String
  Kafka : Option String
  Log : Option String
  HTTP : Option String
  S3 : Option String
  DB : Option String
  Volume : Option String
  deriving DecidableEq, Repr

/-- A connected sink driver (`sink.Interface`): the variant it was built for, the sink name and
configuration it was built with, and whether it implements `io.Closer`. -/
structure Driver where
  variant : Variant
  sinkName : String
  config : String
  closer : Bool
  deriving DecidableEq, Repr

/-- What lies outside `connectSinks`: the driver constructors (`stan.New`, `kafka.New`,
`logsink.New`, `http.New`, `s3sink.New`, `dbsink.New`, `volumesink.New`; all but the log one
may fail), the call `f.Sink(ctx, msg)` of a driver, the replica index of the sidecar, and the
order in which `range` visits the entries of a Go map (the language leaves it unspecified). -/
structure SinkEnv where
  stanNew : String → String → Except String Driver
  kafkaNew : String → String → Except String Driver
  logNew : String → String → Driver
  httpNew : String → String → Except String Driver
  s3New : String → String → Except String Driver
  dbNew : String → String → Except String Driver
  volumeNew : String → Except String Driver
  sinkCall : Driver → List Nat → Option String
  replica : Nat
  rangeOrder : List (String × Driver) → List (String × Driver)

/-- The errors `connectSinks` returns: `duplicate sink named "<name>"`, `sink misconfigured`,
or the error of a driver constructor. -/
inductive ConnectError where
  | duplicate (sinkName : String)
  | misconfigured
  | driver (msg : String)
  deriving DecidableEq, Repr

/-- A call made while connecting: a driver constructor, or `addStopHook`. -/
inductive ConnectAction where
  | new (v : Variant) (sinkName : String)
  | addStopHook (sinkName : String)
  deriving DecidableEq, Repr

/-- Turns the result of a failing constructor into the result of `connectSinks`. -/
def liftNew (v : Variant) (sinkName : String) (r : Except String Driver) :
    Except ConnectError Driver × List ConnectAction :=
  match r with
  | Except.error e => (Except.error (ConnectError.driver e), [ConnectAction.new v sinkName])
  | Except.ok y => (Except.ok y, [ConnectAction.new v sinkName])

/-- The chain `if x := s.STAN; x != nil ... else if ... else` of lines 37-77: the driver of the
first populated variant in the order STAN, Kafka, Log, HTTP, S3, DB, Volume, and
`sink misconfigured` when none is populated. -/
def connectDriver (env : SinkEnv) (s : Sink) : Except ConnectError Driver × List ConnectAction :=
  match s.STAN with
  | some x => liftNew Variant.stan s.Name (env.stanNew s.Name x)
  | none =>
  match s.Kafka with
  | some x => liftNew Variant.kafka s.Name (env.kafkaNew s.Name x)
  | none =>
  match s.Log with
  | some x => (Except.ok (env.logNew s.Name x), [ConnectAction.new Variant.log s.Name])
  | none =>
  match s.HTTP with
  | some x => liftNew Variant.http s.Name (env.httpNew s.Name x)
  | none =>
  match s.S3 with
  | some x => liftNew Variant.s3 s.Name (env.s3New s.Name x)
  | none =>
  match s.DB with
  | some x => liftNew Variant.db s.Name (env.dbNew s.Name x)
  | none =>
  match s.Volume with
  | some _ => liftNew Variant.volume s.Name (env.volumeNew s.Name)
  | none => (Except.error ConnectError.misconfigured, [])

/-- The loop `for _, s := range step.Spec.Sinks` (lines 31-85) over the sinks still to visit,
with the map `sinks` built so far (its entries in insertion order). -/
def connectLoop (env : SinkEnv) :
    List Sink → List (String × Driver) →
      Except ConnectError (List (String × Driver)) × List ConnectAction
  | [], sinks => (Except.ok sinks, [])
  | s :: rest, sinks =>
    if (sinks.lookup s.Name).isSome then (Except.error (ConnectError.duplicate s.Name), [])
    else
      match connectDriver env s with
      | (Except.error e, acts) => (Except.error e, acts)
      | (Except.ok y, acts) =>
        let hook := if y.closer then [ConnectAction.addStopHook s.Name] else []
        let out := connectLoop env rest (sinks ++ [(s.Name, y)])
        (out.1, acts ++ hook ++ out.2)

/-- The function `connectSinks` (lines 24-100): the map of connected drivers that the returned
send function closes over, or the error; and the calls made. -/
def connectSinks (env : SinkEnv) (sinks : List Sink) :
    Except ConnectError (List (String × Driver)) × List ConnectAction :=
  connectLoop env sinks []

/-- A step of the returned send function. -/
inductive SendAction where
  | counterInc (sinkName : String)
  | incrTotal (sinkName : String) (replica bytes : Nat)
  | sink (sinkName : String)
  | incrErrors (sinkName : String) (replica : Nat)
  deriving DecidableEq, Repr

/-- The loop `for sinkName, f := range sinks` of the send function (lines 88-97) over the map
entries still to visit. -/
def sendLoop (env : SinkEnv) (msg : List Nat) :
    List (String × Driver) → Option String × List SendAction
  | [] => (none, [])
  | (sinkName, f) :: rest =>
    let pre := [SendAction.counterInc sinkName,
      SendAction.incrTotal sinkName env.replica msg.length, SendAction.sink sinkName]
    match env.sinkCall f msg with
    | some e => (some e, pre ++ [SendAction.incrErrors sinkName env.replica])
    | none =>
      let out := sendLoop env msg rest
      (out.1, pre ++ out.2)

/-- The send function `connectSinks` returns (lines 87-99), over the map `sinks` it closes
over: the entries are visited in the order `range` yields them. -/
def send (env : SinkEnv) (sinks : List (String × Driver)) (msg : List Nat) :
    Option String × List SendAction :=
  sendLoop env msg (env.rangeOrder sinks)

/-- The names of the sinks whose driver a run of the send function invoked, in order. -/
def sinkCallsOf : List SendAction → List String
  | [] => []
  | SendAction.sink n :: rest => n :: sinkCallsOf rest
  | _ :: rest => sinkCallsOf rest

/-- The driver constructor calls of a connect trace, in order. -/
def newsOf : List ConnectAction → List (Variant × String)
  | [] => []
  | ConnectAction.new v n :: rest => (v, n) :: newsOf rest
  | _ :: rest => newsOf rest

/-- How many driver variants of a sink record are populated. -/
def populated (s : Sink) : Nat :=
  [s.STAN, s.Kafka, s.HTTP, s.S3, s.DB, s.Log, s.Volume].countP Option.isSome

/-- The populated variant that comes first in the order STAN, Kafka, Log, HTTP, S3, DB,
Volume, if any. -/
def firstPopulated (s : Sink) : Option Variant :=
  if s.STAN.isSome then some Variant.stan
  else if s.Kafka.isSome then some Variant.kafka
  else if s.Log.isSome then some Variant.log
  else if s.HTTP.isSome then some Variant.http
  else if s.S3.isSome then some Variant.s3
  else if s.DB.isSome then some Variant.db
  else if s.Volume.isSome then some Variant.volume
  else none

/-! ## Instances used for concrete evaluation -/

/-- A phase inference for concrete evaluation: it reads the pod phase and gives the step phase
of the same name (Unknown for any other text), with the pod name as message. -/
def phaseOfPod (p : Pod) : StepPhase × String :=
  if p.status.phase = "Running" then (StepPhase.Running, p.name)
  else if p.status.phase = "Pending" then (StepPhase.Pending, p.name)
  else if p.status.phase = "Succeeded" then (StepPhase.Succeeded, p.name)
  else if p.status.phase = "Failed" then (StepPhase.Failed, p.name)
  else (StepPhase.Unknown, p.name)

/-- The selector `pipelineName=<p>,stepName=<s>`: both labels are present with these
values. -/
def equalitySelector (pipelineName stepName : String) (labels : List (String × String)) : Bool :=
  decide (labels.lookup KeyPipelineName = some pipelineName) &&
    decide (labels.lookup KeyStepName = some stepName)

/-- Dependencies for concrete evaluation: `n` target replicas, spec hash `h`, and a selector
parser that knows the selector text of the step `s` of pipeline `p`. -/
def exDeps (n : Int) (h : String) : Deps :=
  { ParseSelector := fun text =>
      if text = selectorText "p" "s" then some (equalitySelector "p" "s") else none
    GetTargetReplicas := fun _ => n
    MustHash := fun _ => h
    GetPodSpec := fun _ _ _ _ => ""
    inferPhase := phaseOfPod
    RequeueAfter := fun _ _ => 10
    killCmd := "k" }

/-- The step `s` of pipeline `p` in namespace `ns`, with the given status. -/
def exStep (status : Option StepStatus) : Step :=
  { ns := "ns"
    name := "s"
    labels := [(KeyPipelineName, "p")]
    deletionTimestamp := none
    spec := ⟨"s", none, ""⟩
    status := status }

/-- A status with the given phase and replicas and nothing else. -/
def exStatus (phase : StepPhase) (replicas : Nat) : StepStatus :=
  ⟨phase, "", replicas, none, none, none⟩

/-- A pod of step `s`: replica index `r`, hash annotation `h`, pod phase `phase` and the given
container statuses. -/
def exPod (r : Nat) (h phase : String) (cs : List ContainerStatus) : Pod :=
  { ns := "ns"
    name := "s-" ++ Itoa (r : Int)
    labels := [(KeyStepName, "s"), (KeyPipelineName, "p")]
    annotations := [(KeyReplica, Itoa (r : Int)), (KeyHash, h)]
    ownerReferences := ["s"]
    spec := ""
    status := ⟨phase, cs⟩ }


/-- A sink environment in which every constructor succeeds, every driver accepts every message
and `range` visits the map in insertion order. -/
def plainEnv : SinkEnv :=
  { stanNew := fun n x => Except.ok ⟨Variant.stan, n, x, true⟩
    kafkaNew := fun n x => Except.ok ⟨Variant.kafka, n, x, true⟩
    logNew := fun n x => ⟨Variant.log, n, x, false⟩
    httpNew := fun n x => Except.ok ⟨Variant.http, n, x, false⟩
    s3New := fun n x => Except.ok ⟨Variant.s3, n, x, false⟩
    dbNew := fun n x => Except.ok ⟨Variant.db, n, x, true⟩
    volumeNew := fun n => Except.ok ⟨Variant.volume, n, "", false⟩
    sinkCall := fun _ _ => none
    replica := 0
    rangeOrder := fun m => m }

/-- The environment `plainEnv` with `range` visiting the map in reverse insertion order. -/
def reversedEnv : SinkEnv := { plainEnv with rangeOrder := List.reverse }

/-- A sink record with no variant populated. -/
def bareSink (n : String) : Sink := ⟨n, none, none, none, none, none, none, none⟩

/-- A log sink. -/
def logSink (n : String) : Sink := { bareSink n with Log := some "" }

/-- A kafka sink. -/
def kafkaSink (n : String) : Sink := { bareSink n with Kafka := some "" }


/-- Whether a stale pod and a fresh pod with the same replica annotation are both present:
one whose hash annotation is not `hash` and one whose hash annotation is `hash`. -/
def staleAndFresh (hash : String) (pods : List Pod) : Bool :=
  pods.any (fun p => pods.any (fun q =>
    decide (mapGet p.annotations KeyReplica = mapGet q.annotations KeyReplica) &&
      decide (mapGet p.annotations KeyHash ≠ hash) &&
      decide (mapGet q.annotations KeyHash = hash)))

/-- The start of the rollout scenario: step `s` with replicas 2 and a Running status, pods
`s-0` and `s-1` (listed in that order) annotated with hash `H1` and in the pod phases `ph0` and
`ph1`; the spec hash is now `H2`. -/
def rolloutStart (ph0 ph1 : String) : World :=
  ⟨some (exStep (some (exStatus StepPhase.Running 2))),
    [exPod 0 "H1" ph0 [], exPod 1 "H1" ph1 []]⟩

/-- The world of the rollout scenario after `k` passes in which every call succeeds. -/
def rolloutAfter (ph0 ph1 : String) : Nat → World
  | 0 => rolloutStart ph0 ph1
  | k + 1 => (Reconcile (exDeps 2 "H2") (Calls.ok (k + 1)) (rolloutAfter ph0 ph1 k)).world

/-- The pass number `k + 1` of the rollout scenario. -/
def rolloutPass (ph0 ph1 : String) (k : Nat) : Outcome :=
  Reconcile (exDeps 2 "H2") (Calls.ok (k + 1)) (rolloutAfter ph0 ph1 k)

/-- The pod the reconciler creates for replica `r` in the rollout scenario. -/
def freshPod (r : Nat) : Pod :=
  newPod (exDeps 2 "H2") (exStep none) "p" "H2" r
/-! ## Lemmas on `connectSinks` -/

theorem lookup_isSome_iff (l : List (String × Driver)) (k : String) :
    (l.lookup k).isSome = true ↔ k ∈ l.map Prod.fst := by
  induction l with
  | nil => simp
  | cons a t ih =>
    obtain ⟨k1, v1⟩ := a
    by_cases h : k = k1
    · subst h; simp [List.lookup]
    · have h1 : (k == k1) = false := by simpa using h
      simp [List.lookup, h1, ih, h]

theorem connectLoop_append (env : SinkEnv) (xs ys : List Sink) (st : List (String × Driver)) :
    (connectLoop env (xs ++ ys) st).1 =
      match (connectLoop env xs st).1 with
      | Except.error e => Except.error e
      | Except.ok st1 => (connectLoop env ys st1).1 := by
  induction xs generalizing st with
  | nil => simp [connectLoop]
  | cons s rest ih =>
    simp only [List.cons_append, connectLoop]
    split
    · rfl
    · rcases hd : connectDriver env s with ⟨r, acts⟩
      cases r with
      | error e => simp
      | ok y => simpa using ih _

theorem connectLoop_keys (env : SinkEnv) (xs : List Sink) (st st1 : List (String × Driver))
    (h : (connectLoop env xs st).1 = Except.ok st1) :
    st1.map Prod.fst = st.map Prod.fst ++ xs.map Sink.Name := by
  induction xs generalizing st with
  | nil => simp [connectLoop] at h; simp [h]
  | cons s rest ih =>
    simp only [connectLoop] at h
    split at h
    · simp at h
    · rcases hd : connectDriver env s with ⟨r, acts⟩
      rw [hd] at h
      cases r with
      | error e => simp at h
      | ok y =>
        simp only at h
        have := ih _ h
        simpa using this

theorem first_repeat (l : List Sink) (h : ¬ (l.map Sink.Name).Nodup) :
    ∃ pre s post, l = pre ++ s :: post ∧ (pre.map Sink.Name).Nodup ∧
      s.Name ∈ pre.map Sink.Name := by
  induction l using List.reverseRecOn with
  | nil => simp at h
  | append_singleton init a ih =>
    by_cases hn : (init.map Sink.Name).Nodup
    · refine ⟨init, a, [], rfl, hn, ?_⟩
      by_contra hmem
      apply h
      rw [List.map_append, List.nodup_append]
      refine ⟨hn, by simp, ?_⟩
      intro x hx hx2
      simp at hx2
      subst hx2
      exact hmem hx
    · obtain ⟨pre, s, post, he, hnd, hm⟩ := ih hn
      exact ⟨pre, s, post ++ [a], by simp [he], hnd, hm⟩


theorem newsOf_append (a b : List ConnectAction) : newsOf (a ++ b) = newsOf a ++ newsOf b := by
  induction a with
  | nil => rfl
  | cons x t ih => cases x <;> simp [newsOf, ih]

theorem connectLoop_append_actions (env : SinkEnv) (xs ys : List Sink)
    (st : List (String × Driver)) :
    (connectLoop env (xs ++ ys) st).2 =
      (connectLoop env xs st).2 ++
        match (connectLoop env xs st).1 with
        | Except.error _ => []
        | Except.ok st1 => (connectLoop env ys st1).2 := by
  induction xs generalizing st with
  | nil => simp [connectLoop]
  | cons s rest ih =>
    simp only [List.cons_append, connectLoop]
    split
    · simp
    · rcases hd : connectDriver env s with ⟨r, acts⟩
      cases r with
      | error e => simp
      | ok y => simp [ih, List.append_assoc]

theorem liftNew_news (v : Variant) (n : String) (r : Except String Driver) :
    newsOf (liftNew v n r).2 = [(v, n)] ∧
      (liftNew v n r).1 ≠ Except.error ConnectError.misconfigured := by
  cases r <;> simp [liftNew, newsOf]

theorem connectDriver_zero (env : SinkEnv) (s : Sink) (h : populated s = 0) :
    connectDriver env s = (Except.error ConnectError.misconfigured, []) := by
  obtain ⟨n, a, b, c, d, e, f, g⟩ := s
  cases a <;> cases b <;> cases c <;> cases d <;> cases e <;> cases f <;> cases g <;>
    simp [populated, connectDriver] at h ⊢

theorem connectDriver_pos (env : SinkEnv) (s : Sink) (h : 1 ≤ populated s) :
    ∃ v, firstPopulated s = some v ∧ newsOf (connectDriver env s).2 = [(v, s.Name)] ∧
      (connectDriver env s).1 ≠ Except.error ConnectError.misconfigured := by
  obtain ⟨n, a, b, c, d, e, f, g⟩ := s
  cases a <;> cases b <;> cases c <;> cases d <;> cases e <;> cases f <;> cases g <;>
    first
    | (exfalso; simp [populated] at h; done)
    | (simp only [connectDriver, firstPopulated]
       first
       | exact ⟨_, rfl, liftNew_news _ _ _⟩
       | exact ⟨_, rfl, by simp [newsOf], by simp⟩)

theorem sinkCallsOf_sendLoop (env : SinkEnv) (msg : List Nat) (l : List (String × Driver)) :
    sinkCallsOf (sendLoop env msg l).2 <+: l.map Prod.fst ∧
      ((sendLoop env msg l).1 = none → sinkCallsOf (sendLoop env msg l).2 = l.map Prod.fst) := by
  induction l with
  | nil => simp [sendLoop, sinkCallsOf]
  | cons a t ih =>
    obtain ⟨n, f⟩ := a
    simp only [sendLoop]
    cases hc : env.sinkCall f msg with
    | some e =>
      simp [sinkCallsOf]
    | none =>
      have e : sinkCallsOf ([SendAction.counterInc n,
          SendAction.incrTotal n env.replica msg.length, SendAction.sink n] ++
            (sendLoop env msg t).2) = n :: sinkCallsOf (sendLoop env msg t).2 := rfl
      simp only [e, List.map_cons]
      exact ⟨(List.prefix_cons_inj n).2 ih.1, fun h => by rw [ih.2 h]⟩

/-! ## Claims on `connectSinks` -/

/-- C6, as stated, fails: the sinks `[{name: a}, {name: a, log}]` share the name `a`, yet
`connectSinks` fails with `sink misconfigured` at the first of them, not with the duplicate
error. -/
theorem C6_counterexample :
    ¬ (([bareSink "a", logSink "a"].map Sink.Name).Nodup) ∧
      (connectSinks plainEnv [bareSink "a", logSink "a"]).1 =
        Except.error ConnectError.misconfigured ∧
      (connectSinks plainEnv [bareSink "a", logSink "a"]).1 ≠
        Except.error (ConnectError.duplicate "a") := by
  decide

/-- C6, amended: for every list of sinks in which two sinks share a name, `connectSinks`
returns no send function and fails. Let `s` be the first sink whose name repeats an earlier
one and `pre` the sinks before it: the error is `duplicate sink named <s.Name>` when all of
`pre` connects, and otherwise the error that connecting `pre` alone gives (a misconfigured
sink or a failed driver constructor). -/
theorem C6_duplicate_sink (env : SinkEnv) (sinks : List Sink)
    (h : ¬ (sinks.map Sink.Name).Nodup) :
    (∃ e, (connectSinks env sinks).1 = Except.error e) ∧
    ∃ pre s post, sinks = pre ++ s :: post ∧ (pre.map Sink.Name).Nodup ∧
      s.Name ∈ pre.map Sink.Name ∧
      (connectSinks env sinks).1 =
        match (connectSinks env pre).1 with
        | Except.error e => Except.error e
        | Except.ok _ => Except.error (ConnectError.duplicate s.Name) := by
  obtain ⟨pre, s, post, he, hnd, hm⟩ := first_repeat sinks h
  have key : (connectSinks env sinks).1 =
        match (connectSinks env pre).1 with
        | Except.error e => Except.error e
        | Except.ok _ => Except.error (ConnectError.duplicate s.Name) := by
    subst he
    unfold connectSinks
    rw [connectLoop_append]
    rcases hp : (connectLoop env pre []).1 with e | st1
    · rfl
    · have hk := connectLoop_keys env pre [] st1 hp
      have hl : (st1.lookup s.Name).isSome = true := by
        rw [lookup_isSome_iff, hk]; simpa using hm
      simp [connectLoop, hl]
  refine ⟨?_, pre, s, post, he, hnd, hm, key⟩
  rw [key]
  rcases (connectSinks env pre).1 with e | st1
  · exact ⟨e, rfl⟩
  · exact ⟨_, rfl⟩

/-- Witness of C6: the sinks `[{name: a, kafka}, {name: a, log}]` of the spec. -/
theorem C6_duplicate_sink_witness :
    ¬ (([kafkaSink "a", logSink "a"].map Sink.Name).Nodup) ∧
    ((∃ e, (connectSinks plainEnv [kafkaSink "a", logSink "a"]).1 = Except.error e) ∧
    ∃ pre s post, [kafkaSink "a", logSink "a"] = pre ++ s :: post ∧
      (pre.map Sink.Name).Nodup ∧ s.Name ∈ pre.map Sink.Name ∧
      (connectSinks plainEnv [kafkaSink "a", logSink "a"]).1 =
        match (connectSinks plainEnv pre).1 with
        | Except.error e => Except.error e
        | Except.ok _ => Except.error (ConnectError.duplicate s.Name)) :=
  ⟨by decide, C6_duplicate_sink plainEnv [kafkaSink "a", logSink "a"] (by decide)⟩

theorem connectLoop_nodup (env : SinkEnv) (xs : List Sink) (st st1 : List (String × Driver))
    (hst : (st.map Prod.fst).Nodup) (h : (connectLoop env xs st).1 = Except.ok st1) :
    (st1.map Prod.fst).Nodup := by
  induction xs generalizing st with
  | nil => simp [connectLoop] at h; rw [← h]; exact hst
  | cons s rest ih =>
    simp only [connectLoop] at h
    split at h
    · simp at h
    · rename_i hl
      rcases hd : connectDriver env s with ⟨r, acts⟩
      rw [hd] at h
      cases r with
      | error e => simp at h
      | ok y =>
        simp only at h
        refine ih (st ++ [(s.Name, y)]) ?_ h
        rw [lookup_isSome_iff] at hl
        rw [List.map_append, List.nodup_append]
        refine ⟨hst, by simp, ?_⟩
        intro x hx hx2
        simp at hx2
        subst hx2
        exact hl hx

/-- C7, as stated, fails: a sink with both `stan` and `kafka` populated raises no validation
error; `connectSinks` succeeds with the STAN driver. -/
theorem C7_counterexample :
    populated { bareSink "a" with STAN := some "x", Kafka := some "y" } = 2 ∧
      connectSinks plainEnv [{ bareSink "a" with STAN := some "x", Kafka := some "y" }] =
        (Except.ok [("a", ⟨Variant.stan, "a", "x", true⟩)],
          [ConnectAction.new Variant.stan "a", ConnectAction.addStopHook "a"]) := by
  decide

/-- C7, amended: for every sink record that `connectSinks` reaches (the sinks before it
connected and its name is new): if no driver variant is populated, `connectSinks` fails with
`sink misconfigured` and calls no constructor for it; if one or more are populated, it raises
no validation error and calls exactly one constructor for it, that of the first populated
variant in the order stan, kafka, log, http, s3, db, volume. -/
theorem C7_sink_variants (env : SinkEnv) (pre : List Sink) (s : Sink) (post : List Sink)
    (st : List (String × Driver)) (hpre : (connectSinks env pre).1 = Except.ok st)
    (hname : s.Name ∉ pre.map Sink.Name) :
    (populated s = 0 →
      (connectSinks env (pre ++ s :: post)).1 = Except.error ConnectError.misconfigured ∧
      newsOf (connectSinks env (pre ++ s :: post)).2 = newsOf (connectSinks env pre).2) ∧
    (1 ≤ populated s →
      ∃ v, firstPopulated s = some v ∧
        newsOf (connectSinks env (pre ++ [s])).2 =
          newsOf (connectSinks env pre).2 ++ [(v, s.Name)] ∧
        (connectSinks env (pre ++ [s])).1 ≠ Except.error ConnectError.misconfigured) := by
  unfold connectSinks at *
  have hk := connectLoop_keys env pre [] st hpre
  have hl : ¬ ((st.lookup s.Name).isSome = true) := by
    rw [lookup_isSome_iff, hk]; simpa using hname
  constructor
  · intro h0
    have hd := connectDriver_zero env s h0
    constructor
    · rw [connectLoop_append, hpre]
      simp [connectLoop, hl, hd]
    · rw [connectLoop_append_actions, hpre, newsOf_append]
      simp [connectLoop, hl, hd, newsOf]
  · intro h1
    obtain ⟨v, hv, hn, hne⟩ := connectDriver_pos env s h1
    refine ⟨v, hv, ?_, ?_⟩
    · rw [connectLoop_append_actions, hpre, newsOf_append]
      congr 1
      rcases hd : connectDriver env s with ⟨r, acts⟩
      rw [hd] at hn
      cases r with
      | error e => simpa [connectLoop, hl, hd] using hn
      | ok y =>
        simp only [connectLoop, hl, hd]
        simp only [Bool.false_eq_true, if_false, List.append_nil, newsOf_append]
        rw [hn]
        by_cases hc : y.closer <;> simp [hc, newsOf]
    · rw [connectLoop_append, hpre]
      rcases hd : connectDriver env s with ⟨r, acts⟩
      rw [hd] at hne
      cases r with
      | error e => simpa [connectLoop, hl, hd] using hne
      | ok y => simp [connectLoop, hl, hd]

/-- Witness of C7: after a kafka sink `a`, a sink `b` with `log` and `db` both populated. -/
theorem C7_sink_variants_witness :
    (populated { bareSink "b" with Log := some "", DB := some "" } = 0 →
      (connectSinks plainEnv
        ([kafkaSink "a"] ++ { bareSink "b" with Log := some "", DB := some "" } :: [])).1 =
          Except.error ConnectError.misconfigured ∧
      newsOf (connectSinks plainEnv
        ([kafkaSink "a"] ++ { bareSink "b" with Log := some "", DB := some "" } :: [])).2 =
          newsOf (connectSinks plainEnv [kafkaSink "a"]).2) ∧
    (1 ≤ populated { bareSink "b" with Log := some "", DB := some "" } →
      ∃ v, firstPopulated { bareSink "b" with Log := some "", DB := some "" } = some v ∧
        newsOf (connectSinks plainEnv
          ([kafkaSink "a"] ++ [{ bareSink "b" with Log := some "", DB := some "" }])).2 =
          newsOf (connectSinks plainEnv [kafkaSink "a"]).2 ++ [(v, "b")] ∧
        (connectSinks plainEnv
          ([kafkaSink "a"] ++ [{ bareSink "b" with Log := some "", DB := some "" }])).1 ≠
            Except.error ConnectError.misconfigured) :=
  C7_sink_variants plainEnv [kafkaSink "a"]
    { bareSink "b" with Log := some "", DB := some "" } []
    [("a", ⟨Variant.kafka, "a", "", true⟩)] (by decide) (by decide)

/-- C8, as stated, fails: the drivers are kept in a Go map and the send function ranges over
it, so the order of invocation is the iteration order of the map. With an iteration order that
reverses the insertion order (a permutation, as every iteration order is), the sinks `a`, `b`
declared in that order are invoked `b` first; with another iteration order the same
configuration and message give the order `a`, `b`. -/
theorem C8_counterexample :
    (∀ m : List (String × Driver), (reversedEnv.rangeOrder m).Perm m) ∧
    (connectSinks reversedEnv [logSink "a", logSink "b"]).1 =
      Except.ok [("a", ⟨Variant.log, "a", "", false⟩), ("b", ⟨Variant.log, "b", "", false⟩)] ∧
    sinkCallsOf (send reversedEnv
      [("a", ⟨Variant.log, "a", "", false⟩), ("b", ⟨Variant.log, "b", "", false⟩)] [1]).2 =
        ["b", "a"] ∧
    sinkCallsOf (send plainEnv
      [("a", ⟨Variant.log, "a", "", false⟩), ("b", ⟨Variant.log, "b", "", false⟩)] [1]).2 =
        ["a", "b"] :=
  ⟨fun m => List.reverse_perm m, by decide, by decide, by decide⟩

/-- C8, amended: for every message and every list of sinks that `connectSinks` connects (so
their names are distinct), the send function invokes the sink drivers one after the other in
the order in which `range` visits the map of drivers, whatever permutation of the declared
sinks that is: the invoked sinks are an initial segment of that order, no sink is invoked
twice, and when the send function returns no error every declared sink was invoked exactly
once. -/
theorem C8_send_order (env : SinkEnv) (sinks : List Sink) (m : List (String × Driver))
    (msg : List Nat) (hperm : ∀ l : List (String × Driver), (env.rangeOrder l).Perm l)
    (hconn : (connectSinks env sinks).1 = Except.ok m) :
    m.map Prod.fst = sinks.map Sink.Name ∧
    sinkCallsOf (send env m msg).2 <+: (env.rangeOrder m).map Prod.fst ∧
    ((env.rangeOrder m).map Prod.fst).Perm (sinks.map Sink.Name) ∧
    (sinkCallsOf (send env m msg).2).Nodup ∧
    ((send env m msg).1 = none →
      (sinkCallsOf (send env m msg).2).Perm (sinks.map Sink.Name)) := by
  have hk : m.map Prod.fst = sinks.map Sink.Name := by
    have := connectLoop_keys env sinks [] m hconn
    simpa using this
  have hp : ((env.rangeOrder m).map Prod.fst).Perm (sinks.map Sink.Name) := by
    rw [← hk]; exact (hperm m).map _
  obtain ⟨h1, h2⟩ := sinkCallsOf_sendLoop env msg (env.rangeOrder m)
  have hnd : ((env.rangeOrder m).map Prod.fst).Nodup := by
    have hm : (m.map Prod.fst).Nodup := connectLoop_nodup env sinks [] m (by simp) hconn
    exact ((hperm m).map Prod.fst).nodup_iff.2 hm
  refine ⟨hk, h1, hp, List.Nodup.sublist h1.sublist hnd, fun hnone => ?_⟩
  unfold send at hnone ⊢
  rw [h2 hnone]
  exact hp

/-- Witness of C8: two log sinks under an iteration order that reverses them. -/
theorem C8_send_order_witness :
    [("a", (⟨Variant.log, "a", "", false⟩ : Driver)),
        ("b", ⟨Variant.log, "b", "", false⟩)].map Prod.fst =
      [logSink "a", logSink "b"].map Sink.Name ∧
    sinkCallsOf (send reversedEnv
      [("a", ⟨Variant.log, "a", "", false⟩), ("b", ⟨Variant.log, "b", "", false⟩)] [1]).2 <+:
      (reversedEnv.rangeOrder
        [("a", ⟨Variant.log, "a", "", false⟩), ("b", ⟨Variant.log, "b", "", false⟩)]).map
          Prod.fst ∧
    ((reversedEnv.rangeOrder
        [("a", ⟨Variant.log, "a", "", false⟩), ("b", ⟨Variant.log, "b", "", false⟩)]).map
          Prod.fst).Perm ([logSink "a", logSink "b"].map Sink.Name) ∧
    (sinkCallsOf (send reversedEnv
      [("a", ⟨Variant.log, "a", "", false⟩), ("b", ⟨Variant.log, "b", "", false⟩)] [1]).2).Nodup ∧
    ((send reversedEnv
      [("a", ⟨Variant.log, "a", "", false⟩), ("b", ⟨Variant.log, "b", "", false⟩)] [1]).1 =
        none →
      (sinkCallsOf (send reversedEnv
        [("a", ⟨Variant.log, "a", "", false⟩), ("b", ⟨Variant.log, "b", "", false⟩)] [1]).2).Perm
          ([logSink "a", logSink "b"].map Sink.Name)) :=
  C8_send_order reversedEnv [logSink "a", logSink "b"]
    [("a", ⟨Variant.log, "a", "", false⟩), ("b", ⟨Variant.log, "b", "", false⟩)] [1]
    (fun m => List.reverse_perm m) (by decide)

/-! ## Lemmas on traces -/

theorem deletesOf_append (a b : List Action) : deletesOf (a ++ b) = deletesOf a ++ deletesOf b := by
  induction a with
  | nil => rfl
  | cons x t ih => cases x <;> simp [deletesOf, ih]

theorem createsOf_append (a b : List Action) : createsOf (a ++ b) = createsOf a ++ createsOf b := by
  induction a with
  | nil => rfl
  | cons x t ih => cases x <;> simp [createsOf, ih]

theorem killsOf_append (a b : List Action) : killsOf (a ++ b) = killsOf a ++ killsOf b := by
  induction a with
  | nil => rfl
  | cons x t ih => cases x <;> simp [killsOf, ih]

theorem eventsOf_append (a b : List Action) : eventsOf (a ++ b) = eventsOf a ++ eventsOf b := by
  induction a with
  | nil => rfl
  | cons x t ih => cases x <;> simp [eventsOf, ih]

theorem patchesOf_append (a b : List Action) : patchesOf (a ++ b) = patchesOf a ++ patchesOf b := by
  induction a with
  | nil => rfl
  | cons x t ih => cases x <;> simp [patchesOf, ih]

/-! ## Lemmas on the per-pod loop -/

theorem mainCtrTerminated_eq_any (pod : Pod) :
    mainCtrTerminated pod = pod.status.containerStatuses.any
      (fun s => decide (s.name = CtrMain) && decide (s.state = ContainerState.terminated)) := by
  unfold mainCtrTerminated
  have h : ∀ (l : List ContainerStatus) (b : Bool),
      l.foldl (fun acc s => acc ||
        (decide (s.name = CtrMain) && decide (s.state = ContainerState.terminated))) b =
      (b || l.any (fun s => decide (s.name = CtrMain) &&
        decide (s.state = ContainerState.terminated))) := by
    intro l
    induction l with
    | nil => intro b; simp
    | cons a t ih => intro b; simp [List.foldl, ih, Bool.or_assoc]
  simpa using h pod.status.containerStatuses false

theorem killSidecars_only_kills (c : Calls) (pod : Pod) (l : List ContainerStatus) :
    deletesOf (killSidecars c pod l).2 = [] ∧ createsOf (killSidecars c pod l).2 = [] ∧
      eventsOf (killSidecars c pod l).2 = [] ∧ patchesOf (killSidecars c pod l).2 = [] := by
  induction l with
  | nil => simp [killSidecars, deletesOf, createsOf, eventsOf, patchesOf]
  | cons s t ih =>
    unfold killSidecars
    by_cases h1 : s.name ≠ CtrMain
    · by_cases h2 : c.killFails pod s.name = true
      · simp [h1, h2, deletesOf, createsOf, eventsOf, patchesOf]
      · simp [h1, h2, deletesOf, createsOf, eventsOf, patchesOf, ih]
    · simp [h1, ih]

theorem killSidecars_ok (c : Calls) (pod : Pod) (l : List ContainerStatus)
    (h : (killSidecars c pod l).1 = none) :
    killsOf (killSidecars c pod l).2 =
      (l.filter (fun s => decide (s.name ≠ CtrMain))).map (fun s => (pod, s.name)) := by
  induction l with
  | nil => simp [killSidecars, killsOf]
  | cons s t ih =>
    unfold killSidecars at h ⊢
    by_cases h1 : s.name = CtrMain
    · simp only [h1, ne_eq, not_true_eq_false, if_false] at h ⊢
      simpa [List.filter, h1] using ih h
    · by_cases h2 : c.killFails pod s.name = true
      · simp [h1, h2] at h
      · simp only [ne_eq, h1, not_false_eq_true, if_true, h2, Bool.false_eq_true, if_false] at h ⊢
        simp only [killsOf]
        rw [ih h]
        simp [List.filter, h1]

theorem killSidecars_no_fault (c : Calls) (pod : Pod) (l : List ContainerStatus)
    (hk : ∀ p n, c.killFails p n = false) : (killSidecars c pod l).1 = none := by
  induction l with
  | nil => simp [killSidecars]
  | cons s t ih =>
    unfold killSidecars
    by_cases h1 : s.name ≠ CtrMain
    · simp [h1, hk, ih]
    · simp [h1, ih]

theorem podLoop_cons_delete_err (d : Deps) (c : Calls) (target : Int) (hash : String)
    (pod : Pod) (rest : List Pod) (phase : StepPhase) (msg : String) (store : List Pod)
    (e : ClientError) (h1 : needsDelete target hash pod = true)
    (h2 : IgnoreNotFound (clientDelete c store pod).1 = some e) :
    podLoop d c target hash (pod :: rest) false phase msg store =
      ⟨some (ReconcileError.deletePod pod.name), [Action.delete pod], phase, msg,
        (clientDelete c store pod).2⟩ := by
  simp [podLoop, h1, h2]

theorem podLoop_cons_delete_ok (d : Deps) (c : Calls) (target : Int) (hash : String)
    (pod : Pod) (rest : List Pod) (phase : StepPhase) (msg : String) (store : List Pod)
    (h1 : needsDelete target hash pod = true)
    (h2 : IgnoreNotFound (clientDelete c store pod).1 = none) :
    podLoop d c target hash (pod :: rest) false phase msg store =
      ⟨(podLoop d c target hash rest true phase msg (clientDelete c store pod).2).err,
        Action.delete pod ::
          (podLoop d c target hash rest true phase msg (clientDelete c store pod).2).actions,
        (podLoop d c target hash rest true phase msg (clientDelete c store pod).2).phase,
        (podLoop d c target hash rest true phase msg (clientDelete c store pod).2).message,
        (podLoop d c target hash rest true phase msg (clientDelete c store pod).2).store⟩ := by
  simp [podLoop, h1, h2]

theorem podLoop_cons_keep (d : Deps) (c : Calls) (target : Int) (hash : String)
    (pod : Pod) (rest : List Pod) (deleted : Bool) (phase : StepPhase) (msg : String)
    (store : List Pod) (h1 : (needsDelete target hash pod && !deleted) = false)
    (h3 : mainCtrTerminated pod = false) :
    podLoop d c target hash (pod :: rest) deleted phase msg store =
      podLoop d c target hash rest deleted (aggregate d ⟨phase, msg⟩ pod).phase
        (aggregate d ⟨phase, msg⟩ pod).message store := by
  rw [podLoop]
  simp only [h1, h3, Bool.false_eq_true, if_false]
  rfl

theorem podLoop_cons_kill_err (d : Deps) (c : Calls) (target : Int) (hash : String)
    (pod : Pod) (rest : List Pod) (deleted : Bool) (phase : StepPhase) (msg : String)
    (store : List Pod) (e : ReconcileError) (acts : List Action)
    (h1 : (needsDelete target hash pod && !deleted) = false)
    (h3 : mainCtrTerminated pod = true)
    (h4 : killSidecars c pod pod.status.containerStatuses = (some e, acts)) :
    podLoop d c target hash (pod :: rest) deleted phase msg store =
      ⟨some e, acts, (aggregate d ⟨phase, msg⟩ pod).phase,
        (aggregate d ⟨phase, msg⟩ pod).message, store⟩ := by
  rw [podLoop]
  simp only [h1, h3, h4, Bool.false_eq_true, if_false, if_true]
  rfl

theorem podLoop_cons_kill_ok (d : Deps) (c : Calls) (target : Int) (hash : String)
    (pod : Pod) (rest : List Pod) (deleted : Bool) (phase : StepPhase) (msg : String)
    (store : List Pod) (acts : List Action)
    (h1 : (needsDelete target hash pod && !deleted) = false)
    (h3 : mainCtrTerminated pod = true)
    (h4 : killSidecars c pod pod.status.containerStatuses = (none, acts)) :
    podLoop d c target hash (pod :: rest) deleted phase msg store =
      ⟨(podLoop d c target hash rest deleted (aggregate d ⟨phase, msg⟩ pod).phase
          (aggregate d ⟨phase, msg⟩ pod).message store).err,
        acts ++ (podLoop d c target hash rest deleted (aggregate d ⟨phase, msg⟩ pod).phase
          (aggregate d ⟨phase, msg⟩ pod).message store).actions,
        (podLoop d c target hash rest deleted (aggregate d ⟨phase, msg⟩ pod).phase
          (aggregate d ⟨phase, msg⟩ pod).message store).phase,
        (podLoop d c target hash rest deleted (aggregate d ⟨phase, msg⟩ pod).phase
          (aggregate d ⟨phase, msg⟩ pod).message store).message,
        (podLoop d c target hash rest deleted (aggregate d ⟨phase, msg⟩ pod).phase
          (aggregate d ⟨phase, msg⟩ pod).message store).store⟩ := by
  rw [podLoop]
  simp only [h1, h3, h4, Bool.false_eq_true, if_false, if_true]
  rfl

theorem ignoreNotFound_delete (c : Calls) (store : List Pod) (pod : Pod)
    (hd : c.deleteFails pod = false) : IgnoreNotFound (clientDelete c store pod).1 = none := by
  unfold clientDelete
  rw [hd]
  by_cases h2 : store.any (samePod pod) = true <;> simp [h2, IgnoreNotFound]

theorem podLoop_no_fault (d : Deps) (c : Calls) (target : Int) (hash : String)
    (hk : ∀ p n, c.killFails p n = false) (hd : ∀ p, c.deleteFails p = false)
    (L : List Pod) (deleted : Bool) (phase : StepPhase) (msg : String) (store : List Pod) :
    (podLoop d c target hash L deleted phase msg store).err = none := by
  induction L generalizing deleted phase msg store with
  | nil => simp [podLoop]
  | cons pod rest ih =>
    by_cases h1 : (needsDelete target hash pod && !deleted) = true
    · have hnd : needsDelete target hash pod = true := by
        simp only [Bool.and_eq_true] at h1; exact h1.1
      have hdel : deleted = false := by
        simp only [Bool.and_eq_true, Bool.not_eq_true'] at h1; exact h1.2
      subst hdel
      rw [podLoop_cons_delete_ok d c target hash pod rest phase msg store hnd
        (ignoreNotFound_delete c store pod (hd pod))]
      exact ih _ _ _ _
    · have h1' : (needsDelete target hash pod && !deleted) = false := by simpa using h1
      by_cases h3 : mainCtrTerminated pod = true
      · have hks := killSidecars_no_fault c pod pod.status.containerStatuses hk
        rcases hq : killSidecars c pod pod.status.containerStatuses with ⟨e, acts⟩
        rw [hq] at hks
        simp only at hks
        subst hks
        rw [podLoop_cons_kill_ok d c target hash pod rest deleted phase msg store acts h1' h3 hq]
        exact ih _ _ _ _
      · have h3' : mainCtrTerminated pod = false := by simpa using h3
        rw [podLoop_cons_keep d c target hash pod rest deleted phase msg store h1' h3']
        exact ih _ _ _ _

theorem expectedKills_of_terminated (c : Calls) (pod : Pod) (acts : List Action)
    (h3 : mainCtrTerminated pod = true)
    (hq : killSidecars c pod pod.status.containerStatuses = (none, acts)) :
    expectedKills pod = killsOf acts := by
  have hko := killSidecars_ok c pod pod.status.containerStatuses (by rw [hq])
  rw [hq] at hko
  unfold expectedKills
  rw [← mainCtrTerminated_eq_any, h3, hko]
  simp

theorem expectedKills_of_not_terminated (pod : Pod) (h3 : mainCtrTerminated pod = false) :
    expectedKills pod = [] := by
  unfold expectedKills
  rw [← mainCtrTerminated_eq_any]
  simp [h3]

/-- The pods the loop aggregates and tears down when it ends without error. -/
theorem podLoop_ok (d : Deps) (c : Calls) (target : Int) (hash : String)
    (L : List Pod) (deleted : Bool) (phase : StepPhase) (msg : String) (store : List Pod)
    (h : (podLoop d c target hash L deleted phase msg store).err = none) :
    killsOf (podLoop d c target hash L deleted phase msg store).actions =
      (if deleted then L else keptPods target hash L).flatMap expectedKills ∧
    deletesOf (podLoop d c target hash L deleted phase msg store).actions =
      (if deleted then [] else (L.find? (needsDelete target hash)).toList) ∧
    (⟨(podLoop d c target hash L deleted phase msg store).phase,
      (podLoop d c target hash L deleted phase msg store).message⟩ : StepPhaseMessage) =
      (if deleted then L else keptPods target hash L).foldl (aggregate d) ⟨phase, msg⟩ ∧
    createsOf (podLoop d c target hash L deleted phase msg store).actions = [] ∧
    eventsOf (podLoop d c target hash L deleted phase msg store).actions = [] ∧
    patchesOf (podLoop d c target hash L deleted phase msg store).actions = [] ∧
    (podLoop d c target hash L deleted phase msg store).store =
      (if deleted then store else
        match L.find? (needsDelete target hash) with
        | some p => (clientDelete c store p).2
        | none => store) := by
  induction L generalizing deleted phase msg store with
  | nil =>
    cases deleted <;>
      simp [podLoop, killsOf, deletesOf, createsOf, eventsOf, patchesOf, keptPods]
  | cons pod rest ih =>
    by_cases h1 : (needsDelete target hash pod && !deleted) = true
    · have hnd : needsDelete target hash pod = true := by
        simp only [Bool.and_eq_true] at h1; exact h1.1
      have hdel : deleted = false := by
        simp only [Bool.and_eq_true, Bool.not_eq_true'] at h1; exact h1.2
      subst hdel
      cases hq : IgnoreNotFound (clientDelete c store pod).1 with
      | some e =>
        rw [podLoop_cons_delete_err d c target hash pod rest phase msg store e hnd hq] at h
        simp at h
      | none =>
        rw [podLoop_cons_delete_ok d c target hash pod rest phase msg store hnd hq] at h ⊢
        simp only at h ⊢
        obtain ⟨a1, a2, a3, a4, a5, a6, a7⟩ := ih true phase msg _ h
        simp only [if_true] at a1 a2 a3 a7
        simp [killsOf, deletesOf, createsOf, eventsOf, patchesOf, keptPods, hnd, a1, a2, a3,
          a4, a5, a6, a7, List.find?_cons]
    · have h1' : (needsDelete target hash pod && !deleted) = false := by simpa using h1
      have hkeep : (if deleted = true then pod :: rest else keptPods target hash (pod :: rest)) =
          pod :: (if deleted = true then rest else keptPods target hash rest) := by
        cases deleted
        · have : needsDelete target hash pod = false := by simpa using h1
          simp [keptPods, List.eraseP_cons, this]
        · simp
      have hfind : (if deleted = true then ([] : List Pod)
            else ((pod :: rest).find? (needsDelete target hash)).toList) =
          (if deleted = true then [] else (rest.find? (needsDelete target hash)).toList) := by
        cases deleted
        · have : needsDelete target hash pod = false := by simpa using h1
          simp [List.find?_cons, this]
        · simp
      have hstore : (if deleted = true then store else
            match rest.find? (needsDelete target hash) with
            | some p => (clientDelete c store p).2
            | none => store) =
          (if deleted = true then store else
            match (pod :: rest).find? (needsDelete target hash) with
            | some p => (clientDelete c store p).2
            | none => store) := by
        cases deleted
        · have : needsDelete target hash pod = false := by simpa using h1
          simp [List.find?_cons, this]
        · simp
      rw [hkeep, hfind]
      by_cases h3 : mainCtrTerminated pod = true
      · rcases hq : killSidecars c pod pod.status.containerStatuses with ⟨e, acts⟩
        cases e with
        | some e =>
          rw [podLoop_cons_kill_err d c target hash pod rest deleted phase msg store e acts
            h1' h3 hq] at h
          simp at h
        | none =>
          rw [podLoop_cons_kill_ok d c target hash pod rest deleted phase msg store acts
            h1' h3 hq] at h ⊢
          simp only at h ⊢
          obtain ⟨a1, a2, a3, a4, a5, a6, a7⟩ := ih deleted _ _ store h
          have hkk := killSidecars_only_kills c pod pod.status.containerStatuses
          rw [hq] at hkk
          simp only at hkk
          have hexp := expectedKills_of_terminated c pod acts h3 hq
          simp only [killsOf_append, deletesOf_append, createsOf_append, eventsOf_append,
            patchesOf_append, hkk.1, hkk.2.1, hkk.2.2.1, hkk.2.2.2, List.nil_append,
            List.flatMap_cons, List.foldl_cons, a1, a2, a3, a4, a5, a6, a7, hexp]
          exact ⟨trivial, trivial, trivial, trivial, trivial, trivial, hstore⟩
      · have h3' : mainCtrTerminated pod = false := by simpa using h3
        rw [podLoop_cons_keep d c target hash pod rest deleted phase msg store h1' h3'] at h ⊢
        obtain ⟨a1, a2, a3, a4, a5, a6, a7⟩ := ih deleted _ _ store h
        have hexp := expectedKills_of_not_terminated pod h3'
        simp only [List.flatMap_cons, List.foldl_cons, a1, a2, a3, a4, a5, a6, a7, hexp,
          List.nil_append]
        exact ⟨trivial, trivial, trivial, trivial, trivial, trivial, hstore⟩

theorem podLoop_deletes_spent (d : Deps) (c : Calls) (target : Int) (hash : String)
    (L : List Pod) (phase : StepPhase) (msg : String) (store : List Pod) :
    deletesOf (podLoop d c target hash L true phase msg store).actions = [] := by
  induction L generalizing phase msg store with
  | nil => simp [podLoop, deletesOf]
  | cons pod rest ih =>
    have h1' : (needsDelete target hash pod && !true) = false := by simp
    by_cases h3 : mainCtrTerminated pod = true
    · rcases hq : killSidecars c pod pod.status.containerStatuses with ⟨e, acts⟩
      have hkk := (killSidecars_only_kills c pod pod.status.containerStatuses).1
      rw [hq] at hkk
      simp only at hkk
      cases e with
      | some e =>
        rw [podLoop_cons_kill_err d c target hash pod rest true phase msg store e acts h1' h3 hq]
        exact hkk
      | none =>
        rw [podLoop_cons_kill_ok d c target hash pod rest true phase msg store acts h1' h3 hq]
        simp only [deletesOf_append, ih, hkk, List.append_nil]
    · have h3' : mainCtrTerminated pod = false := by simpa using h3
      rw [podLoop_cons_keep d c target hash pod rest true phase msg store h1' h3']
      exact ih _ _ _

theorem podLoop_deletes (d : Deps) (c : Calls) (target : Int) (hash : String)
    (L : List Pod) (phase : StepPhase) (msg : String) (store : List Pod) :
    deletesOf (podLoop d c target hash L false phase msg store).actions = [] ∨
    ∃ p, L.find? (needsDelete target hash) = some p ∧
      deletesOf (podLoop d c target hash L false phase msg store).actions = [p] := by
  induction L generalizing phase msg store with
  | nil => simp [podLoop, deletesOf]
  | cons pod rest ih =>
    by_cases h1 : needsDelete target hash pod = true
    · right
      refine ⟨pod, by simp [List.find?_cons, h1], ?_⟩
      cases hq : IgnoreNotFound (clientDelete c store pod).1 with
      | some e =>
        rw [podLoop_cons_delete_err d c target hash pod rest phase msg store e h1 hq]
        simp [deletesOf]
      | none =>
        rw [podLoop_cons_delete_ok d c target hash pod rest phase msg store h1 hq]
        simp [deletesOf, podLoop_deletes_spent]
    · have h1' : needsDelete target hash pod = false := by simpa using h1
      have h1'' : (needsDelete target hash pod && !false) = false := by simp [h1']
      simp only [List.find?_cons, h1']
      by_cases h3 : mainCtrTerminated pod = true
      · rcases hq : killSidecars c pod pod.status.containerStatuses with ⟨e, acts⟩
        have hkk := (killSidecars_only_kills c pod pod.status.containerStatuses).1
        rw [hq] at hkk
        simp only at hkk
        cases e with
        | some e =>
          rw [podLoop_cons_kill_err d c target hash pod rest false phase msg store e acts
            h1'' h3 hq]
          left; exact hkk
        | none =>
          rw [podLoop_cons_kill_ok d c target hash pod rest false phase msg store acts
            h1'' h3 hq]
          simp only [deletesOf_append, hkk, List.nil_append]
          exact ih _ _ _
      · have h3' : mainCtrTerminated pod = false := by simpa using h3
        rw [podLoop_cons_keep d c target hash pod rest false phase msg store h1'' h3']
        exact ih _ _ _

/-! ## Lemmas on decimal text -/

theorem digitVal_digitChar (k : Nat) (h : k < 10) : digitVal (Nat.digitChar k) = k := by
  interval_cases k <;> rfl

theorem isDigit_digitChar (k : Nat) (h : k < 10) : isDigit (Nat.digitChar k) = true := by
  interval_cases k <;> rfl

theorem digitsValue_cons (acc : Nat) (c : Char) (cs : List Char) :
    digitsValue acc (c :: cs) = digitsValue (acc * 10 + digitVal c) cs := by
  simp only [digitsValue, List.foldl_cons]

theorem digitsValue_zero_cons (c : Char) (cs : List Char) :
    digitsValue 0 (c :: cs) = digitsValue (digitVal c) cs := by
  rw [digitsValue_cons]; simp

theorem digitsValue_acc (l : List Char) (acc : Nat) :
    digitsValue acc l = acc * 10 ^ l.length + digitsValue 0 l := by
  induction l generalizing acc with
  | nil => simp [digitsValue]
  | cons c cs ih =>
    rw [digitsValue_zero_cons, digitsValue_cons]
    generalize digitVal c = v
    rw [ih (acc * 10 + v), ih v, List.length_cons, pow_succ]
    ring

theorem toDigitsCore_value (fuel : Nat) : ∀ (n : Nat) (ds : List Char), n < fuel →
    digitsValue 0 (Nat.toDigitsCore 10 fuel n ds) = n * 10 ^ ds.length + digitsValue 0 ds := by
  induction fuel with
  | zero => intro n ds h; omega
  | succ fuel ih =>
    intro n ds h
    simp only [Nat.toDigitsCore]
    have hd := digitVal_digitChar (n % 10) (Nat.mod_lt _ (by decide))
    by_cases h0 : n / 10 = 0
    · simp only [h0, if_true]
      have e0 := digitsValue_zero_cons (Nat.digitChar (n % 10)) ds
      rw [e0, digitsValue_acc, hd]
      have : n % 10 = n := Nat.mod_eq_of_lt (by omega)
      rw [this]
    · simp only [h0, if_false]
      rw [ih (n / 10) _ (by omega)]
      have e0 := digitsValue_zero_cons (Nat.digitChar (n % 10)) ds
      rw [e0, digitsValue_acc ds, hd, List.length_cons, pow_succ]
      have hn : n = n / 10 * 10 + n % 10 := by omega
      conv_rhs => rw [hn]
      ring

theorem toDigitsCore_all (fuel : Nat) : ∀ (n : Nat) (ds : List Char),
    ds.all isDigit = true → (Nat.toDigitsCore 10 fuel n ds).all isDigit = true := by
  induction fuel with
  | zero => intro n ds h; simpa [Nat.toDigitsCore] using h
  | succ fuel ih =>
    intro n ds h
    simp only [Nat.toDigitsCore]
    have hd := isDigit_digitChar (n % 10) (Nat.mod_lt _ (by decide))
    have hc : (Nat.digitChar (n % 10) :: ds).all isDigit = true := by
      simp only [List.all_cons, hd, h, Bool.and_self]
    by_cases h0 : n / 10 = 0
    · simpa only [h0, if_true] using hc
    · simp only [h0, if_false]
      exact ih _ _ hc

theorem toDigitsCore_ne_nil (fuel : Nat) : ∀ (n : Nat) (ds : List Char),
    ds ≠ [] → Nat.toDigitsCore 10 fuel n ds ≠ [] := by
  induction fuel with
  | zero => intro n ds h; simpa [Nat.toDigitsCore] using h
  | succ fuel ih =>
    intro n ds h
    simp only [Nat.toDigitsCore]
    by_cases h0 : n / 10 = 0
    · simp [h0]
    · simp only [h0, if_false]
      exact ih _ _ (by simp)

theorem toDigits_ne_nil (n : Nat) : Nat.toDigits 10 n ≠ [] := by
  unfold Nat.toDigits
  simp only [Nat.toDigitsCore]
  by_cases h0 : n / 10 = 0
  · simp [h0]
  · simp only [h0, if_false]
    exact toDigitsCore_ne_nil _ _ _ (by simp)

theorem toDigits_all (n : Nat) : (Nat.toDigits 10 n).all isDigit = true :=
  toDigitsCore_all _ _ _ (by simp)

theorem toDigits_value (n : Nat) : digitsValue 0 (Nat.toDigits 10 n) = n := by
  have := toDigitsCore_value (n + 1) n [] (by omega)
  simpa [digitsValue] using this

theorem digitsValue_ge (l : List Char) (acc : Nat) : acc ≤ digitsValue acc l := by
  rw [digitsValue_acc]
  have : 1 ≤ 10 ^ l.length := Nat.one_le_pow _ _ (by decide)
  nlinarith

theorem scanDigits_value (l : List Char) (acc : Nat) (hall : l.all isDigit = true)
    (hle : digitsValue acc l ≤ maxUint64) :
    scanDigits acc l = ParseUintResult.value (digitsValue acc l) := by
  induction l generalizing acc with
  | nil => simp [scanDigits, digitsValue]
  | cons c cs ih =>
    simp only [List.all_cons, Bool.and_eq_true] at hall
    rw [digitsValue_cons] at hle ⊢
    have hstep : ¬ (acc * 10 + digitVal c > maxUint64) := by
      have := digitsValue_ge cs (acc * 10 + digitVal c)
      omega
    rw [scanDigits]
    simp only [hall.1, if_true, hstep, if_false]
    exact ih _ hall.2 hle

theorem Itoa_natCast (r : Nat) : Itoa (r : Int) = Nat.repr r := rfl

theorem repr_injective (a b : Nat) (h : Nat.repr a = Nat.repr b) : a = b := by
  have h1 : Nat.toDigits 10 a = Nat.toDigits 10 b := by
    have := congrArg String.data h
    simpa [Nat.repr, List.asString] using this
  have h2 := toDigits_value a
  rw [h1, toDigits_value b] at h2
  exact h2.symm

theorem Atoi_Itoa (r : Nat) (h : r < 2 ^ 63) : Atoi (Itoa (r : Int)) = (r : Int) := by
  rw [Itoa_natCast]
  unfold Atoi
  have hdata : (Nat.repr r).data = Nat.toDigits 10 r := by simp [Nat.repr, List.asString]
  rw [hdata]
  have hall := toDigits_all r
  have hval := toDigits_value r
  have hscan := scanDigits_value (Nat.toDigits 10 r) 0 hall
    (by rw [hval]; unfold maxUint64; omega)
  rw [hval] at hscan
  cases hq : Nat.toDigits 10 r with
  | nil => exact absurd hq (toDigits_ne_nil r)
  | cons c cs =>
    rw [hq] at hall hscan
    have hc : isDigit c = true := by
      simp only [List.all_cons, Bool.and_eq_true] at hall; exact hall.1
    have hm : c ≠ '-' := by intro e; subst e; revert hc; decide
    have hpl : c ≠ '+' := by intro e; subst e; revert hc; decide
    have hp : ParseUint (c :: cs) = ParseUintResult.value r := by
      simp [ParseUint, hscan]
    have hlt : ¬ ((r : Int) ≥ 2 ^ 63) := by omega
    simp only [hm, hpl, if_false, parseIntAfterSign, hp, hlt, Bool.false_eq_true]

/-- The range error of `strconv.Atoi` wins over a later syntax error: digits that overflow
`uint64` give the bound of `int` even when a character that is no digit follows, while a
non-digit met before any overflow gives 0. -/
theorem Atoi_range_before_syntax :
    Atoi "99999999999999999999a" = maxInt ∧ Atoi "-99999999999999999999a" = minInt ∧
      Atoi "9999999999999999999a" = 0 ∧ Atoi "9223372036854775808" = maxInt ∧
      Atoi "-9223372036854775808" = minInt ∧ Atoi "+7" = 7 ∧ Atoi "" = 0 ∧ Atoi "-" = 0 := by
  decide

/-- With a selector text that does not parse, the list call returns every pod of the
namespace. -/
theorem clientList_nil_selector (c : Calls) (store : List Pod) (ns : String)
    (h : c.listFails = false) :
    clientList c store ns none = Except.ok (store.filter (fun p => decide (p.ns = ns))) := by
  have hs : selects ns none = fun p => decide (p.ns = ns) := by
    funext p; simp [selects]
  simp [clientList, h, hs]

/-! ## Lemmas on the stages of a pass -/

theorem scaledStatus_phase (c : Calls) (o : StepStatus) (cur tgt : Int) :
    (scaledStatus c o cur tgt).phase = StepPhase.Unknown := by
  unfold scaledStatus; split <;> rfl

theorem scaledStatus_message (c : Calls) (o : StepStatus) (cur tgt : Int) :
    (scaledStatus c o cur tgt).message = o.message := by
  unfold scaledStatus; split <;> rfl

theorem scaleEvents_only_events (cur tgt : Int) :
    deletesOf (scaleEvents cur tgt) = [] ∧ createsOf (scaleEvents cur tgt) = [] ∧
      killsOf (scaleEvents cur tgt) = [] ∧ patchesOf (scaleEvents cur tgt) = [] := by
  unfold scaleEvents
  split <;> simp [deletesOf, createsOf, killsOf, patchesOf]

theorem createPods_only_creates (d : Deps) (c : Calls) (step : Step) (pn hash : String)
    (rs : List Nat) (store : List Pod) :
    deletesOf (createPods d c step pn hash rs store).actions = [] ∧
      killsOf (createPods d c step pn hash rs store).actions = [] ∧
      eventsOf (createPods d c step pn hash rs store).actions = [] ∧
      patchesOf (createPods d c step pn hash rs store).actions = [] := by
  induction rs generalizing store with
  | nil => simp [createPods, deletesOf, killsOf, eventsOf, patchesOf]
  | cons r rest ih =>
    unfold createPods
    simp only
    split
    · simp [deletesOf, killsOf, eventsOf, patchesOf]
    · simp only [deletesOf, killsOf, eventsOf, patchesOf]
      exact ih _

theorem createStage_only_creates (d : Deps) (c : Calls) (step : Step) (pn hash : String)
    (tgt : Int) (store : List Pod) :
    deletesOf (createStage d c step pn hash tgt store).actions = [] ∧
      killsOf (createStage d c step pn hash tgt store).actions = [] ∧
      eventsOf (createStage d c step pn hash tgt store).actions = [] ∧
      patchesOf (createStage d c step pn hash tgt store).actions = [] := by
  unfold createStage
  split
  · exact createPods_only_creates _ _ _ _ _ _ _
  · simp [deletesOf, killsOf, eventsOf, patchesOf]

theorem patchStage_fields (d : Deps) (c : Calls) (step : Step) (cur tgt : Int)
    (acts : List Action) (pods store : List Pod) (o n : StepStatus) :
    (patchStage d c step cur tgt acts pods store o n).listed = some pods ∧
    (patchStage d c step cur tgt acts pods store o n).world.pods = store ∧
    (patchStage d c step cur tgt acts pods store o n).oldStatus = some o ∧
    (patchStage d c step cur tgt acts pods store o n).newStatus = some n ∧
    deletesOf (patchStage d c step cur tgt acts pods store o n).actions = deletesOf acts ∧
    killsOf (patchStage d c step cur tgt acts pods store o n).actions = killsOf acts ∧
    createsOf (patchStage d c step cur tgt acts pods store o n).actions = createsOf acts ∧
    eventsOf (patchStage d c step cur tgt acts pods store o n).actions = eventsOf acts := by
  unfold patchStage
  split
  · split <;>
      simp [deletesOf_append, killsOf_append, createsOf_append, eventsOf_append, deletesOf,
        killsOf, createsOf, eventsOf]
  · simp

theorem reconcileListed_fields (d : Deps) (c : Calls) (step : Step) (cur tgt : Int)
    (hash : String) (created : List Action) (store pods : List Pod) :
    (reconcileListed d c step cur tgt hash created store pods).listed = some pods ∧
    (reconcileListed d c step cur tgt hash created store pods).world.pods =
      (podLoop d c tgt hash pods false StepPhase.Unknown (oldStatusOf step).message store).store ∧
    deletesOf (reconcileListed d c step cur tgt hash created store pods).actions =
      deletesOf created ++ deletesOf
        (podLoop d c tgt hash pods false StepPhase.Unknown (oldStatusOf step).message
          store).actions ∧
    killsOf (reconcileListed d c step cur tgt hash created store pods).actions =
      killsOf created ++ killsOf
        (podLoop d c tgt hash pods false StepPhase.Unknown (oldStatusOf step).message
          store).actions ∧
    createsOf (reconcileListed d c step cur tgt hash created store pods).actions =
      createsOf created ++ createsOf
        (podLoop d c tgt hash pods false StepPhase.Unknown (oldStatusOf step).message
          store).actions ∧
    eventsOf (reconcileListed d c step cur tgt hash created store pods).actions =
      eventsOf created ++ eventsOf (scaleEvents cur tgt) ++ eventsOf
        (podLoop d c tgt hash pods false StepPhase.Unknown (oldStatusOf step).message
          store).actions ∧
    (∀ ns, (reconcileListed d c step cur tgt hash created store pods).newStatus = some ns →
      (podLoop d c tgt hash pods false StepPhase.Unknown (oldStatusOf step).message
          store).err = none ∧
      (reconcileListed d c step cur tgt hash created store pods).oldStatus =
        some (oldStatusOf step) ∧
      ns = { scaledStatus c (oldStatusOf step) cur tgt with
        phase := (podLoop d c tgt hash pods false StepPhase.Unknown (oldStatusOf step).message
          store).phase
        message := (podLoop d c tgt hash pods false StepPhase.Unknown (oldStatusOf step).message
          store).message }) ∧
    ((reconcileListed d c step cur tgt hash created store pods).err = none →
      (podLoop d c tgt hash pods false StepPhase.Unknown (oldStatusOf step).message
          store).err = none) := by
  unfold reconcileListed
  simp only [scaledStatus_phase, scaledStatus_message]
  have se := scaleEvents_only_events cur tgt
  cases he : (podLoop d c tgt hash pods false StepPhase.Unknown (oldStatusOf step).message
      store).err with
  | some e =>
    simp [deletesOf_append, killsOf_append, createsOf_append, eventsOf_append, se.1, se.2.1,
      se.2.2.1]
  | none =>
    simp only
    have pf := patchStage_fields d c step cur tgt
      (created ++ scaleEvents cur tgt ++
        (podLoop d c tgt hash pods false StepPhase.Unknown (oldStatusOf step).message
          store).actions) pods
      (podLoop d c tgt hash pods false StepPhase.Unknown (oldStatusOf step).message store).store
      (oldStatusOf step)
      { scaledStatus c (oldStatusOf step) cur tgt with
        phase := (podLoop d c tgt hash pods false StepPhase.Unknown (oldStatusOf step).message
          store).phase
        message := (podLoop d c tgt hash pods false StepPhase.Unknown (oldStatusOf step).message
          store).message }
    obtain ⟨p1, p2, p3, p4, p5, p6, p7, p8⟩ := pf
    refine ⟨p1, p2, ?_, ?_, ?_, ?_, ?_, fun _ => trivial⟩
    · rw [p5]; simp [deletesOf_append, se.1]
    · rw [p6]; simp [killsOf_append, se.2.2.1]
    · rw [p7]; simp [createsOf_append, se.2.1]
    · rw [p8]; simp [eventsOf_append]
    · intro ns hns
      rw [p4] at hns
      exact ⟨trivial, p3, (Option.some.inj hns).symm⟩

/-- The shape of one pass over a present step: either it stops before the pods are listed, or
it is `reconcileListed` on the pods the selector matches after the creation stage. -/
theorem Reconcile_cases (d : Deps) (c : Calls) (step : Step) (pods : List Pod) :
    ((Reconcile d c ⟨some step, pods⟩).listed = none ∧
      (Reconcile d c ⟨some step, pods⟩).newStatus = none ∧
      (Reconcile d c ⟨some step, pods⟩).oldStatus = none ∧
      deletesOf (Reconcile d c ⟨some step, pods⟩).actions = [] ∧
      killsOf (Reconcile d c ⟨some step, pods⟩).actions = [] ∧
      eventsOf (Reconcile d c ⟨some step, pods⟩).actions = [] ∧
      patchesOf (Reconcile d c ⟨some step, pods⟩).actions = [] ∧
      ((Reconcile d c ⟨some step, pods⟩).actions = [] ∧
          (Reconcile d c ⟨some step, pods⟩).world = ⟨some step, pods⟩ ∨
        (Reconcile d c ⟨some step, pods⟩).err ≠ none ∧
          (Reconcile d c ⟨some step, pods⟩).actions =
            (createStage d c step (mapGet step.labels KeyPipelineName) (d.MustHash step.spec)
              (d.GetTargetReplicas step.spec) pods).actions ∧
          (Reconcile d c ⟨some step, pods⟩).world.pods =
            (createStage d c step (mapGet step.labels KeyPipelineName) (d.MustHash step.spec)
              (d.GetTargetReplicas step.spec) pods).store)) ∨
    (c.getFails = false ∧ step.deletionTimestamp = none ∧
      (createStage d c step (mapGet step.labels KeyPipelineName) (d.MustHash step.spec)
        (d.GetTargetReplicas step.spec) pods).err = none ∧
      c.listFails = false ∧
      Reconcile d c ⟨some step, pods⟩ =
        reconcileListed d c step (GetReplicas step.status) (d.GetTargetReplicas step.spec)
          (d.MustHash step.spec)
          (createStage d c step (mapGet step.labels KeyPipelineName) (d.MustHash step.spec)
            (d.GetTargetReplicas step.spec) pods).actions
          (createStage d c step (mapGet step.labels KeyPipelineName) (d.MustHash step.spec)
            (d.GetTargetReplicas step.spec) pods).store
          ((createStage d c step (mapGet step.labels KeyPipelineName) (d.MustHash step.spec)
            (d.GetTargetReplicas step.spec) pods).store.filter
              (selects step.ns (d.ParseSelector (selectorText (mapGet step.labels KeyPipelineName) step.spec.name))))) := by
  have co := createStage_only_creates d c step (mapGet step.labels KeyPipelineName)
    (d.MustHash step.spec) (d.GetTargetReplicas step.spec) pods
  by_cases hg : c.getFails = true
  · left; simp [Reconcile, hg, deletesOf, killsOf, eventsOf, patchesOf]
  · have hg' : c.getFails = false := by simpa using hg
    cases hdt : step.deletionTimestamp with
    | some t => left; simp [Reconcile, hg', hdt, deletesOf, killsOf, eventsOf, patchesOf]
    | none =>
      cases hce : (createStage d c step (mapGet step.labels KeyPipelineName)
          (d.MustHash step.spec) (d.GetTargetReplicas step.spec) pods).err with
      | some e =>
        left
        simp [Reconcile, hg', hdt, hce, co.1, co.2.1, co.2.2.1, co.2.2.2]
      | none =>
        by_cases hl : c.listFails = true
        · left
          simp [Reconcile, hg', hdt, hce, clientList, hl, co.1, co.2.1, co.2.2.1, co.2.2.2]
        · have hl' : c.listFails = false := by simpa using hl
          right
          refine ⟨hg', rfl, rfl, hl', ?_⟩
          simp [Reconcile, hg', hdt, hce, clientList, hl']

/-! ## Claims on `Reconcile` -/

/-- C1: for every step and every pod list returned by the list call, one pass issues at most
one pod Delete, and the pod it deletes (if any) is the first listed pod whose replica
annotation is at least targetReplicas or whose hash annotation differs from the current spec
hash; if no listed pod meets that condition (or the pods are never listed), no pod is
deleted. -/
theorem C1_single_delete (d : Deps) (c : Calls) (step : Step) (pods : List Pod) :
    (deletesOf (Reconcile d c ⟨some step, pods⟩).actions = [] ∨
      ∃ L p, (Reconcile d c ⟨some step, pods⟩).listed = some L ∧
        L.find? (needsDelete (d.GetTargetReplicas step.spec) (d.MustHash step.spec)) = some p ∧
        deletesOf (Reconcile d c ⟨some step, pods⟩).actions = [p]) ∧
    (∀ L, (Reconcile d c ⟨some step, pods⟩).listed = some L →
      (∀ p ∈ L, needsDelete (d.GetTargetReplicas step.spec) (d.MustHash step.spec) p = false) →
      deletesOf (Reconcile d c ⟨some step, pods⟩).actions = []) := by
  have main : deletesOf (Reconcile d c ⟨some step, pods⟩).actions = [] ∨
      ∃ L p, (Reconcile d c ⟨some step, pods⟩).listed = some L ∧
        L.find? (needsDelete (d.GetTargetReplicas step.spec) (d.MustHash step.spec)) = some p ∧
        deletesOf (Reconcile d c ⟨some step, pods⟩).actions = [p] := by
    rcases Reconcile_cases d c step pods with h | ⟨_, _, _, _, h⟩
    · exact Or.inl h.2.2.2.1
    · rw [h]
      have co := createStage_only_creates d c step (mapGet step.labels KeyPipelineName)
        (d.MustHash step.spec) (d.GetTargetReplicas step.spec) pods
      obtain ⟨f1, _, f3, _⟩ := reconcileListed_fields d c step (GetReplicas step.status)
        (d.GetTargetReplicas step.spec) (d.MustHash step.spec)
        (createStage d c step (mapGet step.labels KeyPipelineName) (d.MustHash step.spec)
            (d.GetTargetReplicas step.spec) pods).actions
        (createStage d c step (mapGet step.labels KeyPipelineName) (d.MustHash step.spec)
            (d.GetTargetReplicas step.spec) pods).store
        ((createStage d c step (mapGet step.labels KeyPipelineName) (d.MustHash step.spec)
            (d.GetTargetReplicas step.spec) pods).store.filter
              (selects step.ns (d.ParseSelector (selectorText (mapGet step.labels KeyPipelineName) step.spec.name))))
      rw [f3, co.1, List.nil_append]
      rcases podLoop_deletes d c (d.GetTargetReplicas step.spec) (d.MustHash step.spec)
        ((createStage d c step (mapGet step.labels KeyPipelineName) (d.MustHash step.spec)
            (d.GetTargetReplicas step.spec) pods).store.filter
              (selects step.ns (d.ParseSelector (selectorText (mapGet step.labels KeyPipelineName) step.spec.name))))
        StepPhase.Unknown (oldStatusOf step).message
        (createStage d c step (mapGet step.labels KeyPipelineName) (d.MustHash step.spec)
            (d.GetTargetReplicas step.spec) pods).store with h0 | ⟨p, hp1, hp2⟩
      · exact Or.inl h0
      · exact Or.inr ⟨_, p, f1, hp1, hp2⟩
  refine ⟨main, ?_⟩
  intro L hL hall
  rcases main with h0 | ⟨L2, p, hL2, hfind, _⟩
  · exact h0
  · rw [hL] at hL2
    cases Option.some.inj hL2
    have := List.find?_some hfind
    have hmem := List.mem_of_find?_eq_some hfind
    rw [hall p hmem] at this
    exact absurd this (by simp)

theorem podLoop_no_creates (d : Deps) (c : Calls) (target : Int) (hash : String)
    (L : List Pod) (deleted : Bool) (phase : StepPhase) (msg : String) (store : List Pod) :
    createsOf (podLoop d c target hash L deleted phase msg store).actions = [] ∧
    eventsOf (podLoop d c target hash L deleted phase msg store).actions = [] ∧
    patchesOf (podLoop d c target hash L deleted phase msg store).actions = [] := by
  induction L generalizing deleted phase msg store with
  | nil => simp [podLoop, createsOf, eventsOf, patchesOf]
  | cons pod rest ih =>
    by_cases h1 : (needsDelete target hash pod && !deleted) = true
    · have hnd : needsDelete target hash pod = true := by
        simp only [Bool.and_eq_true] at h1; exact h1.1
      have hdel : deleted = false := by
        simp only [Bool.and_eq_true, Bool.not_eq_true'] at h1; exact h1.2
      subst hdel
      cases hq : IgnoreNotFound (clientDelete c store pod).1 with
      | some e =>
        rw [podLoop_cons_delete_err d c target hash pod rest phase msg store e hnd hq]
        simp [createsOf, eventsOf, patchesOf]
      | none =>
        rw [podLoop_cons_delete_ok d c target hash pod rest phase msg store hnd hq]
        simp only [createsOf, eventsOf, patchesOf]
        exact ih _ _ _ _
    · have h1' : (needsDelete target hash pod && !deleted) = false := by simpa using h1
      by_cases h3 : mainCtrTerminated pod = true
      · rcases hq : killSidecars c pod pod.status.containerStatuses with ⟨e, acts⟩
        have hkk := killSidecars_only_kills c pod pod.status.containerStatuses
        rw [hq] at hkk
        simp only at hkk
        cases e with
        | some e =>
          rw [podLoop_cons_kill_err d c target hash pod rest deleted phase msg store e acts
            h1' h3 hq]
          exact ⟨hkk.2.1, hkk.2.2.1, hkk.2.2.2⟩
        | none =>
          rw [podLoop_cons_kill_ok d c target hash pod rest deleted phase msg store acts
            h1' h3 hq]
          simp only [createsOf_append, eventsOf_append, patchesOf_append, hkk.2.1, hkk.2.2.1,
            hkk.2.2.2, List.nil_append]
          exact ih _ _ _ _
      · have h3' : mainCtrTerminated pod = false := by simpa using h3
        rw [podLoop_cons_keep d c target hash pod rest deleted phase msg store h1' h3']
        exact ih _ _ _ _

/-- C3: for every step whose loaded status has phase Succeeded or Failed, a pass issues no
pod Create, whatever targetReplicas is, whatever pods exist and whatever the calls return. -/
theorem C3_terminal_no_create (d : Deps) (c : Calls) (step : Step) (pods : List Pod)
    (st : StepStatus) (hst : step.status = some st)
    (hph : st.phase = StepPhase.Succeeded ∨ st.phase = StepPhase.Failed) :
    createsOf (Reconcile d c ⟨some step, pods⟩).actions = [] := by
  have hcs : createStage d c step (mapGet step.labels KeyPipelineName) (d.MustHash step.spec)
      (d.GetTargetReplicas step.spec) pods = ⟨none, [], pods⟩ := by
    unfold createStage
    rcases hph with h | h <;> simp [hst, h, StepPhase.Completed]
  rcases Reconcile_cases d c step pods with h | ⟨_, _, _, _, h⟩
  · rcases h.2.2.2.2.2.2.2 with ⟨h0, _⟩ | ⟨_, h1, _⟩
    · rw [h0]; rfl
    · rw [h1, hcs]; rfl
  · rw [h]
    obtain ⟨_, _, _, _, f5, _⟩ := reconcileListed_fields d c step (GetReplicas step.status)
      (d.GetTargetReplicas step.spec) (d.MustHash step.spec)
      (createStage d c step (mapGet step.labels KeyPipelineName) (d.MustHash step.spec)
          (d.GetTargetReplicas step.spec) pods).actions
      (createStage d c step (mapGet step.labels KeyPipelineName) (d.MustHash step.spec)
          (d.GetTargetReplicas step.spec) pods).store
      ((createStage d c step (mapGet step.labels KeyPipelineName) (d.MustHash step.spec)
          (d.GetTargetReplicas step.spec) pods).store.filter
            (selects step.ns (d.ParseSelector (selectorText (mapGet step.labels KeyPipelineName) step.spec.name))))
    rw [f5, (podLoop_no_creates _ _ _ _ _ _ _ _ _).1, hcs]
    rfl

/-- Witness of C3: a Succeeded step with target 3 and no pods. -/
theorem C3_terminal_no_create_witness :
    createsOf (Reconcile (exDeps 3 "H1") (Calls.ok 0)
      ⟨some (exStep (some (exStatus StepPhase.Succeeded 3))), []⟩).actions = [] :=
  C3_terminal_no_create (exDeps 3 "H1") (Calls.ok 0) (exStep (some (exStatus StepPhase.Succeeded 3)))
    [] (exStatus StepPhase.Succeeded 3) rfl (Or.inl rfl)

/-- Witness of C1: of two stale pods the first listed one is the one deleted; and a pod with
the current hash whose replica annotation `99999999999999999999a` reads as the largest `int`
is deleted. -/
theorem C1_single_delete_witness :
    deletesOf (Reconcile (exDeps 2 "H1") (Calls.ok 0)
        ⟨some (exStep (some (exStatus StepPhase.Running 2))),
          [{ exPod 0 "H1" "Running" [] with
            annotations := [(KeyReplica, "99999999999999999999a"), (KeyHash, "H1")] }]⟩).actions =
      [{ exPod 0 "H1" "Running" [] with
        annotations := [(KeyReplica, "99999999999999999999a"), (KeyHash, "H1")] }] ∧
    (deletesOf (Reconcile (exDeps 2 "H2") (Calls.ok 0)
        ⟨some (exStep (some (exStatus StepPhase.Running 2))),
          [exPod 0 "H1" "Running" [], exPod 1 "H1" "Running" []]⟩).actions =
      [exPod 0 "H1" "Running" []]) ∧
    ((deletesOf (Reconcile (exDeps 2 "H2") (Calls.ok 0)
        ⟨some (exStep (some (exStatus StepPhase.Running 2))),
          [exPod 0 "H1" "Running" [], exPod 1 "H1" "Running" []]⟩).actions = [] ∨
      ∃ L p, (Reconcile (exDeps 2 "H2") (Calls.ok 0)
        ⟨some (exStep (some (exStatus StepPhase.Running 2))),
          [exPod 0 "H1" "Running" [], exPod 1 "H1" "Running" []]⟩).listed = some L ∧
        L.find? (needsDelete ((exDeps 2 "H2").GetTargetReplicas
            (exStep (some (exStatus StepPhase.Running 2))).spec)
          ((exDeps 2 "H2").MustHash (exStep (some (exStatus StepPhase.Running 2))).spec)) =
            some p ∧
        deletesOf (Reconcile (exDeps 2 "H2") (Calls.ok 0)
          ⟨some (exStep (some (exStatus StepPhase.Running 2))),
            [exPod 0 "H1" "Running" [], exPod 1 "H1" "Running" []]⟩).actions = [p])) :=
  ⟨by decide, by decide, (C1_single_delete (exDeps 2 "H2") (Calls.ok 0)
    (exStep (some (exStatus StepPhase.Running 2)))
    [exPod 0 "H1" "Running" [], exPod 1 "H1" "Running" []]).1⟩

/-! ## Lemmas on the aggregation -/

theorem aggregate_eq (d : Deps) (pm : StepPhaseMessage) (pod : Pod) :
    aggregate d pm pod =
      if severity pm.phase < severity (d.inferPhase pod).1 then
        ⟨(d.inferPhase pod).1, (d.inferPhase pod).2⟩
      else pm := by
  simp [aggregate, MinStepPhaseMessage, NewStepPhaseMessage]

theorem fold_failed (d : Deps) (L : List Pod) (m : String) :
    L.foldl (aggregate d) ⟨StepPhase.Failed, m⟩ = ⟨StepPhase.Failed, m⟩ := by
  induction L with
  | nil => rfl
  | cons p rest ih =>
    rw [List.foldl_cons, aggregate_eq]
    have : ¬ (severity StepPhase.Failed < severity (d.inferPhase p).1) := by
      cases (d.inferPhase p).1 <;> decide
    simp only [this, if_false]
    exact ih

/-- The fold of one pass, from phase Unknown: the first Failed pod wins, and without one the
phase Unknown and the message it started with stay. -/
theorem fold_unknown (d : Deps) (L : List Pod) (m : String) :
    L.foldl (aggregate d) ⟨StepPhase.Unknown, m⟩ =
      match L.find? (fun p => decide ((d.inferPhase p).1 = StepPhase.Failed)) with
      | some p => ⟨StepPhase.Failed, (d.inferPhase p).2⟩
      | none => ⟨StepPhase.Unknown, m⟩ := by
  induction L with
  | nil => rfl
  | cons p rest ih =>
    rw [List.foldl_cons, aggregate_eq, List.find?_cons]
    by_cases hf : (d.inferPhase p).1 = StepPhase.Failed
    · have : severity StepPhase.Unknown < severity (d.inferPhase p).1 := by rw [hf]; decide
      simp only [this, if_true, hf, decide_True]
      exact fold_failed d rest _
    · have : ¬ (severity StepPhase.Unknown < severity (d.inferPhase p).1) := by
        revert hf; cases (d.inferPhase p).1 <;> decide
      simp only [this, if_false, hf, decide_False]
      exact ih

theorem fold_unknown_phase (d : Deps) (L : List Pod) (m : String) :
    (L.foldl (aggregate d) ⟨StepPhase.Unknown, m⟩).phase =
      if StepPhase.Failed ∈ L.map (fun p => (d.inferPhase p).1) then StepPhase.Failed
      else StepPhase.Unknown := by
  rw [fold_unknown]
  cases hfind : L.find? (fun p => decide ((d.inferPhase p).1 = StepPhase.Failed)) with
  | some p =>
    have hp := List.find?_some hfind
    have hm := List.mem_of_find?_eq_some hfind
    have : StepPhase.Failed ∈ L.map (fun p => (d.inferPhase p).1) := by
      rw [List.mem_map]; exact ⟨p, hm, by simpa using hp⟩
    simp [this]
  | none =>
    have : ¬ StepPhase.Failed ∈ L.map (fun p => (d.inferPhase p).1) := by
      rw [List.mem_map]
      rintro ⟨p, hm, hp⟩
      have := List.find?_eq_none.1 hfind p hm
      simp [hp] at this
    simp [this]

/-- What a pass that lists `L`, ends its loop without error and deletes nothing computes. -/
theorem Reconcile_newStatus (d : Deps) (c : Calls) (step : Step) (pods L : List Pod)
    (ns : StepStatus) (hL : (Reconcile d c ⟨some step, pods⟩).listed = some L)
    (hns : (Reconcile d c ⟨some step, pods⟩).newStatus = some ns) :
    (⟨ns.phase, ns.message⟩ : StepPhaseMessage) =
      (keptPods (d.GetTargetReplicas step.spec) (d.MustHash step.spec) L).foldl (aggregate d)
        ⟨StepPhase.Unknown, (oldStatusOf step).message⟩ ∧
    deletesOf (Reconcile d c ⟨some step, pods⟩).actions =
      (L.find? (needsDelete (d.GetTargetReplicas step.spec) (d.MustHash step.spec))).toList ∧
    killsOf (Reconcile d c ⟨some step, pods⟩).actions =
      (keptPods (d.GetTargetReplicas step.spec) (d.MustHash step.spec) L).flatMap
        expectedKills := by
  rcases Reconcile_cases d c step pods with h | ⟨_, _, _, _, h⟩
  · rw [h.1] at hL; simp at hL
  · rw [h] at hL hns ⊢
    have co := createStage_only_creates d c step (mapGet step.labels KeyPipelineName)
      (d.MustHash step.spec) (d.GetTargetReplicas step.spec) pods
    obtain ⟨f1, _, f3, f4, _, _, f7, _⟩ := reconcileListed_fields d c step
      (GetReplicas step.status)
      (d.GetTargetReplicas step.spec) (d.MustHash step.spec)
      (createStage d c step (mapGet step.labels KeyPipelineName) (d.MustHash step.spec)
          (d.GetTargetReplicas step.spec) pods).actions
      (createStage d c step (mapGet step.labels KeyPipelineName) (d.MustHash step.spec)
          (d.GetTargetReplicas step.spec) pods).store
      ((createStage d c step (mapGet step.labels KeyPipelineName) (d.MustHash step.spec)
          (d.GetTargetReplicas step.spec) pods).store.filter
            (selects step.ns (d.ParseSelector (selectorText (mapGet step.labels KeyPipelineName) step.spec.name))))
    rw [f1] at hL
    cases Option.some.inj hL
    obtain ⟨herr, _, hnseq⟩ := f7 ns hns
    obtain ⟨a1, a2, a3, _⟩ := podLoop_ok d c _ _ _ false _ _ _ herr
    simp only [Bool.false_eq_true, if_false] at a1 a2 a3
    rw [f3, f4, co.1, co.2.1, List.nil_append, List.nil_append, a1, a2, ← a3, hnseq]
    exact ⟨rfl, rfl, rfl⟩

/-- The phase a pass computes, under the order `Failed > Unknown > Pending > Running >
Succeeded`: the fold starts from Unknown, so it is Failed when some pod that is not deleted is
inferred Failed and Unknown otherwise. -/
theorem phase_fold_from_unknown (d : Deps) (c : Calls) (step : Step) (pods L : List Pod)
    (ns : StepStatus) (hL : (Reconcile d c ⟨some step, pods⟩).listed = some L)
    (hns : (Reconcile d c ⟨some step, pods⟩).newStatus = some ns) :
    ns.phase =
      if StepPhase.Failed ∈ (keptPods (d.GetTargetReplicas step.spec) (d.MustHash step.spec)
          L).map (fun p => (d.inferPhase p).1) then StepPhase.Failed
      else StepPhase.Unknown := by
  obtain ⟨hfold, _, _⟩ := Reconcile_newStatus d c step pods L ns hL hns
  rw [← fold_unknown_phase d _ (oldStatusOf step).message, ← hfold]

/-- C5, the code at the failing inputs: for a step whose two listed pods are inferred Running
and Running (none deleted) the pass computes phase Unknown, and for two pods inferred Succeeded
and Succeeded it computes Unknown, where the claim says Running and Succeeded; for three pods
inferred Running, Failed and Pending it computes Failed, as the claim says. The fold starts
from the Unknown of line 133, which the order `Failed > Unknown > Pending > Running >
Succeeded` ranks above Running and Succeeded; `MinStepPhaseMessage` applied to the pairs of the
pods alone selects Running and Succeeded. -/
theorem C5_failing_input :
    ((Reconcile (exDeps 2 "H1") (Calls.ok 0)
        ⟨some (exStep (some (exStatus StepPhase.Running 2))),
          [exPod 0 "H1" "Running" [], exPod 1 "H1" "Running" []]⟩).listed =
        some [exPod 0 "H1" "Running" [], exPod 1 "H1" "Running" []] ∧
      [exPod 0 "H1" "Running" [], exPod 1 "H1" "Running" []].map
          (fun p => ((exDeps 2 "H1").inferPhase p).1) =
        [StepPhase.Running, StepPhase.Running] ∧
      deletesOf (Reconcile (exDeps 2 "H1") (Calls.ok 0)
        ⟨some (exStep (some (exStatus StepPhase.Running 2))),
          [exPod 0 "H1" "Running" [], exPod 1 "H1" "Running" []]⟩).actions = [] ∧
      ((Reconcile (exDeps 2 "H1") (Calls.ok 0)
        ⟨some (exStep (some (exStatus StepPhase.Running 2))),
          [exPod 0 "H1" "Running" [], exPod 1 "H1" "Running" []]⟩).newStatus.map
            StepStatus.phase) = some StepPhase.Unknown ∧
      (MinStepPhaseMessage ([exPod 0 "H1" "Running" [], exPod 1 "H1" "Running" []].map
          (fun p => NewStepPhaseMessage ((exDeps 2 "H1").inferPhase p).1
            ((exDeps 2 "H1").inferPhase p).2))).phase = StepPhase.Running) ∧
    ([exPod 0 "H1" "Succeeded" [], exPod 1 "H1" "Succeeded" []].map
          (fun p => ((exDeps 2 "H1").inferPhase p).1) =
        [StepPhase.Succeeded, StepPhase.Succeeded] ∧
      deletesOf (Reconcile (exDeps 2 "H1") (Calls.ok 0)
        ⟨some (exStep (some (exStatus StepPhase.Running 2))),
          [exPod 0 "H1" "Succeeded" [], exPod 1 "H1" "Succeeded" []]⟩).actions = [] ∧
      ((Reconcile (exDeps 2 "H1") (Calls.ok 0)
        ⟨some (exStep (some (exStatus StepPhase.Running 2))),
          [exPod 0 "H1" "Succeeded" [], exPod 1 "H1" "Succeeded" []]⟩).newStatus.map
            StepStatus.phase) = some StepPhase.Unknown ∧
      (MinStepPhaseMessage ([exPod 0 "H1" "Succeeded" [], exPod 1 "H1" "Succeeded" []].map
          (fun p => NewStepPhaseMessage ((exDeps 2 "H1").inferPhase p).1
            ((exDeps 2 "H1").inferPhase p).2))).phase = StepPhase.Succeeded) ∧
    ([exPod 0 "H1" "Running" [], exPod 1 "H1" "Failed" [], exPod 2 "H1" "Pending" []].map
          (fun p => ((exDeps 3 "H1").inferPhase p).1) =
        [StepPhase.Running, StepPhase.Failed, StepPhase.Pending] ∧
      ((Reconcile (exDeps 3 "H1") (Calls.ok 0)
        ⟨some (exStep (some (exStatus StepPhase.Running 3))),
          [exPod 0 "H1" "Running" [], exPod 1 "H1" "Failed" [],
            exPod 2 "H1" "Pending" []]⟩).newStatus.map StepStatus.phase) =
        some StepPhase.Failed) := by
  refine ⟨by decide, by decide, by decide⟩

/-- C9, as stated, fails: the pod `s-0` is stale and its Delete fails, so the pass returns
the error there. Neither `s-0` nor the pod `s-1` listed after it is deleted, both have main
Terminated and a running sidecar, and `KillContainer` is invoked for neither (no
`KillContainer` call fails). -/
theorem C9_counterexample :
    mainCtrTerminated (exPod 1 "H2" "Running"
      [⟨"main", ContainerState.terminated⟩, ⟨"sidecar", ContainerState.running⟩]) = true ∧
    (Reconcile (exDeps 2 "H2") { Calls.ok 0 with deleteFails := fun _ => true }
      ⟨some (exStep (some (exStatus StepPhase.Running 2))),
        [exPod 0 "H1" "Running"
            [⟨"main", ContainerState.terminated⟩, ⟨"sidecar", ContainerState.running⟩],
          exPod 1 "H2" "Running"
            [⟨"main", ContainerState.terminated⟩, ⟨"sidecar", ContainerState.running⟩]]⟩).listed =
      some [exPod 0 "H1" "Running"
          [⟨"main", ContainerState.terminated⟩, ⟨"sidecar", ContainerState.running⟩],
        exPod 1 "H2" "Running"
          [⟨"main", ContainerState.terminated⟩, ⟨"sidecar", ContainerState.running⟩]] ∧
    (Reconcile (exDeps 2 "H2") { Calls.ok 0 with deleteFails := fun _ => true }
      ⟨some (exStep (some (exStatus StepPhase.Running 2))),
        [exPod 0 "H1" "Running"
            [⟨"main", ContainerState.terminated⟩, ⟨"sidecar", ContainerState.running⟩],
          exPod 1 "H2" "Running"
            [⟨"main", ContainerState.terminated⟩,
              ⟨"sidecar", ContainerState.running⟩]]⟩).world.pods =
      [exPod 0 "H1" "Running"
          [⟨"main", ContainerState.terminated⟩, ⟨"sidecar", ContainerState.running⟩],
        exPod 1 "H2" "Running"
          [⟨"main", ContainerState.terminated⟩, ⟨"sidecar", ContainerState.running⟩]] ∧
    killsOf (Reconcile (exDeps 2 "H2") { Calls.ok 0 with deleteFails := fun _ => true }
      ⟨some (exStep (some (exStatus StepPhase.Running 2))),
        [exPod 0 "H1" "Running"
            [⟨"main", ContainerState.terminated⟩, ⟨"sidecar", ContainerState.running⟩],
          exPod 1 "H2" "Running"
            [⟨"main", ContainerState.terminated⟩,
              ⟨"sidecar", ContainerState.running⟩]]⟩).actions = [] := by
  decide

/-- C9, amended: in one pass in which no `KillContainer` call and no Delete call fails, for
every listed pod that is not deleted in that pass: if the pod has a container status named main
in the Terminated state, `KillContainer` is invoked exactly once for each container status of
that pod that is not named main (running or not), in order, and never for main; if main is not
terminated, `KillContainer` is not invoked for that pod at all. The pods not deleted are all
the listed pods but the first that meets the deletion condition. -/
theorem C9_kill_sidecars (d : Deps) (c : Calls) (step : Step) (pods L : List Pod)
    (hk : ∀ p n, c.killFails p n = false) (hd : ∀ p, c.deleteFails p = false)
    (hL : (Reconcile d c ⟨some step, pods⟩).listed = some L) :
    killsOf (Reconcile d c ⟨some step, pods⟩).actions =
      (keptPods (d.GetTargetReplicas step.spec) (d.MustHash step.spec) L).flatMap
        expectedKills ∧
    deletesOf (Reconcile d c ⟨some step, pods⟩).actions =
      (L.find? (needsDelete (d.GetTargetReplicas step.spec) (d.MustHash step.spec))).toList ∧
    (∀ x ∈ killsOf (Reconcile d c ⟨some step, pods⟩).actions,
      x.2 ≠ CtrMain ∧ mainCtrTerminated x.1 = true ∧
      x.1 ∈ keptPods (d.GetTargetReplicas step.spec) (d.MustHash step.spec) L) := by
  have hkills : killsOf (Reconcile d c ⟨some step, pods⟩).actions =
        (keptPods (d.GetTargetReplicas step.spec) (d.MustHash step.spec) L).flatMap
          expectedKills ∧
      deletesOf (Reconcile d c ⟨some step, pods⟩).actions =
        (L.find? (needsDelete (d.GetTargetReplicas step.spec) (d.MustHash step.spec))).toList := by
    rcases Reconcile_cases d c step pods with h | ⟨_, _, _, _, h⟩
    · rw [h.1] at hL; simp at hL
    · rw [h] at hL ⊢
      have co := createStage_only_creates d c step (mapGet step.labels KeyPipelineName)
        (d.MustHash step.spec) (d.GetTargetReplicas step.spec) pods
      obtain ⟨f1, _, f3, f4, _⟩ := reconcileListed_fields d c step
        (GetReplicas step.status)
        (d.GetTargetReplicas step.spec) (d.MustHash step.spec)
        (createStage d c step (mapGet step.labels KeyPipelineName) (d.MustHash step.spec)
            (d.GetTargetReplicas step.spec) pods).actions
        (createStage d c step (mapGet step.labels KeyPipelineName) (d.MustHash step.spec)
            (d.GetTargetReplicas step.spec) pods).store
        ((createStage d c step (mapGet step.labels KeyPipelineName) (d.MustHash step.spec)
            (d.GetTargetReplicas step.spec) pods).store.filter
              (selects step.ns (d.ParseSelector (selectorText (mapGet step.labels KeyPipelineName) step.spec.name))))
      rw [f1] at hL
      cases Option.some.inj hL
      have herr := podLoop_no_fault d c (d.GetTargetReplicas step.spec) (d.MustHash step.spec)
        hk hd ((createStage d c step (mapGet step.labels KeyPipelineName) (d.MustHash step.spec)
            (d.GetTargetReplicas step.spec) pods).store.filter
              (selects step.ns (d.ParseSelector (selectorText (mapGet step.labels KeyPipelineName) step.spec.name))))
        false StepPhase.Unknown (oldStatusOf step).message
        (createStage d c step (mapGet step.labels KeyPipelineName) (d.MustHash step.spec)
            (d.GetTargetReplicas step.spec) pods).store
      obtain ⟨a1, a2, _⟩ := podLoop_ok d c _ _ _ false _ _ _ herr
      simp only [Bool.false_eq_true, if_false] at a1 a2
      rw [f3, f4, co.1, co.2.1, List.nil_append, List.nil_append, a1, a2]
      exact ⟨rfl, rfl⟩
  refine ⟨hkills.1, hkills.2, ?_⟩
  intro x hx
  rw [hkills.1, List.mem_flatMap] at hx
  obtain ⟨p, hp, hxp⟩ := hx
  unfold expectedKills at hxp
  rw [← mainCtrTerminated_eq_any] at hxp
  by_cases hm : mainCtrTerminated p = true
  · simp only [hm, if_true, List.mem_map, List.mem_filter] at hxp
    obtain ⟨s, ⟨_, hs⟩, rfl⟩ := hxp
    exact ⟨by simpa using hs, hm, hp⟩
  · simp [hm] at hxp

/-- Witness of C9: `s-0` is stale and is deleted; `s-1` has main Terminated and two sidecars,
both are killed once; `s-2` has main running and is left alone. And a first listed pod with
the current hash, main Terminated and the replica annotation `99999999999999999999a` (read as
the largest `int`) is deleted and gets no `KillContainer` call. -/
theorem C9_kill_sidecars_witness :
    (deletesOf (Reconcile (exDeps 1 "H1") (Calls.ok 0)
        ⟨some (exStep (some (exStatus StepPhase.Running 1))),
          [{ exPod 0 "H1" "Running" [⟨"main", ContainerState.terminated⟩,
              ⟨"sidecar", ContainerState.running⟩] with
            annotations := [(KeyReplica, "99999999999999999999a"), (KeyHash, "H1")] }]⟩).actions =
        [{ exPod 0 "H1" "Running" [⟨"main", ContainerState.terminated⟩,
            ⟨"sidecar", ContainerState.running⟩] with
          annotations := [(KeyReplica, "99999999999999999999a"), (KeyHash, "H1")] }] ∧
      killsOf (Reconcile (exDeps 1 "H1") (Calls.ok 0)
        ⟨some (exStep (some (exStatus StepPhase.Running 1))),
          [{ exPod 0 "H1" "Running" [⟨"main", ContainerState.terminated⟩,
              ⟨"sidecar", ContainerState.running⟩] with
            annotations := [(KeyReplica, "99999999999999999999a"), (KeyHash, "H1")] }]⟩).actions =
        []) ∧
    killsOf (Reconcile (exDeps 3 "H2") (Calls.ok 0)
      ⟨some (exStep (some (exStatus StepPhase.Running 3))),
        [exPod 0 "H1" "Running" [⟨"main", ContainerState.terminated⟩,
            ⟨"sidecar", ContainerState.running⟩],
          exPod 1 "H2" "Running" [⟨"main", ContainerState.terminated⟩,
            ⟨"sidecar", ContainerState.running⟩, ⟨"init", ContainerState.terminated⟩],
          exPod 2 "H2" "Running" [⟨"main", ContainerState.running⟩,
            ⟨"sidecar", ContainerState.running⟩]]⟩).actions =
      [(exPod 1 "H2" "Running" [⟨"main", ContainerState.terminated⟩,
            ⟨"sidecar", ContainerState.running⟩, ⟨"init", ContainerState.terminated⟩], "sidecar"),
        (exPod 1 "H2" "Running" [⟨"main", ContainerState.terminated⟩,
            ⟨"sidecar", ContainerState.running⟩, ⟨"init", ContainerState.terminated⟩], "init")] ∧
    killsOf (Reconcile (exDeps 3 "H2") (Calls.ok 0)
      ⟨some (exStep (some (exStatus StepPhase.Running 3))),
        [exPod 0 "H1" "Running" [⟨"main", ContainerState.terminated⟩,
            ⟨"sidecar", ContainerState.running⟩],
          exPod 1 "H2" "Running" [⟨"main", ContainerState.terminated⟩,
            ⟨"sidecar", ContainerState.running⟩, ⟨"init", ContainerState.terminated⟩],
          exPod 2 "H2" "Running" [⟨"main", ContainerState.running⟩,
            ⟨"sidecar", ContainerState.running⟩]]⟩).actions =
      (keptPods ((exDeps 3 "H2").GetTargetReplicas
          (exStep (some (exStatus StepPhase.Running 3))).spec)
        ((exDeps 3 "H2").MustHash (exStep (some (exStatus StepPhase.Running 3))).spec)
        [exPod 0 "H1" "Running" [⟨"main", ContainerState.terminated⟩,
            ⟨"sidecar", ContainerState.running⟩],
          exPod 1 "H2" "Running" [⟨"main", ContainerState.terminated⟩,
            ⟨"sidecar", ContainerState.running⟩, ⟨"init", ContainerState.terminated⟩],
          exPod 2 "H2" "Running" [⟨"main", ContainerState.running⟩,
            ⟨"sidecar", ContainerState.running⟩]]).flatMap expectedKills :=
  ⟨by decide, by decide,
    (C9_kill_sidecars (exDeps 3 "H2") (Calls.ok 0)
      (exStep (some (exStatus StepPhase.Running 3)))
      [exPod 0 "H1" "Running" [⟨"main", ContainerState.terminated⟩,
          ⟨"sidecar", ContainerState.running⟩],
        exPod 1 "H2" "Running" [⟨"main", ContainerState.terminated⟩,
          ⟨"sidecar", ContainerState.running⟩, ⟨"init", ContainerState.terminated⟩],
        exPod 2 "H2" "Running" [⟨"main", ContainerState.running⟩,
          ⟨"sidecar", ContainerState.running⟩]]
      [exPod 0 "H1" "Running" [⟨"main", ContainerState.terminated⟩,
          ⟨"sidecar", ContainerState.running⟩],
        exPod 1 "H2" "Running" [⟨"main", ContainerState.terminated⟩,
          ⟨"sidecar", ContainerState.running⟩, ⟨"init", ContainerState.terminated⟩],
        exPod 2 "H2" "Running" [⟨"main", ContainerState.running⟩,
          ⟨"sidecar", ContainerState.running⟩]]
      (fun _ _ => rfl) (fun _ => rfl) (by decide)).1⟩

/-! ## Lemmas on maps and on the pod of a replica -/

theorem mapGet_mapSet_same (m : List (String × String)) (k v : String) :
    mapGet (mapSet m k v) k = v := by
  induction m with
  | nil => simp [mapSet, mapGet]
  | cons a t ih =>
    obtain ⟨k1, v1⟩ := a
    by_cases h : k1 = k
    · simp [mapSet, mapGet, h]
    · simp [mapSet, mapGet, h, ih]

theorem mapGet_mapSet_other (m : List (String × String)) (k k2 v : String) (hne : k2 ≠ k) :
    mapGet (mapSet m k v) k2 = mapGet m k2 := by
  induction m with
  | nil => simp [mapSet, mapGet, hne.symm]
  | cons a t ih =>
    obtain ⟨k1, v1⟩ := a
    by_cases h : k1 = k
    · subst h
      simp [mapSet, mapGet, hne.symm]
    · by_cases h2 : k1 = k2
      · subst h2
        simp [mapSet, mapGet, h]
      · simp [mapSet, mapGet, h, h2, ih]

theorem lookup_mapSet_same (m : List (String × String)) (k v : String) :
    (mapSet m k v).lookup k = some v := by
  induction m with
  | nil => simp [mapSet, List.lookup]
  | cons a t ih =>
    obtain ⟨k1, v1⟩ := a
    by_cases h : k1 = k
    · simp [mapSet, List.lookup, h]
    · have h' : (k == k1) = false := by simpa using fun e => h e.symm
      simp [mapSet, List.lookup, h, h', ih]

theorem lookup_mapSet_other (m : List (String × String)) (k k2 v : String) (hne : k2 ≠ k) :
    (mapSet m k v).lookup k2 = m.lookup k2 := by
  induction m with
  | nil =>
    have h' : (k2 == k) = false := by simpa using hne
    simp [mapSet, List.lookup, h']
  | cons a t ih =>
    obtain ⟨k1, v1⟩ := a
    by_cases h : k1 = k
    · subst h
      have h' : (k2 == k1) = false := by simpa using hne
      simp [mapSet, List.lookup, h']
    · by_cases h2 : k2 = k1
      · subst h2
        simp [mapSet, List.lookup, h]
      · have h' : (k2 == k1) = false := by simpa using h2
        simp [mapSet, List.lookup, h, h', ih]

theorem newPod_replica (d : Deps) (step : Step) (pn hash : String) (r : Nat) :
    mapGet (newPod d step pn hash r).annotations KeyReplica = Itoa (r : Int) := by
  simp only [newPod]
  rw [mapGet_mapSet_other _ _ _ _ (by decide), mapGet_mapSet_other _ _ _ _ (by decide),
    mapGet_mapSet_other _ _ _ _ (by decide), mapGet_mapSet_other _ _ _ _ (by decide),
    mapGet_mapSet_same]

theorem newPod_hash (d : Deps) (step : Step) (pn hash : String) (r : Nat) :
    mapGet (newPod d step pn hash r).annotations KeyHash = hash := by
  simp only [newPod]
  rw [mapGet_mapSet_other _ _ _ _ (by decide), mapGet_mapSet_other _ _ _ _ (by decide),
    mapGet_mapSet_other _ _ _ _ (by decide), mapGet_mapSet_same]

theorem newPod_not_terminated (d : Deps) (step : Step) (pn hash : String) (r : Nat) :
    mainCtrTerminated (newPod d step pn hash r) = false := by
  simp [mainCtrTerminated, newPod]

theorem newPod_kept (d : Deps) (step : Step) (pn hash : String) (r : Nat) (tgt : Int)
    (h1 : (r : Int) < tgt) (h2 : r < 2 ^ 63) :
    needsDelete tgt hash (newPod d step pn hash r) = false := by
  unfold needsDelete
  rw [newPod_replica, newPod_hash, Atoi_Itoa r h2]
  simp
  exact h1

theorem newPod_name (d : Deps) (step : Step) (pn hash : String) (r : Nat) :
    (newPod d step pn hash r).name = step.name ++ "-" ++ Itoa (r : Int) := rfl

theorem newPod_samePod (d : Deps) (step : Step) (pn hash : String) (r1 r2 : Nat)
    (h : samePod (newPod d step pn hash r1) (newPod d step pn hash r2) = true) : r1 = r2 := by
  simp only [samePod, Bool.and_eq_true, decide_eq_true_eq, newPod_name] at h
  have h2 := congrArg String.data h.2
  simp only [String.data_append, List.append_cancel_left_eq, Itoa_natCast] at h2
  exact repr_injective r1 r2 (String.ext h2)

/-! ## Lemmas on the creation loop -/

theorem createPods_fresh (d : Deps) (c : Calls) (step : Step) (pn hash : String)
    (hc : ∀ p, c.createFails p = false) (rs : List Nat) (store : List Pod)
    (hnd : rs.Nodup)
    (hfresh : ∀ r ∈ rs, store.any (samePod (newPod d step pn hash r)) = false) :
    (createPods d c step pn hash rs store).err = none ∧
    (createPods d c step pn hash rs store).actions =
      rs.map (fun r => Action.create (newPod d step pn hash r)) ∧
    (createPods d c step pn hash rs store).store = store ++ rs.map (newPod d step pn hash) := by
  induction rs generalizing store with
  | nil => simp [createPods]
  | cons r rest ih =>
    have hr := hfresh r (by simp)
    have hcl : clientCreate c store (newPod d step pn hash r) =
        (none, store ++ [newPod d step pn hash r]) := by
      simp [clientCreate, hc, hr]
    have hnd2 := List.nodup_cons.1 hnd
    have hfresh2 : ∀ r2 ∈ rest,
        (store ++ [newPod d step pn hash r]).any (samePod (newPod d step pn hash r2)) = false := by
      intro r2 hr2
      rw [List.any_append, hfresh r2 (by simp [hr2])]
      simp only [Bool.false_or, List.any_cons, List.any_nil, Bool.or_false]
      by_contra hsame
      have := newPod_samePod d step pn hash r2 r (by simpa using hsame)
      subst this
      exact hnd2.1 hr2
    obtain ⟨i1, i2, i3⟩ := ih (store ++ [newPod d step pn hash r]) hnd2.2 hfresh2
    unfold createPods
    simp only [hcl, IgnoreAlreadyExists]
    refine ⟨i1, ?_, ?_⟩
    · simp [i2]
    · simp [i3]

theorem createPods_present (d : Deps) (c : Calls) (step : Step) (pn hash : String)
    (rs : List Nat) (store : List Pod)
    (hall : ∀ r ∈ rs, store.any (samePod (newPod d step pn hash r)) = true) :
    (createPods d c step pn hash rs store).store = store := by
  induction rs generalizing store with
  | nil => simp [createPods]
  | cons r rest ih =>
    have hr := hall r (by simp)
    unfold createPods
    by_cases hf : c.createFails (newPod d step pn hash r) = true
    · simp [clientCreate, hf, IgnoreAlreadyExists]
    · have hcl : clientCreate c store (newPod d step pn hash r) =
          (some ClientError.AlreadyExists, store) := by
        simp [clientCreate, hf, hr]
      simp only [hcl, IgnoreAlreadyExists]
      exact ih store (fun r2 hr2 => hall r2 (by simp [hr2]))

theorem clientCreate_mono (c : Calls) (store : List Pod) (pod : Pod) (f : Pod → Bool)
    (h : store.any f = true) : (clientCreate c store pod).2.any f = true := by
  unfold clientCreate
  split
  · exact h
  · split
    · exact h
    · simp only [List.any_append, h, Bool.true_or]

theorem createPods_mono (d : Deps) (c : Calls) (step : Step) (pn hash : String)
    (rs : List Nat) (store : List Pod) (f : Pod → Bool) (h : store.any f = true) :
    (createPods d c step pn hash rs store).store.any f = true := by
  induction rs generalizing store with
  | nil => simpa [createPods] using h
  | cons r rest ih =>
    unfold createPods
    simp only
    split
    · exact clientCreate_mono c store _ f h
    · exact ih _ (clientCreate_mono c store _ f h)

theorem createPods_covers (d : Deps) (c : Calls) (step : Step) (pn hash : String)
    (rs : List Nat) (store : List Pod)
    (herr : (createPods d c step pn hash rs store).err = none) :
    ∀ r ∈ rs, (createPods d c step pn hash rs store).store.any
      (samePod (newPod d step pn hash r)) = true := by
  induction rs generalizing store with
  | nil => intro r hr; simp at hr
  | cons r0 rest ih =>
    unfold createPods at herr ⊢
    simp only at herr ⊢
    split at herr
    · simp at herr
    · rename_i hq
      simp only [hq]
      intro r hr
      rcases List.mem_cons.1 hr with rfl | hr2
      · apply createPods_mono
        unfold clientCreate at hq ⊢
        by_cases hf : c.createFails (newPod d step pn hash r) = true
        · simp [hf, IgnoreAlreadyExists] at hq
        · by_cases hex : store.any (samePod (newPod d step pn hash r)) = true
          · simp [hf, hex]
          · simp [hf, hex, samePod]
      · exact ih _ herr r hr2

theorem podLoop_quiet (d : Deps) (c : Calls) (target : Int) (hash : String)
    (L : List Pod) (deleted : Bool) (phase : StepPhase) (msg : String) (store : List Pod)
    (hq : ∀ p ∈ L, needsDelete target hash p = false ∧ mainCtrTerminated p = false) :
    podLoop d c target hash L deleted phase msg store =
      ⟨none, [], (L.foldl (aggregate d) ⟨phase, msg⟩).phase,
        (L.foldl (aggregate d) ⟨phase, msg⟩).message, store⟩ := by
  induction L generalizing phase msg with
  | nil => simp [podLoop]
  | cons pod rest ih =>
    obtain ⟨h1, h3⟩ := hq pod (by simp)
    rw [podLoop_cons_keep d c target hash pod rest deleted phase msg store (by simp [h1]) h3]
    rw [ih _ _ (fun p hp => hq p (by simp [hp]))]
    rfl

theorem Reconcile_eq_listed (d : Deps) (c : Calls) (step : Step) (pods : List Pod)
    (hg : c.getFails = false) (hdt : step.deletionTimestamp = none)
    (hce : (createStage d c step (mapGet step.labels KeyPipelineName) (d.MustHash step.spec)
      (d.GetTargetReplicas step.spec) pods).err = none)
    (hl : c.listFails = false) :
    Reconcile d c ⟨some step, pods⟩ =
      reconcileListed d c step (GetReplicas step.status) (d.GetTargetReplicas step.spec)
        (d.MustHash step.spec)
        (createStage d c step (mapGet step.labels KeyPipelineName) (d.MustHash step.spec)
          (d.GetTargetReplicas step.spec) pods).actions
        (createStage d c step (mapGet step.labels KeyPipelineName) (d.MustHash step.spec)
          (d.GetTargetReplicas step.spec) pods).store
        ((createStage d c step (mapGet step.labels KeyPipelineName) (d.MustHash step.spec)
          (d.GetTargetReplicas step.spec) pods).store.filter
            (selects step.ns (d.ParseSelector (selectorText (mapGet step.labels KeyPipelineName) step.spec.name)))) := by
  simp [Reconcile, hg, hdt, hce, clientList, hl]

theorem patchStage_applied (d : Deps) (c : Calls) (step : Step) (cur tgt : Int)
    (acts : List Action) (pods store : List Pod) (o n : StepStatus)
    (hp : c.patchResult = none) :
    (patchStage d c step cur tgt acts pods store o n).err = none ∧
    (o ≠ n → (patchStage d c step cur tgt acts pods store o n).world.step =
      some { step with status := some (applyPatch step.status n) }) ∧
    (o = n → (patchStage d c step cur tgt acts pods store o n).world.step = some step) := by
  unfold patchStage
  by_cases h : o = n
  · simp [h, NotEqual]
  · simp [h, hp, IgnoreConflict, NotEqual]

theorem reconcileListed_quiet (d : Deps) (c : Calls) (step : Step) (cur tgt : Int)
    (hash : String) (created : List Action) (store pods : List Pod)
    (hq : ∀ p ∈ pods, needsDelete tgt hash p = false ∧ mainCtrTerminated p = false) :
    reconcileListed d c step cur tgt hash created store pods =
      patchStage d c step cur tgt (created ++ scaleEvents cur tgt ++ []) pods store
        (oldStatusOf step)
        { scaledStatus c (oldStatusOf step) cur tgt with
          phase := (pods.foldl (aggregate d)
            ⟨StepPhase.Unknown, (oldStatusOf step).message⟩).phase
          message := (pods.foldl (aggregate d)
            ⟨StepPhase.Unknown, (oldStatusOf step).message⟩).message } := by
  unfold reconcileListed
  simp only [scaledStatus_phase, scaledStatus_message,
    podLoop_quiet d c tgt hash pods false StepPhase.Unknown (oldStatusOf step).message store hq]

theorem createsEvents_nil (f : Nat → Pod) (rs : List Nat) :
    eventsOf (rs.map (fun r => Action.create (f r))) = [] := by
  induction rs with
  | nil => rfl
  | cons r rest ih => simpa [eventsOf] using ih

theorem createsDeletes_nil (f : Nat → Pod) (rs : List Nat) :
    deletesOf (rs.map (fun r => Action.create (f r))) = [] := by
  induction rs with
  | nil => rfl
  | cons r rest ih => simpa [deletesOf] using ih

/-- The pass that scales a step with no pods up from 0 to `N` replicas, when no scheduler call
fails; `replicas` is the target truncated to 32 bits. -/
theorem scale_up_pass (d : Deps) (c : Calls) (step : Step) (N : Nat)
    (hdt : step.deletionTimestamp = none)
    (hN : d.GetTargetReplicas step.spec = (N : Int)) (hpos : 0 < N) (hbig : N < 2 ^ 63)
    (hst : step.status = none ∨
      ∃ st, step.status = some st ∧ st.replicas = 0 ∧ st.phase.Completed = false)
    (hget : c.getFails = false) (hcreate : ∀ p, c.createFails p = false)
    (hlist : c.listFails = false) (hpatch : c.patchResult = none) :
    (Reconcile d c ⟨some step, []⟩).err = none ∧
    (Reconcile d c ⟨some step, []⟩).world.pods =
      (List.range N).map
        (newPod d step (mapGet step.labels KeyPipelineName) (d.MustHash step.spec)) ∧
    eventsOf (Reconcile d c ⟨some step, []⟩).actions =
      [("Normal", "ScaleUp", "Scaling from 0 to " ++ Itoa (N : Int))] ∧
    deletesOf (Reconcile d c ⟨some step, []⟩).actions = [] ∧
    ∃ ns, (Reconcile d c ⟨some step, []⟩).newStatus = some ns ∧
      ns.replicas = ((N : Int) % 2 ^ 32).toNat ∧
      ns.lastScaledAt = some c.now ∧
      (oldStatusOf step ≠ ns →
        (Reconcile d c ⟨some step, []⟩).world.step =
          some { step with status := some (applyPatch step.status ns) }) ∧
      (oldStatusOf step = ns → (Reconcile d c ⟨some step, []⟩).world.step = some step) := by
  have hcur : GetReplicas step.status = 0 := by
    rcases hst with h | ⟨st, h, h0, _⟩
    · rw [h]; rfl
    · rw [h]; simp [GetReplicas, h0]
  have hcs : createStage d c step (mapGet step.labels KeyPipelineName) (d.MustHash step.spec)
      (d.GetTargetReplicas step.spec) [] =
      createPods d c step (mapGet step.labels KeyPipelineName) (d.MustHash step.spec)
        (List.range N) [] := by
    unfold createStage
    rw [hN]
    rcases hst with h | ⟨st, h, _, hc⟩
    · simp [h]
    · simp [h, hc]
  obtain ⟨c1, c2, c3⟩ := createPods_fresh d c step (mapGet step.labels KeyPipelineName)
    (d.MustHash step.spec) hcreate (List.range N) [] (List.nodup_range N) (by simp)
  have hR := Reconcile_eq_listed d c step [] hget hdt (by rw [hcs]; exact c1) hlist
  rw [hcs, c2, c3, List.nil_append, hcur, hN] at hR
  have hquiet : ∀ p ∈ ((List.range N).map
      (newPod d step (mapGet step.labels KeyPipelineName) (d.MustHash step.spec))).filter
        (selects step.ns (d.ParseSelector
          (selectorText (mapGet step.labels KeyPipelineName) step.spec.name))),
      needsDelete (N : Int) (d.MustHash step.spec) p = false ∧ mainCtrTerminated p = false := by
    intro p hp
    have hp := List.mem_of_mem_filter hp
    rw [List.mem_map] at hp
    obtain ⟨r, hr, rfl⟩ := hp
    rw [List.mem_range] at hr
    exact ⟨newPod_kept _ _ _ _ _ _ (by exact_mod_cast hr) (by omega),
      newPod_not_terminated _ _ _ _ _⟩
  have hne : (0 : Int) ≠ (N : Int) := by
    intro h; have : (N : Int) = 0 := h.symm; omega
  have hev : scaleEvents 0 (N : Int) =
      [Action.event "Normal" "ScaleUp" ("Scaling from 0 to " ++ Itoa (N : Int))] := by
    have hgt : (N : Int) > 0 := by exact_mod_cast hpos
    unfold scaleEvents eventReason
    rw [if_pos hne, if_pos hgt]
    have hs : "Scaling from " ++ Itoa 0 ++ " to " = "Scaling from 0 to " := by decide
    rw [hs]
  have hsc : (scaledStatus c (oldStatusOf step) 0 (N : Int)).replicas =
        ((N : Int) % 2 ^ 32).toNat ∧
      (scaledStatus c (oldStatusOf step) 0 (N : Int)).lastScaledAt = some c.now := by
    simp [scaledStatus, hne]
  rw [hR, reconcileListed_quiet d c step 0 (N : Int) (d.MustHash step.spec) _ _ _ hquiet]
  have pf := fun acts pods store o n => patchStage_fields d c step 0 (N : Int) acts pods store o n
  have pa := fun acts pods store o n =>
    patchStage_applied d c step 0 (N : Int) acts pods store o n hpatch
  refine ⟨(pa _ _ _ _ _).1, (pf _ _ _ _ _).2.1, ?_, ?_, _, (pf _ _ _ _ _).2.2.2.1, hsc.1, hsc.2,
    (pa _ _ _ _ _).2.1, (pa _ _ _ _ _).2.2⟩
  · rw [(pf _ _ _ _ _).2.2.2.2.2.2.2, hev]
    simp [eventsOf_append, createsEvents_nil, eventsOf]
  · rw [(pf _ _ _ _ _).2.2.2.2.1, hev]
    simp [deletesOf_append, createsDeletes_nil, deletesOf]

/-- C2, as stated, fails, in two ways. (1) `status.replicas` is a `uint32` and the pass
stores `uint32(targetReplicas)`: for the step `s` with an empty status, no pods and
targetReplicas = 4294967296 (a value of the Go `int` that `GetTargetReplicas` returns), the
pass in which every call succeeds sets `status.replicas` to 0, not to 4294967296. (2) A step
that is being deleted (its deletion timestamp is set) is left alone: with targetReplicas = 2
the pass creates no pod and emits no event. -/
theorem C2_counterexample :
    ((exDeps 4294967296 "H1").GetTargetReplicas (exStep none).spec = 4294967296 ∧
      (Reconcile (exDeps 4294967296 "H1") (Calls.ok 0) ⟨some (exStep none), []⟩).err = none ∧
      ((Reconcile (exDeps 4294967296 "H1") (Calls.ok 0)
        ⟨some (exStep none), []⟩).world.step.bind Step.status).map StepStatus.replicas =
          some 0) ∧
    ((Reconcile (exDeps 2 "H1") (Calls.ok 0)
        ⟨some { exStep none with deletionTimestamp := some 1 }, []⟩).err = none ∧
      (Reconcile (exDeps 2 "H1") (Calls.ok 0)
        ⟨some { exStep none with deletionTimestamp := some 1 }, []⟩).world.pods = [] ∧
      (Reconcile (exDeps 2 "H1") (Calls.ok 0)
        ⟨some { exStep none with deletionTimestamp := some 1 }, []⟩).actions = []) := by
  refine ⟨?_, by decide⟩
  obtain ⟨h1, _, _, _, ns, _, h6, h7, h8, _⟩ := scale_up_pass (exDeps 4294967296 "H1")
    (Calls.ok 0) (exStep none) 4294967296 rfl rfl (by norm_num) (by norm_num) (Or.inl rfl)
    rfl (fun _ => rfl) rfl rfl
  refine ⟨rfl, h1, ?_⟩
  have hne : oldStatusOf (exStep none) ≠ ns := by
    intro h
    have := congrArg StepStatus.lastScaledAt h
    rw [h7] at this
    exact absurd this (by decide)
  rw [h8 hne]
  simp only [Option.bind, Option.map, applyPatch]
  rw [h6]
  norm_num

/-- C2, amended: for every step that is not being deleted, with targetReplicas = N,
0 < N < 2^32, status.replicas = 0, a non-terminal (or empty) status and no existing pods, one
pass in which every scheduler call succeeds leaves exactly the pods named `<name>-0` ..
`<name>-(N-1)`, each carrying annotation replica = its decimal index and hash = the current
spec hash (whatever labels and annotations the user metadata of the step supplies), sets
status.replicas = N, and emits exactly one event, with reason ScaleUp and message
`Scaling from 0 to N`. -/
theorem C2_scale_up (d : Deps) (c : Calls) (step : Step) (N : Nat)
    (hdt : step.deletionTimestamp = none)
    (hN : d.GetTargetReplicas step.spec = (N : Int)) (hpos : 0 < N) (hlt : N < 2 ^ 32)
    (hst : step.status = none ∨
      ∃ st, step.status = some st ∧ st.replicas = 0 ∧ st.phase.Completed = false)
    (hget : c.getFails = false) (hcreate : ∀ p, c.createFails p = false)
    (hlist : c.listFails = false) (hpatch : c.patchResult = none) :
    (Reconcile d c ⟨some step, []⟩).err = none ∧
    (Reconcile d c ⟨some step, []⟩).world.pods.map Pod.name =
      (List.range N).map (fun r : Nat => step.name ++ "-" ++ Itoa (r : Int)) ∧
    (∀ p ∈ (Reconcile d c ⟨some step, []⟩).world.pods,
      ∃ r : Nat, r < N ∧ p.name = step.name ++ "-" ++ Itoa (r : Int) ∧
        mapGet p.annotations KeyReplica = Itoa (r : Int) ∧
        mapGet p.annotations KeyHash = d.MustHash step.spec) ∧
    (∃ st, (Reconcile d c ⟨some step, []⟩).world.step = some { step with status := some st } ∧
      st.replicas = N) ∧
    eventsOf (Reconcile d c ⟨some step, []⟩).actions =
      [("Normal", "ScaleUp", "Scaling from 0 to " ++ Itoa (N : Int))] := by
  obtain ⟨h1, h2, h3, _, ns, _, h6, _, h8, _⟩ := scale_up_pass d c step N hdt hN hpos
    (lt_trans hlt (by norm_num)) hst hget hcreate hlist hpatch
  have hrep : ns.replicas = N := by
    rw [h6]
    have : ((N : Int) % 2 ^ 32) = (N : Int) := Int.emod_eq_of_lt (by omega) (by exact_mod_cast hlt)
    rw [this]; simp
  have hne : oldStatusOf step ≠ ns := by
    intro h
    have h0 : (oldStatusOf step).replicas = 0 := by
      rcases hst with h | ⟨st, h, h0, _⟩
      · simp [oldStatusOf, h, emptyStatus]
      · simp [oldStatusOf, h, h0]
    have := congrArg StepStatus.replicas h
    rw [h0, hrep] at this
    omega
  refine ⟨h1, ?_, ?_, ⟨_, h8 hne, ?_⟩, h3⟩
  · rw [h2, List.map_map]; rfl
  · intro p hp
    rw [h2, List.mem_map] at hp
    obtain ⟨r, hr, rfl⟩ := hp
    exact ⟨r, List.mem_range.1 hr, rfl, newPod_replica _ _ _ _ _, newPod_hash _ _ _ _ _⟩
  · simpa [applyPatch] using hrep

/-- Witness of C2: the first scenario of the spec, a step `s` with replicas 2, hash `H1` and
no pods. -/
theorem C2_scale_up_witness :
    (Reconcile (exDeps 2 "H1") (Calls.ok 5) ⟨some (exStep none), []⟩).err = none ∧
    (Reconcile (exDeps 2 "H1") (Calls.ok 5) ⟨some (exStep none), []⟩).world.pods.map Pod.name =
      (List.range 2).map (fun r : Nat => (exStep none).name ++ "-" ++ Itoa (r : Int)) ∧
    (∀ p ∈ (Reconcile (exDeps 2 "H1") (Calls.ok 5) ⟨some (exStep none), []⟩).world.pods,
      ∃ r : Nat, r < 2 ∧ p.name = (exStep none).name ++ "-" ++ Itoa (r : Int) ∧
        mapGet p.annotations KeyReplica = Itoa (r : Int) ∧
        mapGet p.annotations KeyHash = (exDeps 2 "H1").MustHash (exStep none).spec) ∧
    (∃ st, (Reconcile (exDeps 2 "H1") (Calls.ok 5) ⟨some (exStep none), []⟩).world.step =
        some { exStep none with status := some st } ∧
      st.replicas = 2) ∧
    eventsOf (Reconcile (exDeps 2 "H1") (Calls.ok 5) ⟨some (exStep none), []⟩).actions =
      [("Normal", "ScaleUp", "Scaling from 0 to " ++ Itoa ((2 : Nat) : Int))] :=
  C2_scale_up (exDeps 2 "H1") (Calls.ok 5) (exStep none) 2 rfl rfl (by decide) (by decide)
    (Or.inl rfl) rfl (fun _ => rfl) rfl rfl

/-! ## Lemmas for a second pass on the world a first pass leaves -/

theorem newPod_congr (d : Deps) (s1 step : Step) (pn hash : String) (r : Nat)
    (h1 : s1.ns = step.ns) (h2 : s1.name = step.name) (h3 : s1.spec = step.spec) :
    newPod d s1 pn hash r = newPod d step pn hash r := by
  simp only [newPod, h1, h2, h3]

theorem createPods_congr (d : Deps) (c : Calls) (s1 step : Step) (pn hash : String)
    (rs : List Nat) (store : List Pod)
    (h1 : s1.ns = step.ns) (h2 : s1.name = step.name) (h3 : s1.spec = step.spec) :
    createPods d c s1 pn hash rs store = createPods d c step pn hash rs store := by
  induction rs generalizing store with
  | nil => rfl
  | cons r rest ih =>
    unfold createPods
    simp only [newPod_congr d s1 step pn hash r h1 h2 h3, ih]

theorem podLoop_no_match (d : Deps) (c : Calls) (target : Int) (hash : String)
    (L : List Pod) (deleted : Bool) (phase : StepPhase) (msg : String) (store : List Pod)
    (hq : ∀ p ∈ L, needsDelete target hash p = false) :
    (podLoop d c target hash L deleted phase msg store).store = store ∧
    deletesOf (podLoop d c target hash L deleted phase msg store).actions = [] := by
  induction L generalizing phase msg with
  | nil => simp [podLoop, deletesOf]
  | cons pod rest ih =>
    have h1 : (needsDelete target hash pod && !deleted) = false := by
      simp [hq pod (by simp)]
    have ih2 := fun ph m => ih ph m (fun p hp => hq p (by simp [hp]))
    by_cases h3 : mainCtrTerminated pod = true
    · rcases hk : killSidecars c pod pod.status.containerStatuses with ⟨e, acts⟩
      have hkk := (killSidecars_only_kills c pod pod.status.containerStatuses).1
      rw [hk] at hkk
      simp only at hkk
      cases e with
      | some e =>
        rw [podLoop_cons_kill_err d c target hash pod rest deleted phase msg store e acts
          h1 h3 hk]
        exact ⟨rfl, hkk⟩
      | none =>
        rw [podLoop_cons_kill_ok d c target hash pod rest deleted phase msg store acts h1 h3 hk]
        simp only [deletesOf_append, hkk, List.nil_append]
        exact ih2 _ _
    · have h3' : mainCtrTerminated pod = false := by simpa using h3
      rw [podLoop_cons_keep d c target hash pod rest deleted phase msg store h1 h3']
      exact ih2 _ _

theorem fold_idempotent (d : Deps) (L : List Pod) (m : String) :
    L.foldl (aggregate d)
      ⟨StepPhase.Unknown, (L.foldl (aggregate d) ⟨StepPhase.Unknown, m⟩).message⟩ =
    L.foldl (aggregate d) ⟨StepPhase.Unknown, m⟩ := by
  rw [fold_unknown d L m, fold_unknown d L]
  cases L.find? (fun p => decide ((d.inferPhase p).1 = StepPhase.Failed)) <;> rfl

theorem reconcileListed_of_loop_ok (d : Deps) (c : Calls) (step : Step) (cur tgt : Int)
    (hash : String) (created : List Action) (store pods : List Pod)
    (h : (podLoop d c tgt hash pods false StepPhase.Unknown (oldStatusOf step).message
      store).err = none) :
    reconcileListed d c step cur tgt hash created store pods =
      patchStage d c step cur tgt
        (created ++ scaleEvents cur tgt ++
          (podLoop d c tgt hash pods false StepPhase.Unknown (oldStatusOf step).message
            store).actions) pods
        (podLoop d c tgt hash pods false StepPhase.Unknown (oldStatusOf step).message
          store).store
        (oldStatusOf step)
        { scaledStatus c (oldStatusOf step) cur tgt with
          phase := (podLoop d c tgt hash pods false StepPhase.Unknown
            (oldStatusOf step).message store).phase
          message := (podLoop d c tgt hash pods false StepPhase.Unknown
            (oldStatusOf step).message store).message } := by
  unfold reconcileListed
  simp only [scaledStatus_phase, scaledStatus_message, h]

theorem reconcileListed_of_loop_err (d : Deps) (c : Calls) (step : Step) (cur tgt : Int)
    (hash : String) (created : List Action) (store pods : List Pod) (e : ReconcileError)
    (h : (podLoop d c tgt hash pods false StepPhase.Unknown (oldStatusOf step).message
      store).err = some e) :
    reconcileListed d c step cur tgt hash created store pods =
      ⟨some e, none,
        created ++ scaleEvents cur tgt ++
          (podLoop d c tgt hash pods false StepPhase.Unknown (oldStatusOf step).message
            store).actions,
        some pods, none, none,
        ⟨some step, (podLoop d c tgt hash pods false StepPhase.Unknown
          (oldStatusOf step).message store).store⟩⟩ := by
  unfold reconcileListed
  simp only [scaledStatus_phase, scaledStatus_message, h]

theorem oldStatusOf_patched (step : Step) (n : StepStatus)
    (h1 : n.sinkStatues = none) (h2 : n.sourceStatues = none) :
    oldStatusOf { step with status := some (applyPatch step.status n) } = n := by
  cases n
  simp only at h1 h2
  subst h1 h2
  simp [oldStatusOf, applyPatch]

theorem GetReplicas_oldStatusOf (step : Step) :
    GetReplicas step.status = ((oldStatusOf step).replicas : Int) := by
  cases h : step.status <;> simp [GetReplicas, oldStatusOf, emptyStatus, h]

theorem createPods_no_fault (d : Deps) (c : Calls) (step : Step) (pn hash : String)
    (hc : ∀ p, c.createFails p = false) (rs : List Nat) (store : List Pod) :
    (createPods d c step pn hash rs store).err = none := by
  induction rs generalizing store with
  | nil => rfl
  | cons r rest ih =>
    unfold createPods
    have : IgnoreAlreadyExists (clientCreate c store (newPod d step pn hash r)).1 = none := by
      unfold clientCreate
      rw [hc]
      by_cases hex : store.any (samePod (newPod d step pn hash r)) = true <;>
        simp [hex, IgnoreAlreadyExists]
    simp only [this]
    exact ih _

/-- A pass over a world that needs nothing: the pods of the replicas exist (when the step may
create), the stored replicas equal the target, no selected pod meets the deletion condition and
the stored phase and message are what the fold gives. Such a pass adds and removes no pod,
emits no event, issues no patch, and its new status equals the loaded one. -/
theorem stable_pass (d : Deps) (c : Calls) (step : Step) (pods : List Pod)
    (hdt : step.deletionTimestamp = none)
    (hpres : (step.status.isNone || !(step.status.getD emptyStatus).phase.Completed) = true →
      ∀ r ∈ List.range (d.GetTargetReplicas step.spec).toNat,
        pods.any (samePod (newPod d step (mapGet step.labels KeyPipelineName)
          (d.MustHash step.spec) r)) = true)
    (hcur : GetReplicas step.status = d.GetTargetReplicas step.spec)
    (hkeep : ∀ p ∈ pods.filter
        (selects step.ns (d.ParseSelector (selectorText (mapGet step.labels KeyPipelineName) step.spec.name))),
      needsDelete (d.GetTargetReplicas step.spec) (d.MustHash step.spec) p = false)
    (hfold : (pods.filter
        (selects step.ns (d.ParseSelector (selectorText (mapGet step.labels KeyPipelineName) step.spec.name)))).foldl
          (aggregate d) ⟨StepPhase.Unknown, (oldStatusOf step).message⟩ =
        ⟨(oldStatusOf step).phase, (oldStatusOf step).message⟩) :
    (Reconcile d c ⟨some step, pods⟩).world.pods = pods ∧
    eventsOf (Reconcile d c ⟨some step, pods⟩).actions = [] ∧
    patchesOf (Reconcile d c ⟨some step, pods⟩).actions = [] ∧
    (Reconcile d c ⟨some step, pods⟩).newStatus = (Reconcile d c ⟨some step, pods⟩).oldStatus ∧
    (c.getFails = false → (∀ p, c.createFails p = false) → c.listFails = false →
      (∀ p, c.deleteFails p = false) → (∀ p n, c.killFails p n = false) →
      (Reconcile d c ⟨some step, pods⟩).err = none ∧
      (Reconcile d c ⟨some step, pods⟩).newStatus = some (oldStatusOf step)) := by
  have co := createStage_only_creates d c step (mapGet step.labels KeyPipelineName)
    (d.MustHash step.spec) (d.GetTargetReplicas step.spec) pods
  have hstore : (createStage d c step (mapGet step.labels KeyPipelineName)
      (d.MustHash step.spec) (d.GetTargetReplicas step.spec) pods).store = pods := by
    unfold createStage
    by_cases hcond : (step.status.isNone ||
        !(step.status.getD emptyStatus).phase.Completed) = true
    · rw [if_pos hcond]
      exact createPods_present _ _ _ _ _ _ _ (hpres hcond)
    · rw [if_neg hcond]
  by_cases hg : c.getFails = true
  · simp [Reconcile, hg, eventsOf, patchesOf]
  have hg' : c.getFails = false := by simpa using hg
  cases hce : (createStage d c step (mapGet step.labels KeyPipelineName)
      (d.MustHash step.spec) (d.GetTargetReplicas step.spec) pods).err with
  | some e =>
    have hcf : ¬ (∀ p, c.createFails p = false) := by
      intro hall
      have : (createStage d c step (mapGet step.labels KeyPipelineName)
          (d.MustHash step.spec) (d.GetTargetReplicas step.spec) pods).err = none := by
        unfold createStage
        split
        · exact createPods_no_fault _ _ _ _ _ hall _ _
        · rfl
      rw [this] at hce
      exact absurd hce (by simp)
    have hR : Reconcile d c ⟨some step, pods⟩ =
        ⟨some e, none, (createStage d c step (mapGet step.labels KeyPipelineName)
          (d.MustHash step.spec) (d.GetTargetReplicas step.spec) pods).actions, none, none, none,
          ⟨some step, (createStage d c step (mapGet step.labels KeyPipelineName)
          (d.MustHash step.spec) (d.GetTargetReplicas step.spec) pods).store⟩⟩ := by
      simp [Reconcile, hg', hdt, hce]
    rw [hR]
    exact ⟨hstore, co.2.2.1, co.2.2.2, rfl, fun _ h => absurd h hcf⟩
  | none =>
    by_cases hl : c.listFails = true
    · have hR : Reconcile d c ⟨some step, pods⟩ =
          ⟨some ReconcileError.listPods, none,
            (createStage d c step (mapGet step.labels KeyPipelineName)
              (d.MustHash step.spec) (d.GetTargetReplicas step.spec) pods).actions, none, none,
            none, ⟨some step, (createStage d c step (mapGet step.labels KeyPipelineName)
              (d.MustHash step.spec) (d.GetTargetReplicas step.spec) pods).store⟩⟩ := by
        simp [Reconcile, hg', hdt, hce, clientList, hl]
      rw [hR]
      refine ⟨hstore, co.2.2.1, co.2.2.2, rfl, fun _ _ h => ?_⟩
      rw [hl] at h
      exact absurd h (by simp)
    have hl' : c.listFails = false := by simpa using hl
    rw [Reconcile_eq_listed d c step pods hg' hdt hce hl', hstore, hcur]
    have hnm := podLoop_no_match d c (d.GetTargetReplicas step.spec) (d.MustHash step.spec)
      (pods.filter (selects step.ns (d.ParseSelector (selectorText (mapGet step.labels KeyPipelineName) step.spec.name))))
      false StepPhase.Unknown (oldStatusOf step).message pods hkeep
    have hnc := podLoop_no_creates d c (d.GetTargetReplicas step.spec) (d.MustHash step.spec)
      (pods.filter (selects step.ns (d.ParseSelector (selectorText (mapGet step.labels KeyPipelineName) step.spec.name))))
      false StepPhase.Unknown (oldStatusOf step).message pods
    have hse : scaleEvents (d.GetTargetReplicas step.spec) (d.GetTargetReplicas step.spec) =
        [] := by
      simp [scaleEvents]
    cases hle : (podLoop d c (d.GetTargetReplicas step.spec) (d.MustHash step.spec)
        (pods.filter (selects step.ns (d.ParseSelector (selectorText (mapGet step.labels KeyPipelineName) step.spec.name))))
        false StepPhase.Unknown (oldStatusOf step).message pods).err with
    | some e =>
      rw [reconcileListed_of_loop_err d c step _ _ _ _ _ _ e hle, hse]
      refine ⟨hnm.1, ?_, ?_, rfl, fun _ _ _ hd hk => ?_⟩
      · show eventsOf (_ ++ [] ++ _) = []
        simp only [eventsOf_append, co.2.2.1, hnc.2.1, List.append_nil, eventsOf]
      · show patchesOf (_ ++ [] ++ _) = []
        simp only [patchesOf_append, co.2.2.2, hnc.2.2, List.append_nil, patchesOf]
      have := podLoop_no_fault d c (d.GetTargetReplicas step.spec) (d.MustHash step.spec) hk hd
        (pods.filter (selects step.ns (d.ParseSelector (selectorText (mapGet step.labels KeyPipelineName) step.spec.name))))
        false StepPhase.Unknown (oldStatusOf step).message pods
      rw [this] at hle
      exact absurd hle (by simp)
    | none =>
      rw [reconcileListed_of_loop_ok d c step _ _ _ _ _ _ hle, hse]
      obtain ⟨_, _, a3, _⟩ := podLoop_ok d c _ _ _ false _ _ _ hle
      simp only [Bool.false_eq_true, if_false] at a3
      have hkept : keptPods (d.GetTargetReplicas step.spec) (d.MustHash step.spec)
          (pods.filter (selects step.ns (d.ParseSelector (selectorText (mapGet step.labels KeyPipelineName) step.spec.name)))) =
          pods.filter (selects step.ns (d.ParseSelector (selectorText (mapGet step.labels KeyPipelineName) step.spec.name))) := by
        unfold keptPods
        apply List.eraseP_of_forall_not
        intro p hp
        simp [hkeep p hp]
      rw [hkept, hfold] at a3
      have hph := congrArg StepPhaseMessage.phase a3
      have hms := congrArg StepPhaseMessage.message a3
      simp only at hph hms
      have hnew : ({ scaledStatus c (oldStatusOf step) (d.GetTargetReplicas step.spec)
            (d.GetTargetReplicas step.spec) with
          phase := (podLoop d c (d.GetTargetReplicas step.spec) (d.MustHash step.spec)
            (pods.filter (selects step.ns (d.ParseSelector (selectorText (mapGet step.labels KeyPipelineName) step.spec.name))))
            false StepPhase.Unknown (oldStatusOf step).message pods).phase
          message := (podLoop d c (d.GetTargetReplicas step.spec) (d.MustHash step.spec)
            (pods.filter (selects step.ns (d.ParseSelector (selectorText (mapGet step.labels KeyPipelineName) step.spec.name))))
            false StepPhase.Unknown (oldStatusOf step).message pods).message } : StepStatus) =
          oldStatusOf step := by
        rw [hph, hms]
        simp [scaledStatus]
      rw [hnew]
      have hps : ∀ acts store, patchStage d c step (d.GetTargetReplicas step.spec)
          (d.GetTargetReplicas step.spec) acts
            (pods.filter (selects step.ns (d.ParseSelector (selectorText (mapGet step.labels KeyPipelineName) step.spec.name))))
            store (oldStatusOf step) (oldStatusOf step) =
          ⟨none, some (d.RequeueAfter (d.GetTargetReplicas step.spec)
            (d.GetTargetReplicas step.spec)), acts,
            some (pods.filter
              (selects step.ns (d.ParseSelector (selectorText (mapGet step.labels KeyPipelineName) step.spec.name)))),
            some (oldStatusOf step), some (oldStatusOf step), ⟨some step, store⟩⟩ := by
        intro acts store
        simp [patchStage, NotEqual]
      rw [hps]
      refine ⟨hnm.1, ?_, ?_, rfl, fun _ _ _ _ _ => ⟨rfl, rfl⟩⟩
      · show eventsOf (_ ++ [] ++ _) = []
        simp only [eventsOf_append, co.2.2.1, hnc.2.1, List.append_nil, eventsOf]
      · show patchesOf (_ ++ [] ++ _) = []
        simp only [patchesOf_append, co.2.2.2, hnc.2.2, List.append_nil, patchesOf]

/-- What a pass that ends without error, with its patch applied and without deleting a pod,
leaves behind. -/
theorem first_pass (d : Deps) (c : Calls) (step : Step) (pods : List Pod)
    (hdt : step.deletionTimestamp = none)
    (herr : (Reconcile d c ⟨some step, pods⟩).err = none)
    (hpatch : c.patchResult = none)
    (hnodel : deletesOf (Reconcile d c ⟨some step, pods⟩).actions = []) :
    (createStage d c step (mapGet step.labels KeyPipelineName) (d.MustHash step.spec)
      (d.GetTargetReplicas step.spec) pods).err = none ∧
    (Reconcile d c ⟨some step, pods⟩).world.pods =
      (createStage d c step (mapGet step.labels KeyPipelineName) (d.MustHash step.spec)
        (d.GetTargetReplicas step.spec) pods).store ∧
    (∀ p ∈ (createStage d c step (mapGet step.labels KeyPipelineName) (d.MustHash step.spec)
        (d.GetTargetReplicas step.spec) pods).store.filter
          (selects step.ns (d.ParseSelector (selectorText (mapGet step.labels KeyPipelineName) step.spec.name))),
      needsDelete (d.GetTargetReplicas step.spec) (d.MustHash step.spec) p = false) ∧
    ∃ ns, (Reconcile d c ⟨some step, pods⟩).newStatus = some ns ∧
      (⟨ns.phase, ns.message⟩ : StepPhaseMessage) =
        ((createStage d c step (mapGet step.labels KeyPipelineName) (d.MustHash step.spec)
          (d.GetTargetReplicas step.spec) pods).store.filter
            (selects step.ns (d.ParseSelector (selectorText (mapGet step.labels KeyPipelineName) step.spec.name)))).foldl
          (aggregate d) ⟨StepPhase.Unknown, (oldStatusOf step).message⟩ ∧
      ns.replicas = (scaledStatus c (oldStatusOf step) (GetReplicas step.status)
        (d.GetTargetReplicas step.spec)).replicas ∧
      ns.sinkStatues = none ∧ ns.sourceStatues = none ∧
      ((oldStatusOf step = ns ∧ (Reconcile d c ⟨some step, pods⟩).world.step = some step) ∨
        (Reconcile d c ⟨some step, pods⟩).world.step =
          some { step with status := some (applyPatch step.status ns) }) := by
  have co := createStage_only_creates d c step (mapGet step.labels KeyPipelineName)
    (d.MustHash step.spec) (d.GetTargetReplicas step.spec) pods
  by_cases hg : c.getFails = true
  · have : (Reconcile d c ⟨some step, pods⟩).err = some ReconcileError.get := by
      simp [Reconcile, hg]
    rw [this] at herr; exact absurd herr (by simp)
  have hg' : c.getFails = false := by simpa using hg
  cases hce : (createStage d c step (mapGet step.labels KeyPipelineName)
      (d.MustHash step.spec) (d.GetTargetReplicas step.spec) pods).err with
  | some e =>
    have : (Reconcile d c ⟨some step, pods⟩).err = some e := by
      simp [Reconcile, hg', hdt, hce]
    rw [this] at herr; exact absurd herr (by simp)
  | none =>
    by_cases hl : c.listFails = true
    · have : (Reconcile d c ⟨some step, pods⟩).err = some ReconcileError.listPods := by
        simp [Reconcile, hg', hdt, hce, clientList, hl]
      rw [this] at herr; exact absurd herr (by simp)
    have hl' : c.listFails = false := by simpa using hl
    have hR := Reconcile_eq_listed d c step pods hg' hdt hce hl'
    rw [hR] at herr hnodel ⊢
    cases hle : (podLoop d c (d.GetTargetReplicas step.spec) (d.MustHash step.spec)
        ((createStage d c step (mapGet step.labels KeyPipelineName) (d.MustHash step.spec)
          (d.GetTargetReplicas step.spec) pods).store.filter
            (selects step.ns (d.ParseSelector (selectorText (mapGet step.labels KeyPipelineName) step.spec.name))))
        false StepPhase.Unknown (oldStatusOf step).message
        (createStage d c step (mapGet step.labels KeyPipelineName) (d.MustHash step.spec)
          (d.GetTargetReplicas step.spec) pods).store).err with
    | some e =>
      rw [reconcileListed_of_loop_err d c step _ _ _ _ _ _ e hle] at herr
      exact absurd herr (by simp)
    | none =>
      rw [reconcileListed_of_loop_ok d c step _ _ _ _ _ _ hle] at hnodel ⊢
      obtain ⟨_, p2, _, p4, p5, _⟩ := patchStage_fields d c step (GetReplicas step.status)
        (d.GetTargetReplicas step.spec)
        ((createStage d c step (mapGet step.labels KeyPipelineName) (d.MustHash step.spec)
          (d.GetTargetReplicas step.spec) pods).actions ++
          scaleEvents (GetReplicas step.status) (d.GetTargetReplicas step.spec) ++
          (podLoop d c (d.GetTargetReplicas step.spec) (d.MustHash step.spec)
            ((createStage d c step (mapGet step.labels KeyPipelineName) (d.MustHash step.spec)
              (d.GetTargetReplicas step.spec) pods).store.filter
                (selects step.ns (d.ParseSelector (selectorText (mapGet step.labels KeyPipelineName) step.spec.name))))
            false StepPhase.Unknown (oldStatusOf step).message
            (createStage d c step (mapGet step.labels KeyPipelineName) (d.MustHash step.spec)
              (d.GetTargetReplicas step.spec) pods).store).actions)
        ((createStage d c step (mapGet step.labels KeyPipelineName) (d.MustHash step.spec)
          (d.GetTargetReplicas step.spec) pods).store.filter
            (selects step.ns (d.ParseSelector (selectorText (mapGet step.labels KeyPipelineName) step.spec.name))))
        (podLoop d c (d.GetTargetReplicas step.spec) (d.MustHash step.spec)
            ((createStage d c step (mapGet step.labels KeyPipelineName) (d.MustHash step.spec)
              (d.GetTargetReplicas step.spec) pods).store.filter
                (selects step.ns (d.ParseSelector (selectorText (mapGet step.labels KeyPipelineName) step.spec.name))))
            false StepPhase.Unknown (oldStatusOf step).message
            (createStage d c step (mapGet step.labels KeyPipelineName) (d.MustHash step.spec)
              (d.GetTargetReplicas step.spec) pods).store).store
        (oldStatusOf step)
        { scaledStatus c (oldStatusOf step) (GetReplicas step.status)
            (d.GetTargetReplicas step.spec) with
          phase := (podLoop d c (d.GetTargetReplicas step.spec) (d.MustHash step.spec)
            ((createStage d c step (mapGet step.labels KeyPipelineName) (d.MustHash step.spec)
              (d.GetTargetReplicas step.spec) pods).store.filter
                (selects step.ns (d.ParseSelector (selectorText (mapGet step.labels KeyPipelineName) step.spec.name))))
            false StepPhase.Unknown (oldStatusOf step).message
            (createStage d c step (mapGet step.labels KeyPipelineName) (d.MustHash step.spec)
              (d.GetTargetReplicas step.spec) pods).store).phase
          message := (podLoop d c (d.GetTargetReplicas step.spec) (d.MustHash step.spec)
            ((createStage d c step (mapGet step.labels KeyPipelineName) (d.MustHash step.spec)
              (d.GetTargetReplicas step.spec) pods).store.filter
                (selects step.ns (d.ParseSelector (selectorText (mapGet step.labels KeyPipelineName) step.spec.name))))
            false StepPhase.Unknown (oldStatusOf step).message
            (createStage d c step (mapGet step.labels KeyPipelineName) (d.MustHash step.spec)
              (d.GetTargetReplicas step.spec) pods).store).message }
      obtain ⟨_, q2, q3⟩ := patchStage_applied d c step (GetReplicas step.status)
        (d.GetTargetReplicas step.spec)
        ((createStage d c step (mapGet step.labels KeyPipelineName) (d.MustHash step.spec)
          (d.GetTargetReplicas step.spec) pods).actions ++
          scaleEvents (GetReplicas step.status) (d.GetTargetReplicas step.spec) ++
          (podLoop d c (d.GetTargetReplicas step.spec) (d.MustHash step.spec)
            ((createStage d c step (mapGet step.labels KeyPipelineName) (d.MustHash step.spec)
              (d.GetTargetReplicas step.spec) pods).store.filter
                (selects step.ns (d.ParseSelector (selectorText (mapGet step.labels KeyPipelineName) step.spec.name))))
            false StepPhase.Unknown (oldStatusOf step).message
            (createStage d c step (mapGet step.labels KeyPipelineName) (d.MustHash step.spec)
              (d.GetTargetReplicas step.spec) pods).store).actions)
        ((createStage d c step (mapGet step.labels KeyPipelineName) (d.MustHash step.spec)
          (d.GetTargetReplicas step.spec) pods).store.filter
            (selects step.ns (d.ParseSelector (selectorText (mapGet step.labels KeyPipelineName) step.spec.name))))
        (podLoop d c (d.GetTargetReplicas step.spec) (d.MustHash step.spec)
            ((createStage d c step (mapGet step.labels KeyPipelineName) (d.MustHash step.spec)
              (d.GetTargetReplicas step.spec) pods).store.filter
                (selects step.ns (d.ParseSelector (selectorText (mapGet step.labels KeyPipelineName) step.spec.name))))
            false StepPhase.Unknown (oldStatusOf step).message
            (createStage d c step (mapGet step.labels KeyPipelineName) (d.MustHash step.spec)
              (d.GetTargetReplicas step.spec) pods).store).store
        (oldStatusOf step)
        { scaledStatus c (oldStatusOf step) (GetReplicas step.status)
            (d.GetTargetReplicas step.spec) with
          phase := (podLoop d c (d.GetTargetReplicas step.spec) (d.MustHash step.spec)
            ((createStage d c step (mapGet step.labels KeyPipelineName) (d.MustHash step.spec)
              (d.GetTargetReplicas step.spec) pods).store.filter
                (selects step.ns (d.ParseSelector (selectorText (mapGet step.labels KeyPipelineName) step.spec.name))))
            false StepPhase.Unknown (oldStatusOf step).message
            (createStage d c step (mapGet step.labels KeyPipelineName) (d.MustHash step.spec)
              (d.GetTargetReplicas step.spec) pods).store).phase
          message := (podLoop d c (d.GetTargetReplicas step.spec) (d.MustHash step.spec)
            ((createStage d c step (mapGet step.labels KeyPipelineName) (d.MustHash step.spec)
              (d.GetTargetReplicas step.spec) pods).store.filter
                (selects step.ns (d.ParseSelector (selectorText (mapGet step.labels KeyPipelineName) step.spec.name))))
            false StepPhase.Unknown (oldStatusOf step).message
            (createStage d c step (mapGet step.labels KeyPipelineName) (d.MustHash step.spec)
              (d.GetTargetReplicas step.spec) pods).store).message } hpatch
      obtain ⟨_, a2, a3, _, _, _, a7⟩ := podLoop_ok d c _ _ _ false _ _ _ hle
      simp only [Bool.false_eq_true, if_false] at a2 a3 a7
      rw [p5, deletesOf_append, deletesOf_append, co.1, (scaleEvents_only_events _ _).1,
        List.nil_append, List.nil_append, a2] at hnodel
      have hfind : ((createStage d c step (mapGet step.labels KeyPipelineName)
          (d.MustHash step.spec) (d.GetTargetReplicas step.spec) pods).store.filter
            (selects step.ns (d.ParseSelector (selectorText (mapGet step.labels KeyPipelineName) step.spec.name)))).find?
          (needsDelete (d.GetTargetReplicas step.spec) (d.MustHash step.spec)) = none := by
        cases hf : ((createStage d c step (mapGet step.labels KeyPipelineName)
          (d.MustHash step.spec) (d.GetTargetReplicas step.spec) pods).store.filter
            (selects step.ns (d.ParseSelector (selectorText (mapGet step.labels KeyPipelineName) step.spec.name)))).find?
          (needsDelete (d.GetTargetReplicas step.spec) (d.MustHash step.spec)) with
        | none => rfl
        | some p => rw [hf] at hnodel; simp at hnodel
      have hkeep : ∀ p ∈ (createStage d c step (mapGet step.labels KeyPipelineName)
          (d.MustHash step.spec) (d.GetTargetReplicas step.spec) pods).store.filter
            (selects step.ns (d.ParseSelector (selectorText (mapGet step.labels KeyPipelineName) step.spec.name))),
          needsDelete (d.GetTargetReplicas step.spec) (d.MustHash step.spec) p = false := by
        intro p hp
        have := List.find?_eq_none.1 hfind p hp
        simpa using this
      have hkept : keptPods (d.GetTargetReplicas step.spec) (d.MustHash step.spec)
          ((createStage d c step (mapGet step.labels KeyPipelineName)
          (d.MustHash step.spec) (d.GetTargetReplicas step.spec) pods).store.filter
            (selects step.ns (d.ParseSelector (selectorText (mapGet step.labels KeyPipelineName) step.spec.name)))) =
          (createStage d c step (mapGet step.labels KeyPipelineName)
          (d.MustHash step.spec) (d.GetTargetReplicas step.spec) pods).store.filter
            (selects step.ns (d.ParseSelector (selectorText (mapGet step.labels KeyPipelineName) step.spec.name))) := by
        unfold keptPods
        apply List.eraseP_of_forall_not
        intro p hp
        simp [hkeep p hp]
      rw [hkept] at a3
      rw [hfind] at a7
      refine ⟨rfl, ?_, hkeep, _, p4, a3, rfl, ?_, ?_, ?_⟩
      · rw [p2, a7]
      · simp [scaledStatus, oldStatusOf]; split <;> rfl
      · simp [scaledStatus, oldStatusOf]; split <;> rfl
      · by_cases hcmp : oldStatusOf step =
            { scaledStatus c (oldStatusOf step) (GetReplicas step.status)
                (d.GetTargetReplicas step.spec) with
              phase := (podLoop d c (d.GetTargetReplicas step.spec) (d.MustHash step.spec)
                ((createStage d c step (mapGet step.labels KeyPipelineName)
                  (d.MustHash step.spec) (d.GetTargetReplicas step.spec) pods).store.filter
                    (selects step.ns (d.ParseSelector (selectorText (mapGet step.labels KeyPipelineName) step.spec.name))))
                false StepPhase.Unknown (oldStatusOf step).message
                (createStage d c step (mapGet step.labels KeyPipelineName)
                  (d.MustHash step.spec) (d.GetTargetReplicas step.spec) pods).store).phase
              message := (podLoop d c (d.GetTargetReplicas step.spec) (d.MustHash step.spec)
                ((createStage d c step (mapGet step.labels KeyPipelineName)
                  (d.MustHash step.spec) (d.GetTargetReplicas step.spec) pods).store.filter
                    (selects step.ns (d.ParseSelector (selectorText (mapGet step.labels KeyPipelineName) step.spec.name))))
                false StepPhase.Unknown (oldStatusOf step).message
                (createStage d c step (mapGet step.labels KeyPipelineName)
                  (d.MustHash step.spec) (d.GetTargetReplicas step.spec) pods).store).message }
        · exact Or.inl ⟨hcmp, q3 hcmp⟩
        · exact Or.inr (q2 hcmp)

/-- The second pass on the world a clean first pass leaves: the step `s1` stored after the
first pass differs from `step` in its status only, and its status (counter maps apart) is the
`ns` the first pass computed. -/
theorem second_pass (d : Deps) (c1 c2 : Calls) (step s1 : Step) (pods : List Pod)
    (hdt : step.deletionTimestamp = none)
    (herr : (Reconcile d c1 ⟨some step, pods⟩).err = none)
    (hpatch : c1.patchResult = none)
    (hnodel : deletesOf (Reconcile d c1 ⟨some step, pods⟩).actions = [])
    (hrange : 0 ≤ d.GetTargetReplicas step.spec ∧ d.GetTargetReplicas step.spec < 2 ^ 32)
    (hterm : ∀ st ns, step.status = some st → st.phase.Completed = true →
      (Reconcile d c1 ⟨some step, pods⟩).newStatus = some ns → ns.phase.Completed = true)
    (e1 : s1.ns = step.ns) (e2 : s1.name = step.name) (e3 : s1.labels = step.labels)
    (e4 : s1.deletionTimestamp = none) (e5 : s1.spec = step.spec)
    (e6 : ∀ ns, (Reconcile d c1 ⟨some step, pods⟩).newStatus = some ns → oldStatusOf s1 = ns)
    (e7 : s1.status = none → step.status = none) :
    (Reconcile d c2 ⟨some s1, (Reconcile d c1 ⟨some step, pods⟩).world.pods⟩).world.pods =
      (Reconcile d c1 ⟨some step, pods⟩).world.pods ∧
    eventsOf (Reconcile d c2
      ⟨some s1, (Reconcile d c1 ⟨some step, pods⟩).world.pods⟩).actions = [] ∧
    patchesOf (Reconcile d c2
      ⟨some s1, (Reconcile d c1 ⟨some step, pods⟩).world.pods⟩).actions = [] ∧
    (Reconcile d c2 ⟨some s1, (Reconcile d c1 ⟨some step, pods⟩).world.pods⟩).newStatus =
      (Reconcile d c2 ⟨some s1, (Reconcile d c1 ⟨some step, pods⟩).world.pods⟩).oldStatus ∧
    (c2.getFails = false → (∀ p, c2.createFails p = false) → c2.listFails = false →
      (∀ p, c2.deleteFails p = false) → (∀ p n, c2.killFails p n = false) →
      (Reconcile d c2 ⟨some s1, (Reconcile d c1 ⟨some step, pods⟩).world.pods⟩).err = none ∧
      (Reconcile d c2 ⟨some s1, (Reconcile d c1 ⟨some step, pods⟩).world.pods⟩).newStatus =
        some (oldStatusOf s1)) := by
  obtain ⟨f1, f2, f3, ns, f4, f5, f6, _, _, _⟩ := first_pass d c1 step pods hdt herr hpatch hnodel
  have hold := e6 ns f4
  rw [f2]
  apply stable_pass d c2 s1 _ e4
  · -- the pods of the replicas are present
    intro hcond
    rw [e3, e5]
    intro r hr
    rw [newPod_congr d s1 step _ _ r e1 e2 e5]
    by_cases hc0 : (step.status.isNone ||
        !(step.status.getD emptyStatus).phase.Completed) = true
    · have hcs : createStage d c1 step (mapGet step.labels KeyPipelineName)
          (d.MustHash step.spec) (d.GetTargetReplicas step.spec) pods =
          createPods d c1 step (mapGet step.labels KeyPipelineName) (d.MustHash step.spec)
            (List.range (d.GetTargetReplicas step.spec).toNat) pods := by
        unfold createStage; rw [if_pos hc0]
      rw [hcs] at f1 ⊢
      exact createPods_covers _ _ _ _ _ _ _ f1 r hr
    · exfalso
      cases hs : step.status with
      | none => simp [hs] at hc0
      | some st =>
        have hcomp : st.phase.Completed = true := by simpa [hs] using hc0
        have hnsc := hterm st ns hs hcomp f4
        have hph : (s1.status.getD emptyStatus).phase = ns.phase := by
          rw [← hold]; rfl
        cases hs1 : s1.status with
        | none => rw [e7 hs1] at hs; exact absurd hs (by simp)
        | some st1 =>
          rw [hs1] at hcond hph
          simp only [Option.isNone_some, Option.getD_some, Bool.false_or, Bool.not_eq_true',
            ] at hcond hph
          rw [hph, hnsc] at hcond
          exact absurd hcond (by simp)
  · -- the stored replicas are the target
    rw [GetReplicas_oldStatusOf, hold, f6, e5]
    unfold scaledStatus
    by_cases hct : GetReplicas step.status = d.GetTargetReplicas step.spec
    · simp only [ne_eq, hct, not_true_eq_false, if_false]
      rw [← hct, GetReplicas_oldStatusOf]
    · simp only [ne_eq, hct, not_false_eq_true, if_true]
      rw [Int.toNat_of_nonneg (Int.emod_nonneg _ (by norm_num))]
      exact Int.emod_eq_of_lt hrange.1 hrange.2
  · rw [e1, e3, e5]; exact f3
  · rw [e1, e3, e5, hold]
    have hm : ns.message = (((createStage d c1 step (mapGet step.labels KeyPipelineName)
        (d.MustHash step.spec) (d.GetTargetReplicas step.spec) pods).store.filter
          (selects step.ns (d.ParseSelector (selectorText (mapGet step.labels KeyPipelineName) step.spec.name)))).foldl
        (aggregate d) ⟨StepPhase.Unknown, (oldStatusOf step).message⟩).message := by
      rw [← f5]
    rw [hm, fold_idempotent, ← f5]

theorem world_eq_of_step (w : World) (s : Step) (h : w.step = some s) :
    w = ⟨some s, w.pods⟩ := by
  cases w
  simp only at h
  subst h
  rfl

/-- C4, as stated, fails, in three ways. (1) The step `s` has one pod with a stale hash: the
first pass deletes it and completes, the second pass creates `s-0` anew. (2) The step is
Succeeded and has no pods: the first pass computes phase Unknown and patches it, so the second
pass creates `s-0`. (3) targetReplicas is 4294967296 and the step is Failed: the first pass
stores `uint32(4294967296) = 0` replicas, so the second pass finds the replicas different from
the target again and emits the scaling event again. -/
theorem C4_counterexample :
    ((Reconcile (exDeps 1 "H2") (Calls.ok 0)
        ⟨some (exStep (some (exStatus StepPhase.Running 1))),
          [exPod 0 "H1" "Running" []]⟩).err = none ∧
      (Reconcile (exDeps 1 "H2") (Calls.ok 0)
        ⟨some (exStep (some (exStatus StepPhase.Running 1))),
          [exPod 0 "H1" "Running" []]⟩).world.pods = [] ∧
      (Reconcile (exDeps 1 "H2") (Calls.ok 1)
        (Reconcile (exDeps 1 "H2") (Calls.ok 0)
          ⟨some (exStep (some (exStatus StepPhase.Running 1))),
            [exPod 0 "H1" "Running" []]⟩).world).world.pods.map Pod.name = ["s-0"]) ∧
    ((Reconcile (exDeps 1 "H1") (Calls.ok 0)
        ⟨some (exStep (some (exStatus StepPhase.Succeeded 1))), []⟩).err = none ∧
      (Reconcile (exDeps 1 "H1") (Calls.ok 0)
        ⟨some (exStep (some (exStatus StepPhase.Succeeded 1))), []⟩).world.pods = [] ∧
      (Reconcile (exDeps 1 "H1") (Calls.ok 1)
        (Reconcile (exDeps 1 "H1") (Calls.ok 0)
          ⟨some (exStep (some (exStatus StepPhase.Succeeded 1))), []⟩).world).world.pods.map
            Pod.name = ["s-0"]) ∧
    ((Reconcile (exDeps 4294967296 "H1") (Calls.ok 0)
        ⟨some (exStep (some (exStatus StepPhase.Failed 5))),
          [exPod 0 "H1" "Failed" []]⟩).err = none ∧
      eventsOf (Reconcile (exDeps 4294967296 "H1") (Calls.ok 1)
        (Reconcile (exDeps 4294967296 "H1") (Calls.ok 0)
          ⟨some (exStep (some (exStatus StepPhase.Failed 5))),
            [exPod 0 "H1" "Failed" []]⟩).world).actions =
        [("Normal", "ScaleUp", "Scaling from 0 to 4294967296")]) := by
  refine ⟨by decide, by decide, ?_⟩
  decide

/-- C4, amended: `Reconcile` is idempotent on a world in which a first pass has completed
without error, deleted no pod and had its status patch applied, when targetReplicas lies in
`0 .. 2^32 - 1` (so that `status.replicas` can hold it) and the first pass did not turn a
terminal status into a non-terminal one: with nothing else changed, a second pass adds and
removes no pod, emits no event, issues no status patch, and the new status it computes equals
the loaded status (counter maps apart); when no call of the second pass fails, it completes
and computes the status the first pass computed. -/
theorem C4_idempotent (d : Deps) (c1 c2 : Calls) (w : World)
    (herr : (Reconcile d c1 w).err = none)
    (hpatch : c1.patchResult = none)
    (hnodel : deletesOf (Reconcile d c1 w).actions = [])
    (hrange : ∀ step, w.step = some step →
      0 ≤ d.GetTargetReplicas step.spec ∧ d.GetTargetReplicas step.spec < 2 ^ 32)
    (hterm : ∀ step st ns, w.step = some step → step.status = some st →
      st.phase.Completed = true → (Reconcile d c1 w).newStatus = some ns →
      ns.phase.Completed = true) :
    (Reconcile d c2 (Reconcile d c1 w).world).world.pods = (Reconcile d c1 w).world.pods ∧
    eventsOf (Reconcile d c2 (Reconcile d c1 w).world).actions = [] ∧
    patchesOf (Reconcile d c2 (Reconcile d c1 w).world).actions = [] ∧
    (Reconcile d c2 (Reconcile d c1 w).world).newStatus =
      (Reconcile d c2 (Reconcile d c1 w).world).oldStatus ∧
    (c2.getFails = false → (∀ p, c2.createFails p = false) → c2.listFails = false →
      (∀ p, c2.deleteFails p = false) → (∀ p n, c2.killFails p n = false) →
      (Reconcile d c2 (Reconcile d c1 w).world).err = none ∧
      (Reconcile d c2 (Reconcile d c1 w).world).newStatus = (Reconcile d c1 w).newStatus) := by
  obtain ⟨wstep, pods⟩ := w
  by_cases hg : c1.getFails = true
  · have : (Reconcile d c1 ⟨wstep, pods⟩).err = some ReconcileError.get := by
      simp [Reconcile, hg]
    rw [this] at herr; exact absurd herr (by simp)
  have hg' : c1.getFails = false := by simpa using hg
  cases wstep with
  | none =>
    have h1 : Reconcile d c1 ⟨none, pods⟩ = ⟨none, some 0, [], none, none, none, ⟨none, pods⟩⟩ := by
      simp [Reconcile, hg']
    rw [h1]
    by_cases hg2 : c2.getFails = true
    · simp [Reconcile, hg2, eventsOf, patchesOf]
    · simp [Reconcile, hg2, eventsOf, patchesOf]
  | some step =>
    cases hdt : step.deletionTimestamp with
    | some t =>
      have h1 : Reconcile d c1 ⟨some step, pods⟩ =
          ⟨none, some 0, [], none, none, none, ⟨some step, pods⟩⟩ := by
        simp [Reconcile, hg', hdt]
      rw [h1]
      by_cases hg2 : c2.getFails = true
      · simp [Reconcile, hg2, eventsOf, patchesOf]
      · simp [Reconcile, hg2, hdt, eventsOf, patchesOf]
    | none =>
      obtain ⟨_, _, _, ns, f4, _, _, f7, f8, f9⟩ :=
        first_pass d c1 step pods hdt herr hpatch hnodel
      have hsp := fun s1 (hw : (Reconcile d c1 ⟨some step, pods⟩).world.step = some s1)
          e1 e2 e3 e4 e5 e6 e7 =>
        second_pass d c1 c2 step s1 pods hdt herr hpatch hnodel (hrange step rfl)
          (fun st ns hs hc hn => hterm step st ns rfl hs hc hn) e1 e2 e3 e4 e5 e6 e7
      rcases f9 with ⟨hsame, hws⟩ | hws
      · have hw : (Reconcile d c1 ⟨some step, pods⟩).world =
            ⟨some step, (Reconcile d c1 ⟨some step, pods⟩).world.pods⟩ :=
          world_eq_of_step _ _ hws
        have := hsp step hws rfl rfl rfl hdt rfl
          (fun ns2 h2 => by rw [f4] at h2; cases Option.some.inj h2; exact hsame)
          (fun h => h)
        rw [← hw] at this
        obtain ⟨r1, r2, r3, r4, r5⟩ := this
        refine ⟨r1, r2, r3, r4, fun a b c d e => ?_⟩
        obtain ⟨s1, s2⟩ := r5 a b c d e
        exact ⟨s1, by rw [s2, f4, hsame]⟩
      · have hw : (Reconcile d c1 ⟨some step, pods⟩).world =
            ⟨some { step with status := some (applyPatch step.status ns) },
              (Reconcile d c1 ⟨some step, pods⟩).world.pods⟩ :=
          world_eq_of_step _ _ hws
        have hold := oldStatusOf_patched step ns f7 f8
        have := hsp { step with status := some (applyPatch step.status ns) } hws rfl rfl rfl hdt
          rfl
          (fun ns2 h2 => by rw [f4] at h2; cases Option.some.inj h2; exact hold)
          (fun h => by simp at h)
        rw [← hw] at this
        obtain ⟨r1, r2, r3, r4, r5⟩ := this
        refine ⟨r1, r2, r3, r4, fun a b c d e => ?_⟩
        obtain ⟨s1, s2⟩ := r5 a b c d e
        exact ⟨s1, by rw [s2, f4, hold]⟩

/-- Witness of C4: the world left by the pass that scales the step `s` up to 2 pods. -/
theorem C4_idempotent_witness :
    (Reconcile (exDeps 2 "H1") (Calls.ok 1)
      (Reconcile (exDeps 2 "H1") (Calls.ok 0) ⟨some (exStep none), []⟩).world).world.pods =
      (Reconcile (exDeps 2 "H1") (Calls.ok 0) ⟨some (exStep none), []⟩).world.pods ∧
    eventsOf (Reconcile (exDeps 2 "H1") (Calls.ok 1)
      (Reconcile (exDeps 2 "H1") (Calls.ok 0) ⟨some (exStep none), []⟩).world).actions = [] ∧
    patchesOf (Reconcile (exDeps 2 "H1") (Calls.ok 1)
      (Reconcile (exDeps 2 "H1") (Calls.ok 0) ⟨some (exStep none), []⟩).world).actions = [] :=
  have h := C4_idempotent (exDeps 2 "H1") (Calls.ok 0) (Calls.ok 1) ⟨some (exStep none), []⟩
    (by decide) rfl (by decide) (fun _ _ => ⟨show (0 : Int) ≤ 2 by decide, show (2 : Int) < 2 ^ 32 by decide⟩)
    (fun step st _ h1 h2 => by cases h1; cases h2)
  ⟨h.1, h.2.1, h.2.2.1⟩

/-- C10, as stated, fails. With both stale pods Running: pass 2 creates the new `s-0` and also
deletes `s-1` (the claim: deletes nothing), pass 3 deletes nothing (the claim: deletes `s-1`)
and creates the new `s-1`, and pass 4 changes nothing (the claim: creates the new `s-1`). With
`s-1` in phase Failed: pass 1 leaves the step Failed, so pass 2 creates nothing. -/
theorem C10_counterexample :
    (deletesOf (rolloutPass "Running" "Running" 1).actions = [exPod 1 "H1" "Running" []] ∧
      deletesOf (rolloutPass "Running" "Running" 2).actions = [] ∧
      (rolloutAfter "Running" "Running" 3).pods = [freshPod 0, freshPod 1] ∧
      (rolloutAfter "Running" "Running" 4).pods = (rolloutAfter "Running" "Running" 3).pods) ∧
    (deletesOf (rolloutPass "Running" "Failed" 0).actions = [exPod 0 "H1" "Running" []] ∧
      createsOf (rolloutPass "Running" "Failed" 1).actions = [] ∧
      (rolloutAfter "Running" "Failed" 2).pods = []) := by
  refine ⟨by decide, by decide⟩

/-- C10, amended: starting from a step with replicas 2, a non-terminal phase and spec hash H2,
and pods `s-0` and `s-1` both annotated with the stale hash H1 (listed in that order, every
call succeeding, deletes taking effect before the next pass, the stale pods in any pod phase
whose inferred step phase is not Failed), four successive passes do exactly: pass 1 deletes
`s-0` and creates nothing; pass 2 creates a new `s-0` with hash H2 and deletes `s-1`; pass 3
creates a new `s-1` with hash H2 and deletes nothing; pass 4 creates and deletes nothing; at no
point do a stale and a fresh pod with the same replica index coexist. -/
theorem C10_rollout :
    ∀ ph0 ∈ ["", "Pending", "Running", "Succeeded"],
    ∀ ph1 ∈ ["", "Pending", "Running", "Succeeded"],
      ((rolloutPass ph0 ph1 0).err = none ∧
        deletesOf (rolloutPass ph0 ph1 0).actions = [exPod 0 "H1" ph0 []] ∧
        (rolloutAfter ph0 ph1 1).pods = [exPod 1 "H1" ph1 []]) ∧
      ((rolloutPass ph0 ph1 1).err = none ∧
        deletesOf (rolloutPass ph0 ph1 1).actions = [exPod 1 "H1" ph1 []] ∧
        (rolloutAfter ph0 ph1 2).pods = [freshPod 0]) ∧
      ((rolloutPass ph0 ph1 2).err = none ∧
        deletesOf (rolloutPass ph0 ph1 2).actions = [] ∧
        (rolloutAfter ph0 ph1 3).pods = [freshPod 0, freshPod 1]) ∧
      ((rolloutPass ph0 ph1 3).err = none ∧
        deletesOf (rolloutPass ph0 ph1 3).actions = [] ∧
        (rolloutAfter ph0 ph1 4).pods = [freshPod 0, freshPod 1]) ∧
      [freshPod 0, freshPod 1].map (fun p => (p.name, mapGet p.annotations KeyHash)) =
        [("s-0", "H2"), ("s-1", "H2")] ∧
      (∀ k ∈ [0, 1, 2, 3, 4], staleAndFresh "H2" (rolloutAfter ph0 ph1 k).pods = false) := by
  decide

/-- Witness of C10: both stale pods Running. -/
theorem C10_rollout_witness :
    (deletesOf (rolloutPass "Running" "Running" 0).actions = [exPod 0 "H1" "Running" []] ∧
      (rolloutAfter "Running" "Running" 1).pods = [exPod 1 "H1" "Running" []]) ∧
    (deletesOf (rolloutPass "Running" "Running" 1).actions = [exPod 1 "H1" "Running" []] ∧
      (rolloutAfter "Running" "Running" 2).pods = [freshPod 0]) ∧
    (deletesOf (rolloutPass "Running" "Running" 2).actions = [] ∧
      (rolloutAfter "Running" "Running" 3).pods = [freshPod 0, freshPod 1]) ∧
    (deletesOf (rolloutPass "Running" "Running" 3).actions = [] ∧
      (rolloutAfter "Running" "Running" 4).pods = [freshPod 0, freshPod 1]) :=
  have h := C10_rollout "Running" (by decide) "Running" (by decide)
  ⟨⟨h.1.2.1, h.1.2.2⟩, ⟨h.2.1.2.1, h.2.1.2.2⟩, ⟨h.2.2.1.2.1, h.2.2.1.2.2⟩,
    ⟨h.2.2.2.1.2.1, h.2.2.2.1.2.2⟩⟩
end ArgoDataflow
